import Mathlib

/-! Grid raycasting in 2D: a shallow embedding of `driver.c` and `helpers.c`.

The C program casts a ray through a uniform tile grid and records, per axis, the
points where the ray crosses tile edges.  The embedding below follows
`generateRaycastPointsAlongEdges` statement by statement.

* `float` values are elements of an arbitrary linear ordered field `K` with a floor
  function, so the arithmetic is exact; the theorems hold for every such field or are
  stated for `ℝ`.  The rounding of binary32 is not part of the embedding: a statement that
  rests on two computed values being equal, such as a point lying exactly on a grid line
  or a length being exactly the ray length, is a statement about exact arithmetic.
* `sqrtf` is a parameter of the embedding; the theorems that depend on its value
  instantiate it with `Real.sqrt`, the others hold for every `sqrtf`.
* The conversion of a `float` to an `int` truncates toward zero, as in C.
* The globals `raycast_origin` and `raycast_vector` are explicit arguments.
* The `while (true)` stepping loops take a fuel argument and answer `none` when the
  fuel is used up before the loop reaches one of its `break`s.
* An early `return` of the C function leaves nothing to draw: the result is `[]`.
* The grid is the one of the source: origin (0, 0), tiles of 20 by 20, 40 by 30 tiles.

The definitions of the embedding come first, then the vocabulary used by the proofs, then
the lemmas, the evaluated rays, and the theorems that settle the claims.
-/

set_option linter.unusedSectionVars false

namespace GridRaycast

/-! ## datatypes.h -/

/-- Pair of C `int`s. -/
structure SVec2i where
  x : Int
  y : Int
  deriving DecidableEq, Repr

/-- Pair of C `float`s, taken in the field `K`. -/
structure SVec2f (K : Type) where
  x : K
  y : K
  deriving DecidableEq, Repr

/-- Axis aligned box given by its two corners. -/
structure SAABB4f (K : Type) where
  min : SVec2f K
  max : SVec2f K

/-- Pair of C `bool`s. -/
structure SVec2b where
  x : Bool
  y : Bool
  deriving DecidableEq, Repr

/-- One recorded crossing of a tile edge. -/
structure SImpactInformation (K : Type) where
  impact_time : K
  impact_point : SVec2f K
  impact_tile : SVec2i
  deriving DecidableEq, Repr

/-! ## helpers.c -/

section Embedding

variable {K : Type} [LinearOrderedField K] [FloorRing K]

/-- Sign of a value, `helpers.c` lines 3-16. -/
def float_direction (value : K) : Int :=
  if value > 0 then 1
  else if value < 0 then -1
  else 0

/-- Sign of both components, `helpers.c` lines 18-24. -/
def helper_vector_direction (vector : SVec2f K) : SVec2i :=
  ⟨float_direction vector.x, float_direction vector.y⟩

/-- C conversion of a `float` to an `int`: the fractional part is discarded. -/
def float_to_int (value : K) : Int :=
  if 0 ≤ value then Int.floor value else Int.ceil value

/-! ## driver.c: constants and grid state (lines 24-52) -/

def SCREEN_WIDTH : Int := 800

def SCREEN_HEIGHT : Int := 600

def gridTileDimensions : SVec2i := ⟨20, 20⟩

def tilesOnGridAxis : SVec2i :=
  ⟨Int.tdiv SCREEN_WIDTH gridTileDimensions.x, Int.tdiv SCREEN_HEIGHT gridTileDimensions.y⟩

def gridDimensions : SVec2i :=
  ⟨tilesOnGridAxis.x * gridTileDimensions.x, tilesOnGridAxis.y * gridTileDimensions.y⟩

def gridOriginBottomLeft : SVec2i := ⟨0, 0⟩

def grid_bounding_box : SAABB4f K :=
  ⟨⟨(gridOriginBottomLeft.x : K), (gridOriginBottomLeft.y : K)⟩,
   ⟨((gridOriginBottomLeft.x + gridDimensions.x : Int) : K),
    ((gridOriginBottomLeft.y + gridDimensions.y : Int) : K)⟩⟩

/-- Capacity of each per-axis buffer, `driver.c` line 160. -/
def MAX_POINTS_PER_AXIS : Nat := 256

/-! ## driver.c: the comparator and the sort (lines 145-156, 436) -/

/-- Comparator handed to `qsort`, `driver.c` lines 145-156. -/
def sort_impact_information (info_left info_right : SImpactInformation K) : Int :=
  if info_left.impact_time < info_right.impact_time then -1
  else if info_left.impact_time > info_right.impact_time then 1
  else 0

/-- The C library `qsort`, which is not part of the repository, taken as an insertion
sort driven by the comparator: `a` is placed before `b` when `compare a b ≤ 0`. -/
def qsort {α : Type} (compare : α → α → Int) (base : List α) : List α :=
  List.insertionSort (fun a b => compare a b ≤ 0) base

/-! ## driver.c: `generateRaycastPointsAlongEdges` (lines 158-436) -/

/-- The bounding box test written out four times in the source
(lines 222-226, 279-284, 327-331, 384-389). -/
def out_of_grid_bounds (p : SVec2f K) : Prop :=
  p.x < (grid_bounding_box (K := K)).min.x ∨
  p.x > (grid_bounding_box (K := K)).max.x ∨
  p.y < (grid_bounding_box (K := K)).min.y ∨
  p.y > (grid_bounding_box (K := K)).max.y

instance (p : SVec2f K) : Decidable (out_of_grid_bounds p) := by
  unfold out_of_grid_bounds; infer_instance

/-- Guarded write `if (points_recorded < MAX_POINTS_PER_AXIS) p_info[points_recorded++] = info`
(lines 241-247, 304-311, 346-352, 409-416). -/
def record_impact (buffer : List (SImpactInformation K)) (info : SImpactInformation K) :
    List (SImpactInformation K) :=
  if buffer.length < MAX_POINTS_PER_AXIS then buffer ++ [info] else buffer

/-- Lines 167-170. -/
def raycast_grid_relative_origin (raycast_origin : SVec2f K) : SVec2f K :=
  ⟨raycast_origin.x - (gridOriginBottomLeft.x : K), raycast_origin.y - (gridOriginBottomLeft.y : K)⟩

/-- Lines 173-177. -/
def ray_origin_out_of_grid_bounds (raycast_origin : SVec2f K) : Prop :=
  (raycast_grid_relative_origin raycast_origin).x < 0 ∨
  (raycast_grid_relative_origin raycast_origin).x ≥ (gridDimensions.x : K) ∨
  (raycast_grid_relative_origin raycast_origin).y < 0 ∨
  (raycast_grid_relative_origin raycast_origin).y ≥ (gridDimensions.y : K)

instance (o : SVec2f K) : Decidable (ray_origin_out_of_grid_bounds o) := by
  unfold ray_origin_out_of_grid_bounds; infer_instance

/-- Lines 183-186. -/
def raycast_tile_origin (raycast_origin : SVec2f K) : SVec2i :=
  ⟨float_to_int ((raycast_grid_relative_origin raycast_origin).x / (gridTileDimensions.x : K)),
   float_to_int ((raycast_grid_relative_origin raycast_origin).y / (gridTileDimensions.y : K))⟩

/-- Line 187. -/
def raycast_direction (raycast_vector : SVec2f K) : SVec2i :=
  helper_vector_direction raycast_vector

/-- Lines 191-194. -/
def tile_edge_in_ray_direction (raycast_origin raycast_vector : SVec2f K) : SVec2i :=
  ⟨if (raycast_direction raycast_vector).x > 0
      then ((raycast_tile_origin raycast_origin).x + (raycast_direction raycast_vector).x)
             * gridTileDimensions.x
      else (raycast_tile_origin raycast_origin).x * gridTileDimensions.x,
   if (raycast_direction raycast_vector).y > 0
      then ((raycast_tile_origin raycast_origin).y + (raycast_direction raycast_vector).y)
             * gridTileDimensions.y
      else (raycast_tile_origin raycast_origin).y * gridTileDimensions.y⟩

/-- Line 198. -/
def raycast_grid_origin (raycast_origin : SVec2f K) : SVec2f K :=
  ⟨raycast_origin.x - (gridOriginBottomLeft.x : K), raycast_origin.y - (gridOriginBottomLeft.y : K)⟩

/-- Lines 199-202.  In the field `K` a division by zero yields zero; the value is only
read behind the direction test of `initial_ray_hits`. -/
def intersect_times_initial (raycast_origin raycast_vector : SVec2f K) : SVec2f K :=
  ⟨(((tile_edge_in_ray_direction raycast_origin raycast_vector).x : K)
      - (raycast_grid_origin raycast_origin).x) / raycast_vector.x,
   (((tile_edge_in_ray_direction raycast_origin raycast_vector).y : K)
      - (raycast_grid_origin raycast_origin).y) / raycast_vector.y⟩

/-- Lines 205-208. -/
def initial_ray_hits (raycast_origin raycast_vector : SVec2f K) : SVec2b :=
  ⟨decide ((raycast_direction raycast_vector).x ≠ 0
      ∧ (intersect_times_initial raycast_origin raycast_vector).x < 1),
   decide ((raycast_direction raycast_vector).y ≠ 0
      ∧ (intersect_times_initial raycast_origin raycast_vector).y < 1)⟩

/-- Line 211. -/
def raycast_length (sqrtf : K → K) (raycast_vector : SVec2f K) : K :=
  sqrtf (raycast_vector.x * raycast_vector.x + raycast_vector.y * raycast_vector.y)

/-- Euclidean length of a step or offset, `sqrtf (x * x + y * y)` (lines 263-266, 288). -/
def vector_length (sqrtf : K → K) (v : SVec2f K) : K :=
  sqrtf (v.x * v.x + v.y * v.y)

/-- What one axis pass leaves behind: either the early `return` of the whole function
(lines 228, 333) or the buffer of recorded impacts. -/
inductive PassOutcome (K : Type) where
  | aborted : PassOutcome K
  | recorded (buffer : List (SImpactInformation K)) : PassOutcome K

/-- The stepping loop over vertical tile edges, lines 269-315.  `none` means that the
fuel ran out before a `break`.  The sum `origin_to_initial_impact_length + step_length`, the
test against the ray length and the quotient recorded as time are exact here, while the
source rounds each of them to binary32. -/
def step_loop_x (sqrtf : K → K) (raycast_vector : SVec2f K) (ray_length : K)
    (initial_impact_position_raycast_x step_size : SVec2f K)
    (origin_to_initial_impact_length : K) :
    Nat → Nat → List (SImpactInformation K) → Option (List (SImpactInformation K))
  | 0, _, _ => none
  | fuel + 1, step_index, buffer =>
    let stepped_edge_impact : SVec2f K :=
      ⟨initial_impact_position_raycast_x.x + step_size.x * (step_index : K),
       initial_impact_position_raycast_x.y + step_size.y * (step_index : K)⟩
    if out_of_grid_bounds stepped_edge_impact then some buffer
    else
      let step_length : K := vector_length sqrtf step_size * (step_index : K)
      let total_current_step_length : K := origin_to_initial_impact_length + step_length
      if ¬ (ray_length ≥ total_current_step_length) then some buffer
      else
        let tiled_impact_point : SVec2i :=
          ⟨float_to_int (stepped_edge_impact.x / (gridTileDimensions.x : K)),
           float_to_int (stepped_edge_impact.y / (gridTileDimensions.y : K))⟩
        let impacted_tile_based_on_ray : SVec2i :=
          ⟨if raycast_vector.x ≥ 0 then tiled_impact_point.x else tiled_impact_point.x - 1,
           tiled_impact_point.y⟩
        step_loop_x sqrtf raycast_vector ray_length initial_impact_position_raycast_x step_size
          origin_to_initial_impact_length fuel (step_index + 1)
          (record_impact buffer
            ⟨total_current_step_length / ray_length, stepped_edge_impact,
             impacted_tile_based_on_ray⟩)

/-- The stepping loop over horizontal tile edges, lines 374-420, with the same exact sum,
test and quotient as in `step_loop_x`. -/
def step_loop_y (sqrtf : K → K) (raycast_vector : SVec2f K) (ray_length : K)
    (initial_impact_position_raycast_y step_size : SVec2f K)
    (origin_to_initial_impact_length : K) :
    Nat → Nat → List (SImpactInformation K) → Option (List (SImpactInformation K))
  | 0, _, _ => none
  | fuel + 1, step_index, buffer =>
    let stepped_edge_impact : SVec2f K :=
      ⟨initial_impact_position_raycast_y.x + step_size.x * (step_index : K),
       initial_impact_position_raycast_y.y + step_size.y * (step_index : K)⟩
    if out_of_grid_bounds stepped_edge_impact then some buffer
    else
      let step_length : K := vector_length sqrtf step_size * (step_index : K)
      let total_current_step_length : K := origin_to_initial_impact_length + step_length
      if ¬ (ray_length ≥ total_current_step_length) then some buffer
      else
        let tiled_impact_point : SVec2i :=
          ⟨float_to_int (stepped_edge_impact.x / (gridTileDimensions.x : K)),
           float_to_int (stepped_edge_impact.y / (gridTileDimensions.y : K))⟩
        let impacted_tile_based_on_ray : SVec2i :=
          ⟨tiled_impact_point.x,
           if raycast_vector.y ≥ 0 then tiled_impact_point.y else tiled_impact_point.y - 1⟩
        step_loop_y sqrtf raycast_vector ray_length initial_impact_position_raycast_y step_size
          origin_to_initial_impact_length fuel (step_index + 1)
          (record_impact buffer
            ⟨total_current_step_length / ray_length, stepped_edge_impact,
             impacted_tile_based_on_ray⟩)

/-- Lines 217-220.  In exact arithmetic the `x` coordinate is the edge itself; the source
rounds the product and the sum to binary32, so there it can differ from the edge. -/
def initial_impact_position_raycast_x (raycast_origin raycast_vector : SVec2f K) : SVec2f K :=
  ⟨raycast_origin.x + raycast_vector.x * (intersect_times_initial raycast_origin raycast_vector).x,
   raycast_origin.y + raycast_vector.y * (intersect_times_initial raycast_origin raycast_vector).x⟩

/-- Lines 322-325.  In exact arithmetic the `y` coordinate is the edge itself; the source
rounds the product and the sum to binary32, so there it can differ from the edge. -/
def initial_impact_position_raycast_y (raycast_origin raycast_vector : SVec2f K) : SVec2f K :=
  ⟨raycast_origin.x + raycast_vector.x * (intersect_times_initial raycast_origin raycast_vector).y,
   raycast_origin.y + raycast_vector.y * (intersect_times_initial raycast_origin raycast_vector).y⟩

/-- Lines 231-246: the impact recorded for the first vertical tile edge. -/
def initial_impact_raycast_x (raycast_origin raycast_vector : SVec2f K) : SImpactInformation K :=
  let tiled_impact_point : SVec2i :=
    ⟨Int.tdiv (tile_edge_in_ray_direction raycast_origin raycast_vector).x gridTileDimensions.x,
     float_to_int ((initial_impact_position_raycast_x raycast_origin raycast_vector).y
       / (gridTileDimensions.y : K))⟩
  let impacted_tile_based_on_ray : SVec2i :=
    ⟨if raycast_vector.x ≥ 0 then tiled_impact_point.x else tiled_impact_point.x - 1,
     tiled_impact_point.y⟩
  ⟨(intersect_times_initial raycast_origin raycast_vector).x,
   initial_impact_position_raycast_x raycast_origin raycast_vector,
   impacted_tile_based_on_ray⟩

/-- Lines 336-351: the impact recorded for the first horizontal tile edge. -/
def initial_impact_raycast_y (raycast_origin raycast_vector : SVec2f K) : SImpactInformation K :=
  let tiled_impact_point : SVec2i :=
    ⟨float_to_int ((initial_impact_position_raycast_y raycast_origin raycast_vector).x
       / (gridTileDimensions.x : K)),
     Int.tdiv (tile_edge_in_ray_direction raycast_origin raycast_vector).y gridTileDimensions.y⟩
  let impacted_tile_based_on_ray : SVec2i :=
    ⟨tiled_impact_point.x,
     if raycast_vector.y ≥ 0 then tiled_impact_point.y else tiled_impact_point.y - 1⟩
  ⟨(intersect_times_initial raycast_origin raycast_vector).y,
   initial_impact_position_raycast_y raycast_origin raycast_vector,
   impacted_tile_based_on_ray⟩

/-- Lines 255-256. -/
def step_size_x (raycast_vector : SVec2f K) : SVec2f K :=
  let horizontal_edge_stepsize : K :=
    |(raycast_vector.y * (gridTileDimensions.x : K)) / raycast_vector.x|
  ⟨((gridTileDimensions.x * (raycast_direction raycast_vector).x : Int) : K),
   horizontal_edge_stepsize * ((raycast_direction raycast_vector).y : K)⟩

/-- Lines 360-361. -/
def step_size_y (raycast_vector : SVec2f K) : SVec2f K :=
  let vertical_edge_stepsize : K :=
    |(raycast_vector.x * (gridTileDimensions.y : K)) / raycast_vector.y|
  ⟨vertical_edge_stepsize * ((raycast_direction raycast_vector).x : K),
   ((gridTileDimensions.y * (raycast_direction raycast_vector).y : Int) : K)⟩

/-- Lines 259-266 and 364-371: distance from the ray origin to a first impact. -/
def origin_to_initial_impact_length (sqrtf : K → K) (raycast_origin initial : SVec2f K) : K :=
  let origin_to_initial_impact : SVec2f K :=
    ⟨initial.x - raycast_origin.x, initial.y - raycast_origin.y⟩
  vector_length sqrtf origin_to_initial_impact

/-- The pass over vertical tile edges, lines 214-316. -/
def raycast_pass_x (sqrtf : K → K) (fuel : Nat) (raycast_origin raycast_vector : SVec2f K) :
    Option (PassOutcome K) :=
  if (raycast_direction raycast_vector).x ≠ 0
      ∧ (initial_ray_hits raycast_origin raycast_vector).x = true then
    if out_of_grid_bounds (initial_impact_position_raycast_x raycast_origin raycast_vector) then
      some PassOutcome.aborted
    else
      (step_loop_x sqrtf raycast_vector (raycast_length sqrtf raycast_vector)
        (initial_impact_position_raycast_x raycast_origin raycast_vector)
        (step_size_x raycast_vector)
        (origin_to_initial_impact_length sqrtf raycast_origin
          (initial_impact_position_raycast_x raycast_origin raycast_vector))
        fuel 1
        (record_impact [] (initial_impact_raycast_x raycast_origin raycast_vector))).map
        PassOutcome.recorded
  else some (PassOutcome.recorded [])

/-- The pass over horizontal tile edges, lines 319-421. -/
def raycast_pass_y (sqrtf : K → K) (fuel : Nat) (raycast_origin raycast_vector : SVec2f K) :
    Option (PassOutcome K) :=
  if (raycast_direction raycast_vector).y ≠ 0
      ∧ (initial_ray_hits raycast_origin raycast_vector).y = true then
    if out_of_grid_bounds (initial_impact_position_raycast_y raycast_origin raycast_vector) then
      some PassOutcome.aborted
    else
      (step_loop_y sqrtf raycast_vector (raycast_length sqrtf raycast_vector)
        (initial_impact_position_raycast_y raycast_origin raycast_vector)
        (step_size_y raycast_vector)
        (origin_to_initial_impact_length sqrtf raycast_origin
          (initial_impact_position_raycast_y raycast_origin raycast_vector))
        fuel 1
        (record_impact [] (initial_impact_raycast_y raycast_origin raycast_vector))).map
        PassOutcome.recorded
  else some (PassOutcome.recorded [])

/-- Lines 425-436: both buffers are copied into one array, which is then sorted. -/
def merge_impacts (p_info_raycast_x p_info_raycast_y : List (SImpactInformation K)) :
    List (SImpactInformation K) :=
  qsort sort_impact_information (p_info_raycast_x ++ p_info_raycast_y)

/-- The whole function, lines 158-436: the list that the drawing loop walks through,
`[]` after an early `return`, `none` when a stepping loop is out of fuel. -/
def generateRaycastPointsAlongEdges (sqrtf : K → K) (fuel : Nat)
    (raycast_origin raycast_vector : SVec2f K) : Option (List (SImpactInformation K)) :=
  if ray_origin_out_of_grid_bounds raycast_origin then some []
  else
    match raycast_pass_x sqrtf fuel raycast_origin raycast_vector with
    | none => none
    | some PassOutcome.aborted => some []
    | some (PassOutcome.recorded p_info_raycast_x) =>
      match raycast_pass_y sqrtf fuel raycast_origin raycast_vector with
      | none => none
      | some PassOutcome.aborted => some []
      | some (PassOutcome.recorded p_info_raycast_y) =>
        some (merge_impacts p_info_raycast_x p_info_raycast_y)

end Embedding

/-! ## Vocabulary of the proofs -/

section LoopVocabulary

variable {α : Type}

/-- A loop that stops at the first index where `stop` holds and otherwise appends
`mk index` to a buffer of bounded capacity. -/
def bounded_loop (stop : Nat → Prop) [DecidablePred stop] (mk : Nat → α) :
    Nat → Nat → List α → Option (List α)
  | 0, _, _ => none
  | fuel + 1, step_index, buffer =>
    if stop step_index then some buffer
    else bounded_loop stop mk fuel (step_index + 1)
      (if buffer.length < MAX_POINTS_PER_AXIS then buffer ++ [mk step_index] else buffer)

/-- Appending a list of impacts through the capacity guard. -/
def record_all (buffer l : List α) : List α :=
  l.foldl (fun b e => if b.length < MAX_POINTS_PER_AXIS then b ++ [e] else b) buffer

end LoopVocabulary

section Vocabulary

variable {K : Type} [LinearOrderedField K] [FloorRing K]

/-- The point computed in step `step_index` of either loop (lines 273-276, 378-381). -/
def stepped_edge_impact (initial step_size : SVec2f K) (step_index : Nat) : SVec2f K :=
  ⟨initial.x + step_size.x * (step_index : K), initial.y + step_size.y * (step_index : K)⟩

/-- The length compared with the ray length in step `step_index` (lines 288-289, 393-394). -/
def total_current_step_length (sqrtf : K → K) (step_size : SVec2f K) (d0 : K)
    (step_index : Nat) : K :=
  d0 + vector_length sqrtf step_size * (step_index : K)

/-- The condition under which step `step_index` leaves the loop. -/
def step_stops (sqrtf : K → K) (ray_length : K) (initial step_size : SVec2f K) (d0 : K)
    (step_index : Nat) : Prop :=
  out_of_grid_bounds (stepped_edge_impact initial step_size step_index) ∨
    ¬ (ray_length ≥ total_current_step_length sqrtf step_size d0 step_index)

instance (sqrtf : K → K) (ray_length : K) (initial step_size : SVec2f K) (d0 : K) :
    DecidablePred (step_stops sqrtf ray_length initial step_size d0) := by
  intro k; unfold step_stops; infer_instance

/-- The impact recorded in step `step_index` of the loop over vertical edges. -/
def stepped_impact_x (sqrtf : K → K) (raycast_vector : SVec2f K) (ray_length : K)
    (initial step_size : SVec2f K) (d0 : K) (step_index : Nat) : SImpactInformation K :=
  ⟨total_current_step_length sqrtf step_size d0 step_index / ray_length,
   stepped_edge_impact initial step_size step_index,
   ⟨if raycast_vector.x ≥ 0
      then float_to_int ((stepped_edge_impact initial step_size step_index).x
        / (gridTileDimensions.x : K))
      else float_to_int ((stepped_edge_impact initial step_size step_index).x
        / (gridTileDimensions.x : K)) - 1,
    float_to_int ((stepped_edge_impact initial step_size step_index).y
      / (gridTileDimensions.y : K))⟩⟩

/-- The impact recorded in step `step_index` of the loop over horizontal edges. -/
def stepped_impact_y (sqrtf : K → K) (raycast_vector : SVec2f K) (ray_length : K)
    (initial step_size : SVec2f K) (d0 : K) (step_index : Nat) : SImpactInformation K :=
  ⟨total_current_step_length sqrtf step_size d0 step_index / ray_length,
   stepped_edge_impact initial step_size step_index,
   ⟨float_to_int ((stepped_edge_impact initial step_size step_index).x
      / (gridTileDimensions.x : K)),
    if raycast_vector.y ≥ 0
      then float_to_int ((stepped_edge_impact initial step_size step_index).y
        / (gridTileDimensions.y : K))
      else float_to_int ((stepped_edge_impact initial step_size step_index).y
        / (gridTileDimensions.y : K)) - 1⟩⟩

/-- The condition guarding the pass over vertical edges, with the point test that follows. -/
def pass_x_runs (o v : SVec2f K) : Prop :=
  (raycast_direction v).x ≠ 0 ∧ (intersect_times_initial o v).x < 1

/-- The condition guarding the pass over horizontal edges. -/
def pass_y_runs (o v : SVec2f K) : Prop :=
  (raycast_direction v).y ≠ 0 ∧ (intersect_times_initial o v).y < 1

/-- An impact of the pass over vertical edges: the first one, or the one of a step that
neither left the grid bounds nor overshot the ray length. -/
def is_impact_of_pass_x (sqrtf : K → K) (o v : SVec2f K) (e : SImpactInformation K) : Prop :=
  e = initial_impact_raycast_x o v ∨
  ∃ j : Nat, 1 ≤ j ∧
    ¬ step_stops sqrtf (raycast_length sqrtf v) (initial_impact_position_raycast_x o v)
        (step_size_x v)
        (origin_to_initial_impact_length sqrtf o (initial_impact_position_raycast_x o v)) j ∧
    e = stepped_impact_x sqrtf v (raycast_length sqrtf v) (initial_impact_position_raycast_x o v)
        (step_size_x v)
        (origin_to_initial_impact_length sqrtf o (initial_impact_position_raycast_x o v)) j

/-- An impact of the pass over horizontal edges. -/
def is_impact_of_pass_y (sqrtf : K → K) (o v : SVec2f K) (e : SImpactInformation K) : Prop :=
  e = initial_impact_raycast_y o v ∨
  ∃ j : Nat, 1 ≤ j ∧
    ¬ step_stops sqrtf (raycast_length sqrtf v) (initial_impact_position_raycast_y o v)
        (step_size_y v)
        (origin_to_initial_impact_length sqrtf o (initial_impact_position_raycast_y o v)) j ∧
    e = stepped_impact_y sqrtf v (raycast_length sqrtf v) (initial_impact_position_raycast_y o v)
        (step_size_y v)
        (origin_to_initial_impact_length sqrtf o (initial_impact_position_raycast_y o v)) j

/-- The tile that contains a point: on each axis the floor of the coordinate relative to
the grid origin divided by the tile size. -/
def tile_containing {K : Type} [LinearOrderedField K] [FloorRing K] (p : SVec2f K) : SVec2i :=
  ⟨Int.floor ((p.x - (gridOriginBottomLeft.x : K)) / (gridTileDimensions.x : K)),
   Int.floor ((p.y - (gridOriginBottomLeft.y : K)) / (gridTileDimensions.y : K))⟩

/-- The point of the ray at parameter `s`. -/
def ray_point {K : Type} [LinearOrderedField K] (o v : SVec2f K) (s : K) : SVec2f K :=
  ⟨o.x + s * v.x, o.y + s * v.y⟩

/-- The ray is inside `tile` right after time `t`. -/
def enters_tile {K : Type} [LinearOrderedField K] [FloorRing K] (o v : SVec2f K) (t : K)
    (tile : SVec2i) : Prop :=
  ∃ eps : K, 0 < eps ∧ ∀ s : K, t < s → s < t + eps → tile_containing (ray_point o v s) = tile

/-- Time along the ray at which the pass over vertical edges places its impact number
`step_index`: the first crossing time plus `step_index` tile widths over `|v.x|`. -/
def crossing_time_x (o v : SVec2f K) (step_index : Nat) : K :=
  (intersect_times_initial o v).x + 20 / |v.x| * (step_index : K)

/-- Time along the ray at which the pass over horizontal edges places its impact number
`step_index`. -/
def crossing_time_y (o v : SVec2f K) (step_index : Nat) : K :=
  (intersect_times_initial o v).y + 20 / |v.y| * (step_index : K)

end Vocabulary


/-! ## The stepping loops seen as one generic loop -/

section Loop

variable {α : Type}

theorem bounded_loop_mem (stop : Nat → Prop) [DecidablePred stop] (mk : Nat → α) :
    ∀ (fuel k : Nat) (buffer r : List α), bounded_loop stop mk fuel k buffer = some r →
      ∀ e ∈ r, e ∈ buffer ∨ ∃ j, k ≤ j ∧ ¬ stop j ∧ e = mk j := by
  intro fuel
  induction fuel with
  | zero => intro k buffer r h; simp [bounded_loop] at h
  | succ n ih =>
    intro k buffer r h e he
    rw [bounded_loop] at h
    by_cases hs : stop k
    · rw [if_pos hs] at h
      cases h
      exact Or.inl he
    · rw [if_neg hs] at h
      rcases ih _ _ _ h e he with hb | ⟨j, hj, hsj, hej⟩
      · by_cases hc : buffer.length < MAX_POINTS_PER_AXIS
        · rw [if_pos hc] at hb
          rcases List.mem_append.mp hb with hb | hb
          · exact Or.inl hb
          · exact Or.inr ⟨k, le_refl k, hs, by simpa using hb⟩
        · rw [if_neg hc] at hb
          exact Or.inl hb
      · exact Or.inr ⟨j, by omega, hsj, hej⟩

theorem bounded_loop_isSome (stop : Nat → Prop) [DecidablePred stop] (mk : Nat → α)
    (m : Nat) (hm : ∀ j, m ≤ j → stop j) :
    ∀ (fuel k : Nat) (buffer : List α), m < k + fuel → 0 < fuel →
      ∃ r, bounded_loop stop mk fuel k buffer = some r := by
  intro fuel
  induction fuel with
  | zero => intro k buffer _ h; omega
  | succ n ih =>
    intro k buffer hk _
    rw [bounded_loop]
    by_cases hs : stop k
    · exact ⟨buffer, by rw [if_pos hs]⟩
    · rw [if_neg hs]
      have hkm : k < m := by
        by_contra hcon
        exact hs (hm k (by omega))
      exact ih _ _ (by omega) (by omega)

/-- When the loop first stops at index `m`, it has recorded the impacts of `k, ..., m - 1`. -/
theorem bounded_loop_run (stop : Nat → Prop) [DecidablePred stop] (mk : Nat → α) (m : Nat)
    (hstop : stop m) :
    ∀ (fuel k : Nat) (buffer : List α), k ≤ m → (∀ j, k ≤ j → j < m → ¬ stop j) →
      m < k + fuel →
      bounded_loop stop mk fuel k buffer
        = some (record_all buffer ((List.range' k (m - k)).map mk)) := by
  intro fuel
  induction fuel with
  | zero => intro k buffer h1 _ h3; omega
  | succ n ih =>
    intro k buffer h1 h2 h3
    rw [bounded_loop]
    by_cases hk : k = m
    · subst hk
      rw [if_pos hstop]
      simp [record_all]
    · have hlt : k < m := lt_of_le_of_ne h1 hk
      rw [if_neg (h2 k (le_refl k) hlt)]
      rw [ih (k + 1) _ (by omega) (fun j hj1 hj2 => h2 j (by omega) hj2) (by omega)]
      have hsplit : m - k = (m - (k + 1)) + 1 := by omega
      rw [hsplit, List.range'_succ]
      simp [record_all]

end Loop

section LoopInstances

variable {K : Type} [LinearOrderedField K] [FloorRing K]

theorem step_loop_x_eq (sqrtf : K → K) (v : SVec2f K) (len : K) (init step : SVec2f K) (d0 : K) :
    ∀ (fuel k : Nat) (buffer : List (SImpactInformation K)),
      step_loop_x sqrtf v len init step d0 fuel k buffer
        = bounded_loop (step_stops sqrtf len init step d0)
            (stepped_impact_x sqrtf v len init step d0) fuel k buffer := by
  intro fuel
  induction fuel with
  | zero => intro k buffer; rfl
  | succ n ih =>
    intro k buffer
    rw [step_loop_x, bounded_loop]
    by_cases h1 : out_of_grid_bounds (stepped_edge_impact init step k)
    · have h2 : step_stops sqrtf len init step d0 k := Or.inl h1
      rw [if_pos h2]
      simp only [stepped_edge_impact] at h1
      simp only [h1, if_true]
    · by_cases h3 : len ≥ total_current_step_length sqrtf step d0 k
      · have h2 : ¬ step_stops sqrtf len init step d0 k := by
          intro h; rcases h with h | h
          · exact h1 h
          · exact h h3
        rw [if_neg h2]
        simp only [stepped_edge_impact] at h1
        simp only [total_current_step_length] at h3
        simp only [h1, if_false, h3, not_true_eq_false]
        rw [ih]
        rfl
      · have h2 : step_stops sqrtf len init step d0 k := Or.inr h3
        rw [if_pos h2]
        simp only [stepped_edge_impact] at h1
        simp only [total_current_step_length] at h3
        simp only [h1, if_false, h3, not_false_eq_true, if_true]

theorem step_loop_y_eq (sqrtf : K → K) (v : SVec2f K) (len : K) (init step : SVec2f K) (d0 : K) :
    ∀ (fuel k : Nat) (buffer : List (SImpactInformation K)),
      step_loop_y sqrtf v len init step d0 fuel k buffer
        = bounded_loop (step_stops sqrtf len init step d0)
            (stepped_impact_y sqrtf v len init step d0) fuel k buffer := by
  intro fuel
  induction fuel with
  | zero => intro k buffer; rfl
  | succ n ih =>
    intro k buffer
    rw [step_loop_y, bounded_loop]
    by_cases h1 : out_of_grid_bounds (stepped_edge_impact init step k)
    · have h2 : step_stops sqrtf len init step d0 k := Or.inl h1
      rw [if_pos h2]
      simp only [stepped_edge_impact] at h1
      simp only [h1, if_true]
    · by_cases h3 : len ≥ total_current_step_length sqrtf step d0 k
      · have h2 : ¬ step_stops sqrtf len init step d0 k := by
          intro h; rcases h with h | h
          · exact h1 h
          · exact h h3
        rw [if_neg h2]
        simp only [stepped_edge_impact] at h1
        simp only [total_current_step_length] at h3
        simp only [h1, if_false, h3, not_true_eq_false]
        rw [ih]
        rfl
      · have h2 : step_stops sqrtf len init step d0 k := Or.inr h3
        rw [if_pos h2]
        simp only [stepped_edge_impact] at h1
        simp only [total_current_step_length] at h3
        simp only [h1, if_false, h3, not_false_eq_true, if_true]

end LoopInstances

/-! ## The merge step -/

section Merge

variable {K : Type} [LinearOrderedField K]

theorem sort_impact_information_le_iff (a b : SImpactInformation K) :
    sort_impact_information a b ≤ 0 ↔ a.impact_time ≤ b.impact_time := by
  unfold sort_impact_information
  by_cases h1 : a.impact_time < b.impact_time
  · simp [h1, le_of_lt h1]
  · by_cases h2 : a.impact_time > b.impact_time
    · simp [h1, h2]
    · have h3 : a.impact_time = b.impact_time := le_antisymm (not_lt.mp h2) (not_lt.mp h1)
      simp [h3]

theorem merge_impacts_perm (xs ys : List (SImpactInformation K)) :
    (merge_impacts xs ys).Perm (xs ++ ys) := by
  unfold merge_impacts qsort
  exact List.perm_insertionSort _ _

theorem merge_impacts_sorted (xs ys : List (SImpactInformation K)) :
    List.Sorted (fun a b => a.impact_time ≤ b.impact_time) (merge_impacts xs ys) := by
  have h : List.Sorted (fun a b : SImpactInformation K => sort_impact_information a b ≤ 0)
      (merge_impacts xs ys) := by
    haveI : IsTotal (SImpactInformation K) (fun a b => sort_impact_information a b ≤ 0) :=
      ⟨fun a b => by
        simp only [sort_impact_information_le_iff]
        exact le_total _ _⟩
    haveI : IsTrans (SImpactInformation K) (fun a b => sort_impact_information a b ≤ 0) :=
      ⟨fun a b c => by
        simp only [sort_impact_information_le_iff]
        exact le_trans⟩
    unfold merge_impacts qsort
    exact List.sorted_insertionSort _ _
  exact List.Pairwise.imp (fun {a b} hab => (sort_impact_information_le_iff a b).mp hab) h

theorem mem_merge_impacts (xs ys : List (SImpactInformation K)) (e : SImpactInformation K) :
    e ∈ merge_impacts xs ys ↔ e ∈ xs ∨ e ∈ ys := by
  rw [(merge_impacts_perm xs ys).mem_iff, List.mem_append]

end Merge

/-! ## Which impacts a pass can record -/

section Characterisation

variable {K : Type} [LinearOrderedField K] [FloorRing K]

theorem pass_x_guard_iff (o v : SVec2f K) :
    ((raycast_direction v).x ≠ 0 ∧ (initial_ray_hits o v).x = true) ↔ pass_x_runs o v := by
  unfold pass_x_runs initial_ray_hits
  simp only [decide_eq_true_eq]
  tauto

theorem pass_y_guard_iff (o v : SVec2f K) :
    ((raycast_direction v).y ≠ 0 ∧ (initial_ray_hits o v).y = true) ↔ pass_y_runs o v := by
  unfold pass_y_runs initial_ray_hits
  simp only [decide_eq_true_eq]
  tauto

theorem raycast_pass_x_skipped (sqrtf : K → K) (fuel : Nat) (o v : SVec2f K)
    (h : ¬ pass_x_runs o v) : raycast_pass_x sqrtf fuel o v = some (PassOutcome.recorded []) := by
  unfold raycast_pass_x
  rw [if_neg (fun hg => h ((pass_x_guard_iff o v).mp hg))]

theorem raycast_pass_y_skipped (sqrtf : K → K) (fuel : Nat) (o v : SVec2f K)
    (h : ¬ pass_y_runs o v) : raycast_pass_y sqrtf fuel o v = some (PassOutcome.recorded []) := by
  unfold raycast_pass_y
  rw [if_neg (fun hg => h ((pass_y_guard_iff o v).mp hg))]

theorem raycast_pass_x_aborted (sqrtf : K → K) (fuel : Nat) (o v : SVec2f K)
    (h : pass_x_runs o v) (hb : out_of_grid_bounds (initial_impact_position_raycast_x o v)) :
    raycast_pass_x sqrtf fuel o v = some PassOutcome.aborted := by
  unfold raycast_pass_x
  rw [if_pos ((pass_x_guard_iff o v).mpr h), if_pos hb]

theorem raycast_pass_y_aborted (sqrtf : K → K) (fuel : Nat) (o v : SVec2f K)
    (h : pass_y_runs o v) (hb : out_of_grid_bounds (initial_impact_position_raycast_y o v)) :
    raycast_pass_y sqrtf fuel o v = some PassOutcome.aborted := by
  unfold raycast_pass_y
  rw [if_pos ((pass_y_guard_iff o v).mpr h), if_pos hb]

theorem raycast_pass_x_stepping (sqrtf : K → K) (fuel : Nat) (o v : SVec2f K)
    (h : pass_x_runs o v) (hb : ¬ out_of_grid_bounds (initial_impact_position_raycast_x o v)) :
    raycast_pass_x sqrtf fuel o v
      = (bounded_loop
          (step_stops sqrtf (raycast_length sqrtf v) (initial_impact_position_raycast_x o v)
            (step_size_x v)
            (origin_to_initial_impact_length sqrtf o (initial_impact_position_raycast_x o v)))
          (stepped_impact_x sqrtf v (raycast_length sqrtf v)
            (initial_impact_position_raycast_x o v) (step_size_x v)
            (origin_to_initial_impact_length sqrtf o (initial_impact_position_raycast_x o v)))
          fuel 1 [initial_impact_raycast_x o v]).map PassOutcome.recorded := by
  unfold raycast_pass_x
  rw [if_pos ((pass_x_guard_iff o v).mpr h), if_neg hb, step_loop_x_eq]
  rfl

theorem raycast_pass_y_stepping (sqrtf : K → K) (fuel : Nat) (o v : SVec2f K)
    (h : pass_y_runs o v) (hb : ¬ out_of_grid_bounds (initial_impact_position_raycast_y o v)) :
    raycast_pass_y sqrtf fuel o v
      = (bounded_loop
          (step_stops sqrtf (raycast_length sqrtf v) (initial_impact_position_raycast_y o v)
            (step_size_y v)
            (origin_to_initial_impact_length sqrtf o (initial_impact_position_raycast_y o v)))
          (stepped_impact_y sqrtf v (raycast_length sqrtf v)
            (initial_impact_position_raycast_y o v) (step_size_y v)
            (origin_to_initial_impact_length sqrtf o (initial_impact_position_raycast_y o v)))
          fuel 1 [initial_impact_raycast_y o v]).map PassOutcome.recorded := by
  unfold raycast_pass_y
  rw [if_pos ((pass_y_guard_iff o v).mpr h), if_neg hb, step_loop_y_eq]
  rfl

theorem raycast_pass_x_mem (sqrtf : K → K) (fuel : Nat) (o v : SVec2f K)
    (xs : List (SImpactInformation K))
    (h : raycast_pass_x sqrtf fuel o v = some (PassOutcome.recorded xs))
    (e : SImpactInformation K) (he : e ∈ xs) :
    pass_x_runs o v ∧ ¬ out_of_grid_bounds (initial_impact_position_raycast_x o v) ∧
      is_impact_of_pass_x sqrtf o v e := by
  by_cases hr : pass_x_runs o v
  · by_cases hb : out_of_grid_bounds (initial_impact_position_raycast_x o v)
    · rw [raycast_pass_x_aborted sqrtf fuel o v hr hb] at h
      cases h
    · rw [raycast_pass_x_stepping sqrtf fuel o v hr hb] at h
      refine ⟨hr, hb, ?_⟩
      rcases Option.map_eq_some'.mp h with ⟨r, hr1, hr2⟩
      cases hr2
      rcases bounded_loop_mem _ _ _ _ _ _ hr1 e he with hm | ⟨j, hj, hs, hej⟩
      · exact Or.inl (by simpa using hm)
      · exact Or.inr ⟨j, hj, hs, hej⟩
  · rw [raycast_pass_x_skipped sqrtf fuel o v hr] at h
    cases h
    cases he

theorem raycast_pass_y_mem (sqrtf : K → K) (fuel : Nat) (o v : SVec2f K)
    (ys : List (SImpactInformation K))
    (h : raycast_pass_y sqrtf fuel o v = some (PassOutcome.recorded ys))
    (e : SImpactInformation K) (he : e ∈ ys) :
    pass_y_runs o v ∧ ¬ out_of_grid_bounds (initial_impact_position_raycast_y o v) ∧
      is_impact_of_pass_y sqrtf o v e := by
  by_cases hr : pass_y_runs o v
  · by_cases hb : out_of_grid_bounds (initial_impact_position_raycast_y o v)
    · rw [raycast_pass_y_aborted sqrtf fuel o v hr hb] at h
      cases h
    · rw [raycast_pass_y_stepping sqrtf fuel o v hr hb] at h
      refine ⟨hr, hb, ?_⟩
      rcases Option.map_eq_some'.mp h with ⟨r, hr1, hr2⟩
      cases hr2
      rcases bounded_loop_mem _ _ _ _ _ _ hr1 e he with hm | ⟨j, hj, hs, hej⟩
      · exact Or.inl (by simpa using hm)
      · exact Or.inr ⟨j, hj, hs, hej⟩
  · rw [raycast_pass_y_skipped sqrtf fuel o v hr] at h
    cases h
    cases he

/-- Shape of a successful run: either an early return or the merge of both buffers. -/
theorem generate_cases (sqrtf : K → K) (fuel : Nat) (o v : SVec2f K)
    (r : List (SImpactInformation K))
    (h : generateRaycastPointsAlongEdges sqrtf fuel o v = some r) :
    r = [] ∨ (¬ ray_origin_out_of_grid_bounds o ∧ ∃ xs ys,
      raycast_pass_x sqrtf fuel o v = some (PassOutcome.recorded xs) ∧
      raycast_pass_y sqrtf fuel o v = some (PassOutcome.recorded ys) ∧
      r = merge_impacts xs ys) := by
  unfold generateRaycastPointsAlongEdges at h
  by_cases ho : ray_origin_out_of_grid_bounds o
  · rw [if_pos ho] at h
    cases h
    exact Or.inl rfl
  · rw [if_neg ho] at h
    cases hx : raycast_pass_x sqrtf fuel o v with
    | none => rw [hx] at h; cases h
    | some ox =>
      cases ox with
      | aborted => rw [hx] at h; cases h; exact Or.inl rfl
      | recorded xs =>
        cases hy : raycast_pass_y sqrtf fuel o v with
        | none => rw [hx, hy] at h; cases h
        | some oy =>
          cases oy with
          | aborted => rw [hx, hy] at h; cases h; exact Or.inl rfl
          | recorded ys =>
            rw [hx, hy] at h
            cases h
            exact Or.inr ⟨ho, xs, ys, rfl, rfl, rfl⟩

/-- Every impact of the result was recorded by one of the two passes. -/
theorem generate_mem (sqrtf : K → K) (fuel : Nat) (o v : SVec2f K)
    (r : List (SImpactInformation K))
    (h : generateRaycastPointsAlongEdges sqrtf fuel o v = some r)
    (e : SImpactInformation K) (he : e ∈ r) :
    ¬ ray_origin_out_of_grid_bounds o ∧
    ((pass_x_runs o v ∧ ¬ out_of_grid_bounds (initial_impact_position_raycast_x o v) ∧
        is_impact_of_pass_x sqrtf o v e) ∨
     (pass_y_runs o v ∧ ¬ out_of_grid_bounds (initial_impact_position_raycast_y o v) ∧
        is_impact_of_pass_y sqrtf o v e)) := by
  rcases generate_cases sqrtf fuel o v r h with h0 | ⟨ho, xs, ys, hx, hy, hr⟩
  · rw [h0] at he; cases he
  · refine ⟨ho, ?_⟩
    rw [hr, mem_merge_impacts] at he
    rcases he with he | he
    · exact Or.inl (raycast_pass_x_mem sqrtf fuel o v xs hx e he)
    · exact Or.inr (raycast_pass_y_mem sqrtf fuel o v ys hy e he)

end Characterisation

/-! ## The grid constants and the two bounds tests -/

section Bounds

variable {K : Type} [LinearOrderedField K] [FloorRing K]

theorem tilesOnGridAxis_eq : tilesOnGridAxis = ⟨40, 30⟩ := by decide

theorem gridDimensions_eq : gridDimensions = ⟨800, 600⟩ := by decide

theorem out_of_grid_bounds_iff (p : SVec2f K) :
    out_of_grid_bounds p ↔ p.x < 0 ∨ p.x > 800 ∨ p.y < 0 ∨ p.y > 600 := by
  unfold out_of_grid_bounds grid_bounding_box
  simp [gridDimensions_eq, gridOriginBottomLeft]

theorem in_grid_bounds_iff (p : SVec2f K) :
    ¬ out_of_grid_bounds p ↔ (0 ≤ p.x ∧ p.x ≤ 800) ∧ (0 ≤ p.y ∧ p.y ≤ 600) := by
  rw [out_of_grid_bounds_iff]
  simp only [not_or, not_lt, gt_iff_lt]
  tauto

theorem ray_origin_out_of_grid_bounds_iff (o : SVec2f K) :
    ray_origin_out_of_grid_bounds o ↔ o.x < 0 ∨ o.x ≥ 800 ∨ o.y < 0 ∨ o.y ≥ 600 := by
  unfold ray_origin_out_of_grid_bounds raycast_grid_relative_origin
  simp [gridDimensions_eq, gridOriginBottomLeft]

theorem ray_origin_in_grid_iff (o : SVec2f K) :
    ¬ ray_origin_out_of_grid_bounds o ↔ (0 ≤ o.x ∧ o.x < 800) ∧ (0 ≤ o.y ∧ o.y < 600) := by
  rw [ray_origin_out_of_grid_bounds_iff]
  simp only [not_or, not_lt, ge_iff_le, not_le]
  tauto

theorem float_to_int_of_nonneg {x : K} (h : 0 ≤ x) : float_to_int x = Int.floor x := by
  unfold float_to_int
  rw [if_pos h]

theorem float_to_int_eq {x : K} {n : Int} (h0 : 0 ≤ x) (h1 : (n : K) ≤ x) (h2 : x < (n : K) + 1) :
    float_to_int x = n := by
  rw [float_to_int_of_nonneg h0]
  exact Int.floor_eq_iff.mpr ⟨h1, h2⟩

theorem float_to_int_intCast (n : Int) : float_to_int (n : K) = n := by
  unfold float_to_int
  split <;> simp

theorem float_direction_pos {x : K} (h : 0 < x) : float_direction x = 1 := by
  unfold float_direction
  rw [if_pos h]

theorem float_direction_neg {x : K} (h : x < 0) : float_direction x = -1 := by
  unfold float_direction
  rw [if_neg (not_lt.mpr (le_of_lt h)), if_pos h]

theorem float_direction_zero : float_direction (0 : K) = 0 := by
  simp [float_direction]

theorem float_direction_ne_zero_iff (x : K) : float_direction x ≠ 0 ↔ x ≠ 0 := by
  rcases lt_trichotomy x 0 with h | h | h
  · rw [float_direction_neg h]; simp [ne_of_lt h]
  · subst h; simp [float_direction_zero]
  · rw [float_direction_pos h]; simp [ne_of_gt h]

/-- The column of the tile that holds an origin inside the grid. -/
theorem raycast_tile_origin_x (o : SVec2f K) (h : ¬ ray_origin_out_of_grid_bounds o) :
    (((raycast_tile_origin o).x : K) * 20 ≤ o.x ∧ o.x < ((raycast_tile_origin o).x : K) * 20 + 20)
      ∧ 0 ≤ (raycast_tile_origin o).x ∧ (raycast_tile_origin o).x ≤ 39 := by
  rw [ray_origin_in_grid_iff] at h
  obtain ⟨⟨h1, h2⟩, _⟩ := h
  have hx : (raycast_tile_origin o).x = Int.floor (o.x / 20) := by
    unfold raycast_tile_origin raycast_grid_relative_origin
    simp only [gridOriginBottomLeft, gridTileDimensions, Int.cast_zero, sub_zero]
    rw [float_to_int_of_nonneg (by positivity)]
    norm_num
  have hf1 : ((Int.floor (o.x / 20) : Int) : K) ≤ o.x / 20 := Int.floor_le _
  have hf2 : o.x / 20 < ((Int.floor (o.x / 20) : Int) : K) + 1 := Int.lt_floor_add_one _
  rw [hx]
  refine ⟨⟨by linarith, by linarith⟩, ?_, ?_⟩
  · exact Int.floor_nonneg.mpr (by positivity)
  · have : Int.floor (o.x / 20) < 40 := by
      rw [Int.floor_lt]
      push_cast
      linarith
    omega

/-- The row of the tile that holds an origin inside the grid. -/
theorem raycast_tile_origin_y (o : SVec2f K) (h : ¬ ray_origin_out_of_grid_bounds o) :
    (((raycast_tile_origin o).y : K) * 20 ≤ o.y ∧ o.y < ((raycast_tile_origin o).y : K) * 20 + 20)
      ∧ 0 ≤ (raycast_tile_origin o).y ∧ (raycast_tile_origin o).y ≤ 29 := by
  rw [ray_origin_in_grid_iff] at h
  obtain ⟨_, ⟨h1, h2⟩⟩ := h
  have hx : (raycast_tile_origin o).y = Int.floor (o.y / 20) := by
    unfold raycast_tile_origin raycast_grid_relative_origin
    simp only [gridOriginBottomLeft, gridTileDimensions, Int.cast_zero, sub_zero]
    rw [float_to_int_of_nonneg (by positivity)]
    norm_num
  have hf1 : ((Int.floor (o.y / 20) : Int) : K) ≤ o.y / 20 := Int.floor_le _
  have hf2 : o.y / 20 < ((Int.floor (o.y / 20) : Int) : K) + 1 := Int.lt_floor_add_one _
  rw [hx]
  refine ⟨⟨by linarith, by linarith⟩, ?_, ?_⟩
  · exact Int.floor_nonneg.mpr (by positivity)
  · have : Int.floor (o.y / 20) < 30 := by
      rw [Int.floor_lt]
      push_cast
      linarith
    omega

end Bounds

/-! ## Geometry of one pass -/

section PassGeometry

variable {K : Type} [LinearOrderedField K] [FloorRing K]

theorem pass_x_runs_ne (o v : SVec2f K) (h : pass_x_runs o v) : v.x ≠ 0 :=
  (float_direction_ne_zero_iff v.x).mp h.1

theorem pass_y_runs_ne (o v : SVec2f K) (h : pass_y_runs o v) : v.y ≠ 0 :=
  (float_direction_ne_zero_iff v.y).mp h.1

theorem tile_edge_x_pos (o v : SVec2f K) (h : 0 < v.x) :
    (tile_edge_in_ray_direction o v).x = ((raycast_tile_origin o).x + 1) * 20 := by
  unfold tile_edge_in_ray_direction raycast_direction helper_vector_direction
  simp [float_direction_pos h, gridTileDimensions]

theorem tile_edge_x_neg (o v : SVec2f K) (h : v.x < 0) :
    (tile_edge_in_ray_direction o v).x = (raycast_tile_origin o).x * 20 := by
  unfold tile_edge_in_ray_direction raycast_direction helper_vector_direction
  simp [float_direction_neg h, gridTileDimensions]

theorem tile_edge_y_pos (o v : SVec2f K) (h : 0 < v.y) :
    (tile_edge_in_ray_direction o v).y = ((raycast_tile_origin o).y + 1) * 20 := by
  unfold tile_edge_in_ray_direction raycast_direction helper_vector_direction
  simp [float_direction_pos h, gridTileDimensions]

theorem tile_edge_y_neg (o v : SVec2f K) (h : v.y < 0) :
    (tile_edge_in_ray_direction o v).y = (raycast_tile_origin o).y * 20 := by
  unfold tile_edge_in_ray_direction raycast_direction helper_vector_direction
  simp [float_direction_neg h, gridTileDimensions]

theorem intersect_times_initial_x (o v : SVec2f K) :
    (intersect_times_initial o v).x = (((tile_edge_in_ray_direction o v).x : K) - o.x) / v.x := by
  simp [intersect_times_initial, raycast_grid_origin, gridOriginBottomLeft]

theorem intersect_times_initial_y (o v : SVec2f K) :
    (intersect_times_initial o v).y = (((tile_edge_in_ray_direction o v).y : K) - o.y) / v.y := by
  simp [intersect_times_initial, raycast_grid_origin, gridOriginBottomLeft]

/-- The first vertical edge is reached at a time that is not negative. -/
theorem intersect_times_initial_x_nonneg (o v : SVec2f K)
    (ho : ¬ ray_origin_out_of_grid_bounds o) (hv : v.x ≠ 0) :
    0 ≤ (intersect_times_initial o v).x := by
  obtain ⟨⟨h1, h2⟩, _, _⟩ := raycast_tile_origin_x o ho
  rw [intersect_times_initial_x]
  rcases lt_or_gt_of_ne hv with h | h
  · rw [tile_edge_x_neg o v h]
    apply div_nonneg_of_nonpos _ (le_of_lt h)
    push_cast
    linarith
  · rw [tile_edge_x_pos o v h]
    apply div_nonneg _ (le_of_lt h)
    push_cast
    linarith

/-- The first horizontal edge is reached at a time that is not negative. -/
theorem intersect_times_initial_y_nonneg (o v : SVec2f K)
    (ho : ¬ ray_origin_out_of_grid_bounds o) (hv : v.y ≠ 0) :
    0 ≤ (intersect_times_initial o v).y := by
  obtain ⟨⟨h1, h2⟩, _, _⟩ := raycast_tile_origin_y o ho
  rw [intersect_times_initial_y]
  rcases lt_or_gt_of_ne hv with h | h
  · rw [tile_edge_y_neg o v h]
    apply div_nonneg_of_nonpos _ (le_of_lt h)
    push_cast
    linarith
  · rw [tile_edge_y_pos o v h]
    apply div_nonneg _ (le_of_lt h)
    push_cast
    linarith

/-- The first impact of the pass over vertical edges lies on the edge itself. -/
theorem initial_impact_position_raycast_x_x (o v : SVec2f K) (hv : v.x ≠ 0) :
    (initial_impact_position_raycast_x o v).x = ((tile_edge_in_ray_direction o v).x : K) := by
  unfold initial_impact_position_raycast_x
  rw [intersect_times_initial_x]
  field_simp

/-- The first impact of the pass over horizontal edges lies on the edge itself. -/
theorem initial_impact_position_raycast_y_y (o v : SVec2f K) (hv : v.y ≠ 0) :
    (initial_impact_position_raycast_y o v).y = ((tile_edge_in_ray_direction o v).y : K) := by
  unfold initial_impact_position_raycast_y
  rw [intersect_times_initial_y]
  field_simp

theorem step_size_x_x_pos (v : SVec2f K) (h : 0 < v.x) : (step_size_x v).x = 20 := by
  simp [step_size_x, raycast_direction, helper_vector_direction, float_direction_pos h,
    gridTileDimensions]

theorem step_size_x_x_neg (v : SVec2f K) (h : v.x < 0) : (step_size_x v).x = -20 := by
  simp [step_size_x, raycast_direction, helper_vector_direction, float_direction_neg h,
    gridTileDimensions]

theorem step_size_y_y_pos (v : SVec2f K) (h : 0 < v.y) : (step_size_y v).y = 20 := by
  simp [step_size_y, raycast_direction, helper_vector_direction, float_direction_pos h,
    gridTileDimensions]

theorem step_size_y_y_neg (v : SVec2f K) (h : v.y < 0) : (step_size_y v).y = -20 := by
  simp [step_size_y, raycast_direction, helper_vector_direction, float_direction_neg h,
    gridTileDimensions]

theorem float_direction_mul_abs (x : K) : |x| * ((float_direction x : Int) : K) = x := by
  rcases lt_trichotomy x 0 with h | h | h
  · rw [float_direction_neg h, abs_of_neg h]; push_cast; ring
  · subst h; simp
  · rw [float_direction_pos h, abs_of_pos h]; push_cast; ring

/-- Each step of the pass over vertical edges moves along the ray by `20 / |v.x|`. -/
theorem step_size_x_eq (v : SVec2f K) (hv : v.x ≠ 0) :
    step_size_x v = ⟨v.x * (20 / |v.x|), v.y * (20 / |v.x|)⟩ := by
  have habs : |v.x| ≠ 0 := abs_ne_zero.mpr hv
  have hx : (step_size_x v).x = v.x * (20 / |v.x|) := by
    rcases lt_or_gt_of_ne hv with h | h
    · rw [step_size_x_x_neg v h, abs_of_neg h, mul_div_assoc', eq_div_iff (neg_ne_zero.mpr hv)]
      ring
    · rw [step_size_x_x_pos v h, abs_of_pos h]; field_simp
  have hy : (step_size_x v).y = v.y * (20 / |v.x|) := by
    have : (step_size_x v).y = |v.y * 20 / v.x| * ((float_direction v.y : Int) : K) := by
      simp [step_size_x, raycast_direction, helper_vector_direction, gridTileDimensions]
    rw [this, abs_div, abs_mul]
    have h20 : |(20 : K)| = 20 := abs_of_pos (by norm_num)
    rw [h20]
    have := float_direction_mul_abs v.y
    calc |v.y| * 20 / |v.x| * ((float_direction v.y : Int) : K)
        = (|v.y| * ((float_direction v.y : Int) : K)) * (20 / |v.x|) := by ring
      _ = v.y * (20 / |v.x|) := by rw [this]
  cases hs : step_size_x v with
  | mk sx sy =>
    rw [hs] at hx hy
    simp only at hx hy
    rw [hx, hy]

/-- Each step of the pass over horizontal edges moves along the ray by `20 / |v.y|`. -/
theorem step_size_y_eq (v : SVec2f K) (hv : v.y ≠ 0) :
    step_size_y v = ⟨v.x * (20 / |v.y|), v.y * (20 / |v.y|)⟩ := by
  have habs : |v.y| ≠ 0 := abs_ne_zero.mpr hv
  have hy : (step_size_y v).y = v.y * (20 / |v.y|) := by
    rcases lt_or_gt_of_ne hv with h | h
    · rw [step_size_y_y_neg v h, abs_of_neg h, mul_div_assoc', eq_div_iff (neg_ne_zero.mpr hv)]
      ring
    · rw [step_size_y_y_pos v h, abs_of_pos h]; field_simp
  have hx : (step_size_y v).x = v.x * (20 / |v.y|) := by
    have : (step_size_y v).x = |v.x * 20 / v.y| * ((float_direction v.x : Int) : K) := by
      simp [step_size_y, raycast_direction, helper_vector_direction, gridTileDimensions]
    rw [this, abs_div, abs_mul]
    have h20 : |(20 : K)| = 20 := abs_of_pos (by norm_num)
    rw [h20]
    have := float_direction_mul_abs v.x
    calc |v.x| * 20 / |v.y| * ((float_direction v.x : Int) : K)
        = (|v.x| * ((float_direction v.x : Int) : K)) * (20 / |v.y|) := by ring
      _ = v.x * (20 / |v.y|) := by rw [this]
  cases hs : step_size_y v with
  | mk sx sy =>
    rw [hs] at hx hy
    simp only at hx hy
    rw [hx, hy]

end PassGeometry

/-! ## The stepping loops end -/

section Termination

variable {K : Type} [LinearOrderedField K] [FloorRing K]

/-- From step 41 on the pass over vertical edges is outside the grid bounds. -/
theorem step_stops_x_of_large (sqrtf : K → K) (len d0 : K) (o v : SVec2f K)
    (hr : pass_x_runs o v) (hb : ¬ out_of_grid_bounds (initial_impact_position_raycast_x o v))
    (j : Nat) (hj : 41 ≤ j) :
    step_stops sqrtf len (initial_impact_position_raycast_x o v) (step_size_x v) d0 j := by
  left
  rw [in_grid_bounds_iff] at hb
  obtain ⟨⟨h1, h2⟩, _⟩ := hb
  rw [out_of_grid_bounds_iff]
  have hjK : (41 : K) ≤ (j : K) := by exact_mod_cast hj
  simp only [stepped_edge_impact]
  rcases lt_or_gt_of_ne (pass_x_runs_ne o v hr) with h | h
  · left
    rw [step_size_x_x_neg v h]
    nlinarith
  · right; left
    rw [step_size_x_x_pos v h]
    show (800 : K) < _
    nlinarith

/-- From step 31 on the pass over horizontal edges is outside the grid bounds. -/
theorem step_stops_y_of_large (sqrtf : K → K) (len d0 : K) (o v : SVec2f K)
    (hr : pass_y_runs o v) (hb : ¬ out_of_grid_bounds (initial_impact_position_raycast_y o v))
    (j : Nat) (hj : 31 ≤ j) :
    step_stops sqrtf len (initial_impact_position_raycast_y o v) (step_size_y v) d0 j := by
  left
  rw [in_grid_bounds_iff] at hb
  obtain ⟨_, ⟨h1, h2⟩⟩ := hb
  rw [out_of_grid_bounds_iff]
  have hjK : (31 : K) ≤ (j : K) := by exact_mod_cast hj
  simp only [stepped_edge_impact]
  rcases lt_or_gt_of_ne (pass_y_runs_ne o v hr) with h | h
  · right; right; left
    rw [step_size_y_y_neg v h]
    nlinarith
  · right; right; right
    rw [step_size_y_y_pos v h]
    show (600 : K) < _
    nlinarith

/-- With 41 units of fuel the pass over vertical edges reaches its end. -/
theorem raycast_pass_x_terminates (sqrtf : K → K) (fuel : Nat) (o v : SVec2f K)
    (hf : 41 ≤ fuel) : ∃ out, raycast_pass_x sqrtf fuel o v = some out := by
  by_cases hr : pass_x_runs o v
  · by_cases hb : out_of_grid_bounds (initial_impact_position_raycast_x o v)
    · exact ⟨_, raycast_pass_x_aborted sqrtf fuel o v hr hb⟩
    · rw [raycast_pass_x_stepping sqrtf fuel o v hr hb]
      obtain ⟨r, hr1⟩ := bounded_loop_isSome _
        (stepped_impact_x sqrtf v (raycast_length sqrtf v)
          (initial_impact_position_raycast_x o v) (step_size_x v)
          (origin_to_initial_impact_length sqrtf o (initial_impact_position_raycast_x o v)))
        41 (fun j hj => step_stops_x_of_large sqrtf (raycast_length sqrtf v)
          (origin_to_initial_impact_length sqrtf o (initial_impact_position_raycast_x o v))
          o v hr hb j hj)
        fuel 1 [initial_impact_raycast_x o v] (by omega) (by omega)
      exact ⟨PassOutcome.recorded r, by rw [hr1]; rfl⟩
  · exact ⟨_, raycast_pass_x_skipped sqrtf fuel o v hr⟩

/-- With 31 units of fuel the pass over horizontal edges reaches its end. -/
theorem raycast_pass_y_terminates (sqrtf : K → K) (fuel : Nat) (o v : SVec2f K)
    (hf : 31 ≤ fuel) : ∃ out, raycast_pass_y sqrtf fuel o v = some out := by
  by_cases hr : pass_y_runs o v
  · by_cases hb : out_of_grid_bounds (initial_impact_position_raycast_y o v)
    · exact ⟨_, raycast_pass_y_aborted sqrtf fuel o v hr hb⟩
    · rw [raycast_pass_y_stepping sqrtf fuel o v hr hb]
      obtain ⟨r, hr1⟩ := bounded_loop_isSome _
        (stepped_impact_y sqrtf v (raycast_length sqrtf v)
          (initial_impact_position_raycast_y o v) (step_size_y v)
          (origin_to_initial_impact_length sqrtf o (initial_impact_position_raycast_y o v)))
        31 (fun j hj => step_stops_y_of_large sqrtf (raycast_length sqrtf v)
          (origin_to_initial_impact_length sqrtf o (initial_impact_position_raycast_y o v))
          o v hr hb j hj)
        fuel 1 [initial_impact_raycast_y o v] (by omega) (by omega)
      exact ⟨PassOutcome.recorded r, by rw [hr1]; rfl⟩
  · exact ⟨_, raycast_pass_y_skipped sqrtf fuel o v hr⟩

/-- With 41 units of fuel the whole function returns a list. -/
theorem generate_terminates (sqrtf : K → K) (fuel : Nat) (o v : SVec2f K) (hf : 41 ≤ fuel) :
    ∃ r, generateRaycastPointsAlongEdges sqrtf fuel o v = some r := by
  obtain ⟨ox, hx⟩ := raycast_pass_x_terminates sqrtf fuel o v hf
  obtain ⟨oy, hy⟩ := raycast_pass_y_terminates sqrtf fuel o v (by omega)
  unfold generateRaycastPointsAlongEdges
  by_cases ho : ray_origin_out_of_grid_bounds o
  · exact ⟨[], by rw [if_pos ho]⟩
  · rw [if_neg ho, hx, hy]
    cases ox with
    | aborted => exact ⟨[], rfl⟩
    | recorded xs =>
      cases oy with
      | aborted => exact ⟨[], rfl⟩
      | recorded ys => exact ⟨_, rfl⟩

end Termination

/-! ## Running a pass to its end -/

section Run

variable {K : Type} [LinearOrderedField K] [FloorRing K]

/-- The buffer left by the pass over vertical edges when its loop first stops at step `m`. -/
theorem raycast_pass_x_run (sqrtf : K → K) (fuel : Nat) (o v : SVec2f K) (m : Nat)
    (hr : pass_x_runs o v) (hb : ¬ out_of_grid_bounds (initial_impact_position_raycast_x o v))
    (hm : 1 ≤ m)
    (hstop : step_stops sqrtf (raycast_length sqrtf v) (initial_impact_position_raycast_x o v)
      (step_size_x v)
      (origin_to_initial_impact_length sqrtf o (initial_impact_position_raycast_x o v)) m)
    (hgo : ∀ j, 1 ≤ j → j < m →
      ¬ step_stops sqrtf (raycast_length sqrtf v) (initial_impact_position_raycast_x o v)
        (step_size_x v)
        (origin_to_initial_impact_length sqrtf o (initial_impact_position_raycast_x o v)) j)
    (hf : m ≤ fuel) :
    raycast_pass_x sqrtf fuel o v = some (PassOutcome.recorded
      (record_all [initial_impact_raycast_x o v]
        ((List.range' 1 (m - 1)).map
          (stepped_impact_x sqrtf v (raycast_length sqrtf v)
            (initial_impact_position_raycast_x o v) (step_size_x v)
            (origin_to_initial_impact_length sqrtf o
              (initial_impact_position_raycast_x o v)))))) := by
  rw [raycast_pass_x_stepping sqrtf fuel o v hr hb,
    bounded_loop_run _ _ m hstop fuel 1 _ hm hgo (by omega)]
  rfl

/-- The buffer left by the pass over horizontal edges when its loop first stops at step `m`. -/
theorem raycast_pass_y_run (sqrtf : K → K) (fuel : Nat) (o v : SVec2f K) (m : Nat)
    (hr : pass_y_runs o v) (hb : ¬ out_of_grid_bounds (initial_impact_position_raycast_y o v))
    (hm : 1 ≤ m)
    (hstop : step_stops sqrtf (raycast_length sqrtf v) (initial_impact_position_raycast_y o v)
      (step_size_y v)
      (origin_to_initial_impact_length sqrtf o (initial_impact_position_raycast_y o v)) m)
    (hgo : ∀ j, 1 ≤ j → j < m →
      ¬ step_stops sqrtf (raycast_length sqrtf v) (initial_impact_position_raycast_y o v)
        (step_size_y v)
        (origin_to_initial_impact_length sqrtf o (initial_impact_position_raycast_y o v)) j)
    (hf : m ≤ fuel) :
    raycast_pass_y sqrtf fuel o v = some (PassOutcome.recorded
      (record_all [initial_impact_raycast_y o v]
        ((List.range' 1 (m - 1)).map
          (stepped_impact_y sqrtf v (raycast_length sqrtf v)
            (initial_impact_position_raycast_y o v) (step_size_y v)
            (origin_to_initial_impact_length sqrtf o
              (initial_impact_position_raycast_y o v)))))) := by
  rw [raycast_pass_y_stepping sqrtf fuel o v hr hb,
    bounded_loop_run _ _ m hstop fuel 1 _ hm hgo (by omega)]
  rfl

/-- The result when neither pass returns early. -/
theorem generate_of_passes (sqrtf : K → K) (fuel : Nat) (o v : SVec2f K)
    (xs ys : List (SImpactInformation K)) (ho : ¬ ray_origin_out_of_grid_bounds o)
    (hx : raycast_pass_x sqrtf fuel o v = some (PassOutcome.recorded xs))
    (hy : raycast_pass_y sqrtf fuel o v = some (PassOutcome.recorded ys)) :
    generateRaycastPointsAlongEdges sqrtf fuel o v = some (merge_impacts xs ys) := by
  unfold generateRaycastPointsAlongEdges
  rw [if_neg ho, hx, hy]

end Run

/-! ## Scenario A -/

section ScenarioA

theorem scenarioA_tile_origin : raycast_tile_origin (⟨10, 10⟩ : SVec2f ℝ) = ⟨0, 0⟩ := by
  unfold raycast_tile_origin raycast_grid_relative_origin
  simp only [gridOriginBottomLeft, gridTileDimensions]
  rw [float_to_int_eq (n := 0) (by norm_num) (by norm_num) (by norm_num)]

theorem scenarioA_edge :
    tile_edge_in_ray_direction (⟨10, 10⟩ : SVec2f ℝ) ⟨100, 0⟩ = ⟨20, 0⟩ := by
  unfold tile_edge_in_ray_direction raycast_direction helper_vector_direction
  rw [scenarioA_tile_origin]
  simp [float_direction, gridTileDimensions]

theorem scenarioA_times :
    intersect_times_initial (⟨10, 10⟩ : SVec2f ℝ) ⟨100, 0⟩ = ⟨1 / 10, 0⟩ := by
  unfold intersect_times_initial raycast_grid_origin
  rw [scenarioA_edge]
  simp only [gridOriginBottomLeft]
  norm_num

theorem scenarioA_direction : raycast_direction (⟨100, 0⟩ : SVec2f ℝ) = ⟨1, 0⟩ := by
  simp [raycast_direction, helper_vector_direction, float_direction]

theorem scenarioA_pass_x_runs : pass_x_runs (⟨10, 10⟩ : SVec2f ℝ) ⟨100, 0⟩ := by
  unfold pass_x_runs
  rw [scenarioA_times, scenarioA_direction]
  norm_num

theorem scenarioA_pass_y_skipped : ¬ pass_y_runs (⟨10, 10⟩ : SVec2f ℝ) ⟨100, 0⟩ := by
  unfold pass_y_runs
  rw [scenarioA_direction]
  simp

theorem scenarioA_position :
    initial_impact_position_raycast_x (⟨10, 10⟩ : SVec2f ℝ) ⟨100, 0⟩ = ⟨20, 10⟩ := by
  unfold initial_impact_position_raycast_x
  rw [scenarioA_times]
  norm_num

theorem scenarioA_initial :
    initial_impact_raycast_x (⟨10, 10⟩ : SVec2f ℝ) ⟨100, 0⟩ = ⟨1 / 10, ⟨20, 10⟩, ⟨1, 0⟩⟩ := by
  unfold initial_impact_raycast_x
  rw [scenarioA_position, scenarioA_times, scenarioA_edge]
  simp only [gridTileDimensions]
  rw [float_to_int_eq (n := 0) (by norm_num) (by norm_num) (by norm_num)]
  norm_num

theorem scenarioA_step_size : step_size_x (⟨100, 0⟩ : SVec2f ℝ) = ⟨20, 0⟩ := by
  unfold step_size_x
  rw [scenarioA_direction]
  simp [gridTileDimensions]

theorem scenarioA_length : raycast_length Real.sqrt (⟨100, 0⟩ : SVec2f ℝ) = 100 := by
  unfold raycast_length
  simp only [mul_zero, add_zero]
  exact Real.sqrt_mul_self (by norm_num)

theorem scenarioA_initial_length :
    origin_to_initial_impact_length Real.sqrt (⟨10, 10⟩ : SVec2f ℝ) ⟨20, 10⟩ = 10 := by
  unfold origin_to_initial_impact_length vector_length
  simp only [sub_self, mul_zero, add_zero]
  norm_num
  rw [show (100 : ℝ) = 10 * 10 by norm_num]
  exact Real.sqrt_mul_self (by norm_num)

theorem scenarioA_step_length : vector_length Real.sqrt (⟨20, 0⟩ : SVec2f ℝ) = 20 := by
  unfold vector_length
  simp only [mul_zero, add_zero]
  exact Real.sqrt_mul_self (by norm_num)

theorem scenarioA_stops (j : Nat) :
    step_stops Real.sqrt 100 (⟨20, 10⟩ : SVec2f ℝ) ⟨20, 0⟩ 10 j ↔ 5 ≤ j := by
  unfold step_stops total_current_step_length
  rw [scenarioA_step_length, out_of_grid_bounds_iff]
  simp only [stepped_edge_impact]
  constructor
  · intro h
    by_contra hj
    have hj4 : (j : ℝ) ≤ 4 := by
      have : j ≤ 4 := by omega
      exact_mod_cast this
    have hj0 : (0 : ℝ) ≤ (j : ℝ) := Nat.cast_nonneg j
    rcases h with (h | h | h | h) | h
    · linarith
    · linarith
    · norm_num at h
    · norm_num at h
    · exact h (by linarith)
  · intro hj
    right
    have hj5 : (5 : ℝ) ≤ (j : ℝ) := by exact_mod_cast hj
    intro h
    linarith

theorem scenarioA_stepped (j : Nat) :
    stepped_impact_x Real.sqrt (⟨100, 0⟩ : SVec2f ℝ) 100 ⟨20, 10⟩ ⟨20, 0⟩ 10 j
      = ⟨(10 + 20 * (j : ℝ)) / 100, ⟨20 + 20 * (j : ℝ), 10⟩, ⟨1 + (j : Int), 0⟩⟩ := by
  unfold stepped_impact_x total_current_step_length
  rw [scenarioA_step_length]
  simp only [stepped_edge_impact, gridTileDimensions]
  have h1 : float_to_int (((20 : ℝ) + 20 * (j : ℝ)) / ((20 : Int) : ℝ)) = 1 + (j : Int) := by
    have : ((20 : ℝ) + 20 * (j : ℝ)) / ((20 : Int) : ℝ) = ((1 + (j : Int) : Int) : ℝ) := by
      push_cast
      field_simp
      ring
    rw [this, float_to_int_intCast]
  have h2 : float_to_int (((10 : ℝ) + 0 * (j : ℝ)) / ((20 : Int) : ℝ)) = 0 := by
    apply float_to_int_eq <;> norm_num
  rw [h1, h2]
  norm_num

/-- The pass over vertical edges in scenario A. -/
theorem scenarioA_pass_x (n : Nat) :
    raycast_pass_x Real.sqrt (n + 5) (⟨10, 10⟩ : SVec2f ℝ) ⟨100, 0⟩
      = some (PassOutcome.recorded
          [⟨1 / 10, ⟨20, 10⟩, ⟨1, 0⟩⟩, ⟨3 / 10, ⟨40, 10⟩, ⟨2, 0⟩⟩, ⟨1 / 2, ⟨60, 10⟩, ⟨3, 0⟩⟩,
           ⟨7 / 10, ⟨80, 10⟩, ⟨4, 0⟩⟩, ⟨9 / 10, ⟨100, 10⟩, ⟨5, 0⟩⟩]) := by
  have hb : ¬ out_of_grid_bounds
      (initial_impact_position_raycast_x (⟨10, 10⟩ : SVec2f ℝ) ⟨100, 0⟩) := by
    rw [scenarioA_position, in_grid_bounds_iff]
    norm_num
  rw [raycast_pass_x_run Real.sqrt (n + 5) _ _ 5 scenarioA_pass_x_runs hb (by norm_num)
    (by
      rw [scenarioA_position, scenarioA_length, scenarioA_step_size, scenarioA_initial_length]
      exact (scenarioA_stops 5).mpr (le_refl 5))
    (by
      intro j _ hj5
      rw [scenarioA_position, scenarioA_length, scenarioA_step_size, scenarioA_initial_length,
        scenarioA_stops]
      omega)
    (by omega)]
  rw [scenarioA_position, scenarioA_length, scenarioA_step_size, scenarioA_initial_length,
    scenarioA_initial]
  have hl : List.range' 1 (5 - 1) = [1, 2, 3, 4] := by decide
  rw [hl]
  simp only [List.map, scenarioA_stepped]
  simp only [record_all, List.foldl, MAX_POINTS_PER_AXIS]
  norm_num

theorem scenarioA_origin_in_grid : ¬ ray_origin_out_of_grid_bounds (⟨10, 10⟩ : SVec2f ℝ) := by
  rw [ray_origin_in_grid_iff]
  norm_num

/-- A list that is already ordered by time is left as it is by the merge step. -/
theorem merge_impacts_of_sorted {K : Type} [LinearOrderedField K]
    (xs : List (SImpactInformation K))
    (h : List.Sorted (fun a b => a.impact_time ≤ b.impact_time) xs) :
    merge_impacts xs [] = xs := by
  unfold merge_impacts qsort
  rw [List.append_nil]
  apply List.Sorted.insertionSort_eq
  exact List.Pairwise.imp (fun {a b} hab => (sort_impact_information_le_iff a b).mpr hab) h

/-- The run of scenario A: five impacts on the vertical edges `x = 20, ..., 100`. -/
theorem scenarioA_run (n : Nat) :
    generateRaycastPointsAlongEdges Real.sqrt (n + 5) (⟨10, 10⟩ : SVec2f ℝ) ⟨100, 0⟩
      = some [⟨1 / 10, ⟨20, 10⟩, ⟨1, 0⟩⟩, ⟨3 / 10, ⟨40, 10⟩, ⟨2, 0⟩⟩, ⟨1 / 2, ⟨60, 10⟩, ⟨3, 0⟩⟩,
           ⟨7 / 10, ⟨80, 10⟩, ⟨4, 0⟩⟩, ⟨9 / 10, ⟨100, 10⟩, ⟨5, 0⟩⟩] := by
  rw [generate_of_passes Real.sqrt (n + 5) _ _ _ _ scenarioA_origin_in_grid (scenarioA_pass_x n)
    (raycast_pass_y_skipped Real.sqrt (n + 5) _ _ scenarioA_pass_y_skipped)]
  rw [merge_impacts_of_sorted]
  simp only [List.Sorted, List.pairwise_cons, List.mem_cons, List.mem_singleton]
  norm_num

end ScenarioA

/-! ## Properties of the recorded impacts -/

section ImpactProperties

variable {K : Type} [LinearOrderedField K] [FloorRing K]

/-- Every impact of the pass over vertical edges lies inside the grid bounds. -/
theorem impact_x_point_in_bounds (sqrtf : K → K) (o v : SVec2f K)
    (hb : ¬ out_of_grid_bounds (initial_impact_position_raycast_x o v))
    (e : SImpactInformation K) (he : is_impact_of_pass_x sqrtf o v e) :
    ¬ out_of_grid_bounds e.impact_point := by
  rcases he with he | ⟨j, _, hs, he⟩
  · rw [he]; exact hb
  · rw [he]
    exact fun h => hs (Or.inl h)

/-- Every impact of the pass over horizontal edges lies inside the grid bounds. -/
theorem impact_y_point_in_bounds (sqrtf : K → K) (o v : SVec2f K)
    (hb : ¬ out_of_grid_bounds (initial_impact_position_raycast_y o v))
    (e : SImpactInformation K) (he : is_impact_of_pass_y sqrtf o v e) :
    ¬ out_of_grid_bounds e.impact_point := by
  rcases he with he | ⟨j, _, hs, he⟩
  · rw [he]; exact hb
  · rw [he]
    exact fun h => hs (Or.inl h)

/-- The time of a stepped impact lies in `[0, 1]` when `sqrtf` has no negative value. -/
theorem stepped_time_in_unit_interval (sqrtf : K → K) (hsq : ∀ x, 0 ≤ sqrtf x)
    (len : K) (init step : SVec2f K) (o : SVec2f K) (j : Nat)
    (hs : ¬ step_stops sqrtf len init step (origin_to_initial_impact_length sqrtf o init) j) :
    0 ≤ total_current_step_length sqrtf step (origin_to_initial_impact_length sqrtf o init) j / len
      ∧ total_current_step_length sqrtf step (origin_to_initial_impact_length sqrtf o init) j / len
        ≤ 1 := by
  have hreach : len ≥ total_current_step_length sqrtf step
      (origin_to_initial_impact_length sqrtf o init) j := by
    by_contra h
    exact hs (Or.inr h)
  have h0 : 0 ≤ total_current_step_length sqrtf step
      (origin_to_initial_impact_length sqrtf o init) j := by
    unfold total_current_step_length origin_to_initial_impact_length vector_length
    have := hsq (step.x * step.x + step.y * step.y)
    have := hsq ((init.x - o.x) * (init.x - o.x) + (init.y - o.y) * (init.y - o.y))
    have : (0 : K) ≤ (j : K) := Nat.cast_nonneg j
    positivity
  have hlen : 0 ≤ len := le_trans h0 hreach
  exact ⟨div_nonneg h0 hlen, div_le_one_of_le₀ hreach hlen⟩

/-- Times of the pass over vertical edges. -/
theorem impact_x_time_in_unit_interval (sqrtf : K → K) (hsq : ∀ x, 0 ≤ sqrtf x) (o v : SVec2f K)
    (ho : ¬ ray_origin_out_of_grid_bounds o) (hr : pass_x_runs o v)
    (e : SImpactInformation K) (he : is_impact_of_pass_x sqrtf o v e) :
    0 ≤ e.impact_time ∧ e.impact_time ≤ 1 := by
  rcases he with he | ⟨j, _, hs, he⟩
  · rw [he]
    exact ⟨intersect_times_initial_x_nonneg o v ho (pass_x_runs_ne o v hr), le_of_lt hr.2⟩
  · rw [he]
    exact stepped_time_in_unit_interval sqrtf hsq _ _ _ o j hs

/-- Times of the pass over horizontal edges. -/
theorem impact_y_time_in_unit_interval (sqrtf : K → K) (hsq : ∀ x, 0 ≤ sqrtf x) (o v : SVec2f K)
    (ho : ¬ ray_origin_out_of_grid_bounds o) (hr : pass_y_runs o v)
    (e : SImpactInformation K) (he : is_impact_of_pass_y sqrtf o v e) :
    0 ≤ e.impact_time ∧ e.impact_time ≤ 1 := by
  rcases he with he | ⟨j, _, hs, he⟩
  · rw [he]
    exact ⟨intersect_times_initial_y_nonneg o v ho (pass_y_runs_ne o v hr), le_of_lt hr.2⟩
  · rw [he]
    exact stepped_time_in_unit_interval sqrtf hsq _ _ _ o j hs

end ImpactProperties

/-! ## Time and point of an impact agree -/

section OnRay

/-- Length of a multiple of a vector. -/
theorem sqrt_scaled (a b c : ℝ) (hc : 0 ≤ c) :
    Real.sqrt ((a * c) * (a * c) + (b * c) * (b * c)) = c * Real.sqrt (a * a + b * b) := by
  have h : (a * c) * (a * c) + (b * c) * (b * c) = (c * c) * (a * a + b * b) := by ring
  rw [h, Real.sqrt_mul (mul_self_nonneg c), Real.sqrt_mul_self hc]

theorem raycast_length_pos_of_x (v : SVec2f ℝ) (hv : v.x ≠ 0) :
    0 < raycast_length Real.sqrt v := by
  unfold raycast_length
  apply Real.sqrt_pos.mpr
  have := mul_self_pos.mpr hv
  nlinarith [mul_self_nonneg v.y]

theorem raycast_length_pos_of_y (v : SVec2f ℝ) (hv : v.y ≠ 0) :
    0 < raycast_length Real.sqrt v := by
  unfold raycast_length
  apply Real.sqrt_pos.mpr
  have := mul_self_pos.mpr hv
  nlinarith [mul_self_nonneg v.x]

/-- A point `o + v * t` with `t ≥ 0`, moved `j` times by `v * c` with `c ≥ 0`, is the point
of the ray at the time computed from the two lengths. -/
theorem stepped_on_ray (o v : SVec2f ℝ) (t c : ℝ) (ht : 0 ≤ t) (hc : 0 ≤ c)
    (hlen : 0 < raycast_length Real.sqrt v) (j : Nat) :
    (total_current_step_length Real.sqrt ⟨v.x * c, v.y * c⟩
        (origin_to_initial_impact_length Real.sqrt o ⟨o.x + v.x * t, o.y + v.y * t⟩) j
      / raycast_length Real.sqrt v = t + c * (j : ℝ)) ∧
    (stepped_edge_impact (⟨o.x + v.x * t, o.y + v.y * t⟩ : SVec2f ℝ) ⟨v.x * c, v.y * c⟩ j
      = ⟨o.x + v.x * (t + c * (j : ℝ)), o.y + v.y * (t + c * (j : ℝ))⟩) := by
  constructor
  · unfold total_current_step_length origin_to_initial_impact_length vector_length
    simp only [add_sub_cancel_left]
    rw [sqrt_scaled v.x v.y t ht, sqrt_scaled v.x v.y c hc]
    unfold raycast_length at hlen ⊢
    field_simp
    ring
  · unfold stepped_edge_impact
    simp only [SVec2f.mk.injEq]
    constructor <;> ring

/-- Impacts of the pass over vertical edges lie on the ray at their recorded time. -/
theorem impact_x_on_ray (o v : SVec2f ℝ) (ho : ¬ ray_origin_out_of_grid_bounds o)
    (hr : pass_x_runs o v) (e : SImpactInformation ℝ)
    (he : is_impact_of_pass_x Real.sqrt o v e) :
    e.impact_point.x = o.x + v.x * e.impact_time ∧
      e.impact_point.y = o.y + v.y * e.impact_time := by
  have hv := pass_x_runs_ne o v hr
  rcases he with he | ⟨j, _, _, he⟩
  · rw [he]
    exact ⟨rfl, rfl⟩
  · have ht := intersect_times_initial_x_nonneg o v ho hv
    have hc : (0 : ℝ) ≤ 20 / |v.x| := by positivity
    obtain ⟨h1, h2⟩ := stepped_on_ray o v _ _ ht hc (raycast_length_pos_of_x v hv) j
    rw [he]
    unfold stepped_impact_x
    simp only
    rw [step_size_x_eq v hv]
    unfold initial_impact_position_raycast_x
    rw [h1, h2]
    exact ⟨rfl, rfl⟩

/-- Impacts of the pass over horizontal edges lie on the ray at their recorded time. -/
theorem impact_y_on_ray (o v : SVec2f ℝ) (ho : ¬ ray_origin_out_of_grid_bounds o)
    (hr : pass_y_runs o v) (e : SImpactInformation ℝ)
    (he : is_impact_of_pass_y Real.sqrt o v e) :
    e.impact_point.x = o.x + v.x * e.impact_time ∧
      e.impact_point.y = o.y + v.y * e.impact_time := by
  have hv := pass_y_runs_ne o v hr
  rcases he with he | ⟨j, _, _, he⟩
  · rw [he]
    exact ⟨rfl, rfl⟩
  · have ht := intersect_times_initial_y_nonneg o v ho hv
    have hc : (0 : ℝ) ≤ 20 / |v.y| := by positivity
    obtain ⟨h1, h2⟩ := stepped_on_ray o v _ _ ht hc (raycast_length_pos_of_y v hv) j
    rw [he]
    unfold stepped_impact_y
    simp only
    rw [step_size_y_eq v hv]
    unfold initial_impact_position_raycast_y
    rw [h1, h2]
    exact ⟨rfl, rfl⟩

end OnRay

/-! ## The tile attached to an impact -/

section Tiles

variable {K : Type} [LinearOrderedField K] [FloorRing K]

/-- The row or column computed from a coordinate inside `[0, 20 * count]`. -/
theorem float_to_int_div_twenty_range (p : K) (count : Int) (h0 : 0 ≤ p)
    (h1 : p ≤ 20 * (count : K)) :
    0 ≤ float_to_int (p / 20) ∧ float_to_int (p / 20) ≤ count ∧
      (p < 20 * (count : K) → float_to_int (p / 20) < count) := by
  rw [float_to_int_of_nonneg (by positivity)]
  refine ⟨Int.floor_nonneg.mpr (by positivity), ?_, ?_⟩
  · rw [Int.floor_le_iff]
    have : p / 20 ≤ (count : K) := by
      rw [div_le_iff₀ (by norm_num)]; linarith
    linarith
  · intro hlt
    rw [Int.floor_lt, div_lt_iff₀ (by norm_num)]
    linarith

/-- The vertical edge hit first, as a multiple of the tile width. -/
theorem tile_edge_x_cases (o v : SVec2f K) (hv : v.x ≠ 0) :
    ∃ n : Int, (tile_edge_in_ray_direction o v).x = n * 20 ∧
      ((0 < v.x ∧ n = (raycast_tile_origin o).x + 1) ∨
       (v.x < 0 ∧ n = (raycast_tile_origin o).x)) := by
  rcases lt_or_gt_of_ne hv with h | h
  · exact ⟨_, tile_edge_x_neg o v h, Or.inr ⟨h, rfl⟩⟩
  · exact ⟨_, tile_edge_x_pos o v h, Or.inl ⟨h, rfl⟩⟩

/-- The horizontal edge hit first, as a multiple of the tile height. -/
theorem tile_edge_y_cases (o v : SVec2f K) (hv : v.y ≠ 0) :
    ∃ n : Int, (tile_edge_in_ray_direction o v).y = n * 20 ∧
      ((0 < v.y ∧ n = (raycast_tile_origin o).y + 1) ∨
       (v.y < 0 ∧ n = (raycast_tile_origin o).y)) := by
  rcases lt_or_gt_of_ne hv with h | h
  · exact ⟨_, tile_edge_y_neg o v h, Or.inr ⟨h, rfl⟩⟩
  · exact ⟨_, tile_edge_y_pos o v h, Or.inl ⟨h, rfl⟩⟩

/-- An impact of the pass over vertical edges lies on a vertical grid line `x = 20 * n`; its
column is `n` for a ray going right and `n - 1` for a ray going left, its row is the
truncated quotient of the `y` coordinate. -/
theorem impact_x_tile (sqrtf : K → K) (o v : SVec2f K) (hr : pass_x_runs o v)
    (e : SImpactInformation K) (he : is_impact_of_pass_x sqrtf o v e) :
    ∃ n : Int, e.impact_point.x = (n : K) * 20 ∧
      e.impact_tile.x = (if v.x ≥ 0 then n else n - 1) ∧
      e.impact_tile.y = float_to_int (e.impact_point.y / 20) := by
  have hv := pass_x_runs_ne o v hr
  obtain ⟨n, hn, hcase⟩ := tile_edge_x_cases o v hv
  have hinit : (initial_impact_position_raycast_x o v).x = (n : K) * 20 := by
    rw [initial_impact_position_raycast_x_x o v hv, hn]; push_cast; ring
  rcases he with he | ⟨j, _, _, he⟩
  · refine ⟨n, ?_, ?_, ?_⟩
    · rw [he]; exact hinit
    · rw [he]
      simp only [initial_impact_raycast_x, gridTileDimensions]
      rw [hn, Int.mul_tdiv_cancel n (by norm_num)]
    · rw [he]
      simp [initial_impact_raycast_x, gridTileDimensions]
  · rcases hcase with ⟨hpos, _⟩ | ⟨hneg, _⟩
    · refine ⟨n + j, ?_, ?_, ?_⟩
      · rw [he]
        simp only [stepped_impact_x, stepped_edge_impact]
        rw [hinit, step_size_x_x_pos v hpos]; push_cast; ring
      · rw [he]
        simp only [stepped_impact_x, stepped_edge_impact, gridTileDimensions]
        rw [hinit, step_size_x_x_pos v hpos]
        have hq : ((n : K) * 20 + 20 * (j : K)) / ((20 : Int) : K) = ((n + j : Int) : K) := by
          push_cast; field_simp; ring
        rw [hq, float_to_int_intCast]
      · rw [he]
        simp [stepped_impact_x, gridTileDimensions]
    · refine ⟨n - j, ?_, ?_, ?_⟩
      · rw [he]
        simp only [stepped_impact_x, stepped_edge_impact]
        rw [hinit, step_size_x_x_neg v hneg]; push_cast; ring
      · rw [he]
        simp only [stepped_impact_x, stepped_edge_impact, gridTileDimensions]
        rw [hinit, step_size_x_x_neg v hneg]
        have hq : ((n : K) * 20 + -20 * (j : K)) / ((20 : Int) : K) = ((n - j : Int) : K) := by
          push_cast; field_simp; ring
        rw [hq, float_to_int_intCast]
      · rw [he]
        simp [stepped_impact_x, gridTileDimensions]

/-- An impact of the pass over horizontal edges lies on a horizontal grid line `y = 20 * n`;
its row is `n` for a ray going up and `n - 1` for a ray going down, its column is the
truncated quotient of the `x` coordinate. -/
theorem impact_y_tile (sqrtf : K → K) (o v : SVec2f K) (hr : pass_y_runs o v)
    (e : SImpactInformation K) (he : is_impact_of_pass_y sqrtf o v e) :
    ∃ n : Int, e.impact_point.y = (n : K) * 20 ∧
      e.impact_tile.y = (if v.y ≥ 0 then n else n - 1) ∧
      e.impact_tile.x = float_to_int (e.impact_point.x / 20) := by
  have hv := pass_y_runs_ne o v hr
  obtain ⟨n, hn, hcase⟩ := tile_edge_y_cases o v hv
  have hinit : (initial_impact_position_raycast_y o v).y = (n : K) * 20 := by
    rw [initial_impact_position_raycast_y_y o v hv, hn]; push_cast; ring
  rcases he with he | ⟨j, _, _, he⟩
  · refine ⟨n, ?_, ?_, ?_⟩
    · rw [he]; exact hinit
    · rw [he]
      simp only [initial_impact_raycast_y, gridTileDimensions]
      rw [hn, Int.mul_tdiv_cancel n (by norm_num)]
    · rw [he]
      simp [initial_impact_raycast_y, gridTileDimensions]
  · rcases hcase with ⟨hpos, _⟩ | ⟨hneg, _⟩
    · refine ⟨n + j, ?_, ?_, ?_⟩
      · rw [he]
        simp only [stepped_impact_y, stepped_edge_impact]
        rw [hinit, step_size_y_y_pos v hpos]; push_cast; ring
      · rw [he]
        simp only [stepped_impact_y, stepped_edge_impact, gridTileDimensions]
        rw [hinit, step_size_y_y_pos v hpos]
        have hq : ((n : K) * 20 + 20 * (j : K)) / ((20 : Int) : K) = ((n + j : Int) : K) := by
          push_cast; field_simp; ring
        rw [hq, float_to_int_intCast]
      · rw [he]
        simp [stepped_impact_y, gridTileDimensions]
    · refine ⟨n - j, ?_, ?_, ?_⟩
      · rw [he]
        simp only [stepped_impact_y, stepped_edge_impact]
        rw [hinit, step_size_y_y_neg v hneg]; push_cast; ring
      · rw [he]
        simp only [stepped_impact_y, stepped_edge_impact, gridTileDimensions]
        rw [hinit, step_size_y_y_neg v hneg]
        have hq : ((n : K) * 20 + -20 * (j : K)) / ((20 : Int) : K) = ((n - j : Int) : K) := by
          push_cast; field_simp; ring
        rw [hq, float_to_int_intCast]
      · rw [he]
        simp [stepped_impact_y, gridTileDimensions]

end Tiles

/-! ## Range of the tile indices -/

section TileRange

variable {K : Type} [LinearOrderedField K] [FloorRing K]

/-- Tile indices of an impact of the pass over vertical edges. -/
theorem impact_x_tile_range (sqrtf : K → K) (o v : SVec2f K) (hr : pass_x_runs o v)
    (hb : ¬ out_of_grid_bounds (initial_impact_position_raycast_x o v))
    (e : SImpactInformation K) (he : is_impact_of_pass_x sqrtf o v e) :
    (-1 ≤ e.impact_tile.x ∧ e.impact_tile.x ≤ 40 ∧ -1 ≤ e.impact_tile.y ∧ e.impact_tile.y ≤ 30) ∧
    (0 < e.impact_point.x ∧ e.impact_point.x < 800 ∧ 0 < e.impact_point.y ∧ e.impact_point.y < 600
      → 0 ≤ e.impact_tile.x ∧ e.impact_tile.x < 40 ∧ 0 ≤ e.impact_tile.y ∧ e.impact_tile.y < 30) := by
  have hin := impact_x_point_in_bounds sqrtf o v hb e he
  rw [in_grid_bounds_iff] at hin
  obtain ⟨⟨hx0, hx1⟩, ⟨hy0, hy1⟩⟩ := hin
  obtain ⟨n, hn, htx, hty⟩ := impact_x_tile sqrtf o v hr e he
  obtain ⟨r0, r1, r2⟩ := float_to_int_div_twenty_range e.impact_point.y 30 hy0 (by push_cast; linarith)
  have hn0 : (0 : Int) ≤ n := by
    have : (0 : K) ≤ (n : K) := by rw [hn] at hx0; linarith
    exact_mod_cast this
  have hn1 : n ≤ 40 := by
    have : (n : K) ≤ 40 := by rw [hn] at hx1; linarith
    exact_mod_cast this
  rw [htx, hty]
  constructor
  · refine ⟨?_, ?_, by omega, r1⟩ <;> split <;> omega
  · rintro ⟨px0, px1, _, py1⟩
    have hn0' : (0 : Int) < n := by
      have : (0 : K) < (n : K) := by rw [hn] at px0; linarith
      exact_mod_cast this
    have hn1' : n < 40 := by
      have : (n : K) < 40 := by rw [hn] at px1; linarith
      exact_mod_cast this
    have r3 := r2 (by push_cast; linarith)
    refine ⟨?_, ?_, r0, r3⟩ <;> split <;> omega

/-- Tile indices of an impact of the pass over horizontal edges. -/
theorem impact_y_tile_range (sqrtf : K → K) (o v : SVec2f K) (hr : pass_y_runs o v)
    (hb : ¬ out_of_grid_bounds (initial_impact_position_raycast_y o v))
    (e : SImpactInformation K) (he : is_impact_of_pass_y sqrtf o v e) :
    (-1 ≤ e.impact_tile.x ∧ e.impact_tile.x ≤ 40 ∧ -1 ≤ e.impact_tile.y ∧ e.impact_tile.y ≤ 30) ∧
    (0 < e.impact_point.x ∧ e.impact_point.x < 800 ∧ 0 < e.impact_point.y ∧ e.impact_point.y < 600
      → 0 ≤ e.impact_tile.x ∧ e.impact_tile.x < 40 ∧ 0 ≤ e.impact_tile.y ∧ e.impact_tile.y < 30) := by
  have hin := impact_y_point_in_bounds sqrtf o v hb e he
  rw [in_grid_bounds_iff] at hin
  obtain ⟨⟨hx0, hx1⟩, ⟨hy0, hy1⟩⟩ := hin
  obtain ⟨n, hn, hty, htx⟩ := impact_y_tile sqrtf o v hr e he
  obtain ⟨r0, r1, r2⟩ := float_to_int_div_twenty_range e.impact_point.x 40 hx0 (by push_cast; linarith)
  have hn0 : (0 : Int) ≤ n := by
    have : (0 : K) ≤ (n : K) := by rw [hn] at hy0; linarith
    exact_mod_cast this
  have hn1 : n ≤ 30 := by
    have : (n : K) ≤ 30 := by rw [hn] at hy1; linarith
    exact_mod_cast this
  rw [htx, hty]
  constructor
  · refine ⟨by omega, r1, ?_, ?_⟩ <;> split <;> omega
  · rintro ⟨_, px1, py0, py1⟩
    have hn0' : (0 : Int) < n := by
      have : (0 : K) < (n : K) := by rw [hn] at py0; linarith
      exact_mod_cast this
    have hn1' : n < 30 := by
      have : (n : K) < 30 := by rw [hn] at py1; linarith
      exact_mod_cast this
    have r3 := r2 (by push_cast; linarith)
    refine ⟨r0, r3, ?_, ?_⟩ <;> split <;> omega

end TileRange

/-! ## A ray that leaves the grid through its right border -/

section RightBorder

variable (sqrtf : ℝ → ℝ)

theorem rightBorder_tile_origin : raycast_tile_origin (⟨790, 10⟩ : SVec2f ℝ) = ⟨39, 0⟩ := by
  unfold raycast_tile_origin raycast_grid_relative_origin
  simp only [gridOriginBottomLeft, gridTileDimensions]
  rw [float_to_int_eq (n := 39) (by norm_num) (by norm_num) (by norm_num),
    float_to_int_eq (n := 0) (by norm_num) (by norm_num) (by norm_num)]

theorem rightBorder_edge :
    tile_edge_in_ray_direction (⟨790, 10⟩ : SVec2f ℝ) ⟨100, 0⟩ = ⟨800, 0⟩ := by
  unfold tile_edge_in_ray_direction
  rw [rightBorder_tile_origin, scenarioA_direction]
  simp [gridTileDimensions]

theorem rightBorder_times :
    intersect_times_initial (⟨790, 10⟩ : SVec2f ℝ) ⟨100, 0⟩ = ⟨1 / 10, 0⟩ := by
  unfold intersect_times_initial raycast_grid_origin
  rw [rightBorder_edge]
  simp only [gridOriginBottomLeft]
  norm_num

theorem rightBorder_pass_x_runs : pass_x_runs (⟨790, 10⟩ : SVec2f ℝ) ⟨100, 0⟩ := by
  unfold pass_x_runs
  rw [rightBorder_times, scenarioA_direction]
  norm_num

theorem rightBorder_pass_y_skipped : ¬ pass_y_runs (⟨790, 10⟩ : SVec2f ℝ) ⟨100, 0⟩ := by
  unfold pass_y_runs
  rw [scenarioA_direction]
  simp

theorem rightBorder_position :
    initial_impact_position_raycast_x (⟨790, 10⟩ : SVec2f ℝ) ⟨100, 0⟩ = ⟨800, 10⟩ := by
  unfold initial_impact_position_raycast_x
  rw [rightBorder_times]
  norm_num

theorem rightBorder_initial :
    initial_impact_raycast_x (⟨790, 10⟩ : SVec2f ℝ) ⟨100, 0⟩ = ⟨1 / 10, ⟨800, 10⟩, ⟨40, 0⟩⟩ := by
  unfold initial_impact_raycast_x
  rw [rightBorder_position, rightBorder_times, rightBorder_edge]
  simp only [gridTileDimensions]
  rw [float_to_int_eq (n := 0) (by norm_num) (by norm_num) (by norm_num)]
  have hdiv : Int.tdiv 800 20 = 40 := by decide
  rw [hdiv]
  norm_num

theorem rightBorder_origin_in_grid : ¬ ray_origin_out_of_grid_bounds (⟨790, 10⟩ : SVec2f ℝ) := by
  rw [ray_origin_in_grid_iff]
  norm_num

/-- The ray from (790, 10) along (100, 0) records one impact, on the border `x = 800`, with
column 40. -/
theorem rightBorder_run (n : Nat) :
    generateRaycastPointsAlongEdges sqrtf (n + 1) (⟨790, 10⟩ : SVec2f ℝ) ⟨100, 0⟩
      = some [⟨1 / 10, ⟨800, 10⟩, ⟨40, 0⟩⟩] := by
  have hb : ¬ out_of_grid_bounds
      (initial_impact_position_raycast_x (⟨790, 10⟩ : SVec2f ℝ) ⟨100, 0⟩) := by
    rw [rightBorder_position, in_grid_bounds_iff]
    norm_num
  have hx := raycast_pass_x_run sqrtf (n + 1) (⟨790, 10⟩ : SVec2f ℝ) ⟨100, 0⟩ 1
    rightBorder_pass_x_runs hb (le_refl 1)
    (by
      left
      rw [rightBorder_position, scenarioA_step_size, out_of_grid_bounds_iff]
      simp only [stepped_edge_impact]
      norm_num)
    (by intro j h1 h2; omega)
    (by omega)
  rw [rightBorder_initial] at hx
  rw [generate_of_passes sqrtf (n + 1) _ _ _ _ rightBorder_origin_in_grid hx
    (raycast_pass_y_skipped sqrtf (n + 1) _ _ rightBorder_pass_y_skipped)]
  rw [merge_impacts_of_sorted]
  · simp [record_all]
  · simp [record_all]

end RightBorder

/-! ## A ray through a grid corner -/

section Corner

theorem corner_tile_origin : raycast_tile_origin (⟨10, 30⟩ : SVec2f ℝ) = ⟨0, 1⟩ := by
  unfold raycast_tile_origin raycast_grid_relative_origin
  simp only [gridOriginBottomLeft, gridTileDimensions]
  rw [float_to_int_eq (n := 0) (by norm_num) (by norm_num) (by norm_num),
    float_to_int_eq (n := 1) (by norm_num) (by norm_num) (by norm_num)]

theorem corner_direction : raycast_direction (⟨20, -20⟩ : SVec2f ℝ) = ⟨1, -1⟩ := by
  simp [raycast_direction, helper_vector_direction, float_direction]

theorem corner_edge :
    tile_edge_in_ray_direction (⟨10, 30⟩ : SVec2f ℝ) ⟨20, -20⟩ = ⟨20, 20⟩ := by
  unfold tile_edge_in_ray_direction
  rw [corner_tile_origin, corner_direction]
  simp [gridTileDimensions]

theorem corner_times :
    intersect_times_initial (⟨10, 30⟩ : SVec2f ℝ) ⟨20, -20⟩ = ⟨1 / 2, 1 / 2⟩ := by
  unfold intersect_times_initial raycast_grid_origin
  rw [corner_edge]
  simp only [gridOriginBottomLeft]
  norm_num

theorem corner_pass_x_runs : pass_x_runs (⟨10, 30⟩ : SVec2f ℝ) ⟨20, -20⟩ := by
  unfold pass_x_runs
  rw [corner_times, corner_direction]
  norm_num

theorem corner_pass_y_runs : pass_y_runs (⟨10, 30⟩ : SVec2f ℝ) ⟨20, -20⟩ := by
  unfold pass_y_runs
  rw [corner_times, corner_direction]
  norm_num

theorem corner_position_x :
    initial_impact_position_raycast_x (⟨10, 30⟩ : SVec2f ℝ) ⟨20, -20⟩ = ⟨20, 20⟩ := by
  unfold initial_impact_position_raycast_x
  rw [corner_times]
  norm_num

theorem corner_position_y :
    initial_impact_position_raycast_y (⟨10, 30⟩ : SVec2f ℝ) ⟨20, -20⟩ = ⟨20, 20⟩ := by
  unfold initial_impact_position_raycast_y
  rw [corner_times]
  norm_num

theorem corner_initial_x :
    initial_impact_raycast_x (⟨10, 30⟩ : SVec2f ℝ) ⟨20, -20⟩ = ⟨1 / 2, ⟨20, 20⟩, ⟨1, 1⟩⟩ := by
  unfold initial_impact_raycast_x
  rw [corner_position_x, corner_times, corner_edge]
  simp only [gridTileDimensions]
  rw [float_to_int_eq (n := 1) (by norm_num) (by norm_num) (by norm_num)]
  norm_num

theorem corner_initial_y :
    initial_impact_raycast_y (⟨10, 30⟩ : SVec2f ℝ) ⟨20, -20⟩ = ⟨1 / 2, ⟨20, 20⟩, ⟨1, 0⟩⟩ := by
  unfold initial_impact_raycast_y
  rw [corner_position_y, corner_times, corner_edge]
  simp only [gridTileDimensions]
  rw [float_to_int_eq (n := 1) (by norm_num) (by norm_num) (by norm_num)]
  norm_num

/-- In both passes the ray length is overshot at step 1: the first impact is already at a
positive distance and one step is as long as the whole ray. -/
theorem corner_stops (step : SVec2f ℝ) (hstep : step.x * step.x + step.y * step.y = 800) :
    step_stops Real.sqrt (raycast_length Real.sqrt (⟨20, -20⟩ : SVec2f ℝ)) (⟨20, 20⟩ : SVec2f ℝ)
      step (origin_to_initial_impact_length Real.sqrt (⟨10, 30⟩ : SVec2f ℝ) ⟨20, 20⟩) 1 := by
  right
  unfold total_current_step_length origin_to_initial_impact_length vector_length raycast_length
  rw [hstep]
  have h1 : (20 : ℝ) * 20 + -20 * -20 = 800 := by norm_num
  have h2 : ((20 : ℝ) - 10) * (20 - 10) + (20 - 30) * (20 - 30) = 200 := by norm_num
  simp only [h1, h2]
  have hpos : 0 < Real.sqrt 200 := Real.sqrt_pos.mpr (by norm_num)
  intro h
  simp only [Nat.cast_one, mul_one, ge_iff_le] at h
  linarith

theorem corner_pass_x (n : Nat) :
    raycast_pass_x Real.sqrt (n + 1) (⟨10, 30⟩ : SVec2f ℝ) ⟨20, -20⟩
      = some (PassOutcome.recorded [⟨1 / 2, ⟨20, 20⟩, ⟨1, 1⟩⟩]) := by
  have hb : ¬ out_of_grid_bounds
      (initial_impact_position_raycast_x (⟨10, 30⟩ : SVec2f ℝ) ⟨20, -20⟩) := by
    rw [corner_position_x, in_grid_bounds_iff]
    norm_num
  have hx := raycast_pass_x_run Real.sqrt (n + 1) (⟨10, 30⟩ : SVec2f ℝ) ⟨20, -20⟩ 1
    corner_pass_x_runs hb (le_refl 1)
    (by
      rw [corner_position_x]
      apply corner_stops
      simp [step_size_x, corner_direction, gridTileDimensions]
      norm_num)
    (by intro j h1 h2; omega)
    (by omega)
  rw [corner_initial_x] at hx
  rw [hx]
  simp [record_all]

theorem corner_pass_y (n : Nat) :
    raycast_pass_y Real.sqrt (n + 1) (⟨10, 30⟩ : SVec2f ℝ) ⟨20, -20⟩
      = some (PassOutcome.recorded [⟨1 / 2, ⟨20, 20⟩, ⟨1, 0⟩⟩]) := by
  have hb : ¬ out_of_grid_bounds
      (initial_impact_position_raycast_y (⟨10, 30⟩ : SVec2f ℝ) ⟨20, -20⟩) := by
    rw [corner_position_y, in_grid_bounds_iff]
    norm_num
  have hy := raycast_pass_y_run Real.sqrt (n + 1) (⟨10, 30⟩ : SVec2f ℝ) ⟨20, -20⟩ 1
    corner_pass_y_runs hb (le_refl 1)
    (by
      rw [corner_position_y]
      apply corner_stops
      simp [step_size_y, corner_direction, gridTileDimensions]
      norm_num)
    (by intro j h1 h2; omega)
    (by omega)
  rw [corner_initial_y] at hy
  rw [hy]
  simp [record_all]

theorem corner_origin_in_grid : ¬ ray_origin_out_of_grid_bounds (⟨10, 30⟩ : SVec2f ℝ) := by
  rw [ray_origin_in_grid_iff]
  norm_num

/-- The ray from (10, 30) along (20, -20) passes through the corner (20, 20) at time 1/2;
both passes record it, with different tiles. -/
theorem corner_run (n : Nat) :
    generateRaycastPointsAlongEdges Real.sqrt (n + 1) (⟨10, 30⟩ : SVec2f ℝ) ⟨20, -20⟩
      = some [⟨1 / 2, ⟨20, 20⟩, ⟨1, 1⟩⟩, ⟨1 / 2, ⟨20, 20⟩, ⟨1, 0⟩⟩] := by
  rw [generate_of_passes Real.sqrt (n + 1) _ _ _ _ corner_origin_in_grid (corner_pass_x n)
    (corner_pass_y n)]
  unfold merge_impacts qsort
  simp [List.insertionSort, List.orderedInsert, sort_impact_information]

/-- Right after time 1/2 that ray is below the line `y = 20`, so it is not in a tile of
row 1. -/
theorem corner_not_entered (col : Int) :
    ¬ enters_tile (⟨10, 30⟩ : SVec2f ℝ) ⟨20, -20⟩ (1 / 2) ⟨col, 1⟩ := by
  rintro ⟨eps, heps, h⟩
  have hs := h (1 / 2 + min eps 1 / 2) (by have := lt_min heps one_pos; linarith)
    (by have := min_le_left eps 1; have := lt_min heps one_pos; linarith)
  have hy : (tile_containing (ray_point (⟨10, 30⟩ : SVec2f ℝ) ⟨20, -20⟩
      (1 / 2 + min eps 1 / 2))).y = 1 := by rw [hs]
  simp only [tile_containing, ray_point, gridOriginBottomLeft, gridTileDimensions] at hy
  have hlt : Int.floor ((30 + (1 / 2 + min eps 1 / 2) * (-20 : ℝ) - ((0 : Int) : ℝ))
      / ((20 : Int) : ℝ)) < 1 := by
    rw [Int.floor_lt]
    have := lt_min heps one_pos
    push_cast
    rw [div_lt_iff₀ (by norm_num)]
    linarith
  omega

/-- Right after time 1/2 that ray is in the tile of column 1 and row 0. -/
theorem corner_entered : enters_tile (⟨10, 30⟩ : SVec2f ℝ) ⟨20, -20⟩ (1 / 2) ⟨1, 0⟩ := by
  refine ⟨1 / 2, by norm_num, fun s h1 h2 => ?_⟩
  simp only [tile_containing, ray_point, gridOriginBottomLeft, gridTileDimensions]
  have hx : Int.floor ((10 + s * (20 : ℝ) - ((0 : Int) : ℝ)) / ((20 : Int) : ℝ)) = 1 := by
    rw [Int.floor_eq_iff]
    push_cast
    constructor
    · rw [le_div_iff₀ (by norm_num)]; linarith
    · rw [div_lt_iff₀ (by norm_num)]; linarith
  have hy : Int.floor ((30 + s * (-20 : ℝ) - ((0 : Int) : ℝ)) / ((20 : Int) : ℝ)) = 0 := by
    rw [Int.floor_eq_iff]
    push_cast
    constructor
    · rw [le_div_iff₀ (by norm_num)]; linarith
    · rw [div_lt_iff₀ (by norm_num)]; linarith
  rw [hx, hy]

end Corner

/-! ## Rays whose first crossing is outside the grid bounds -/

section FirstCrossingOutside

theorem diagonal_direction (a b : ℝ) (ha : 0 < a) (hb : 0 < b) :
    raycast_direction (⟨a, b⟩ : SVec2f ℝ) = ⟨1, 1⟩ := by
  simp [raycast_direction, helper_vector_direction, float_direction, ha, hb]

theorem topLeft_tile_origin : raycast_tile_origin (⟨10, 590⟩ : SVec2f ℝ) = ⟨0, 29⟩ := by
  unfold raycast_tile_origin raycast_grid_relative_origin
  simp only [gridOriginBottomLeft, gridTileDimensions]
  rw [float_to_int_eq (n := 0) (by norm_num) (by norm_num) (by norm_num),
    float_to_int_eq (n := 29) (by norm_num) (by norm_num) (by norm_num)]

theorem topLeft_times :
    intersect_times_initial (⟨10, 590⟩ : SVec2f ℝ) ⟨20, 100⟩ = ⟨1 / 2, 1 / 10⟩ := by
  unfold intersect_times_initial raycast_grid_origin tile_edge_in_ray_direction
  rw [topLeft_tile_origin, diagonal_direction 20 100 (by norm_num) (by norm_num)]
  simp only [gridOriginBottomLeft, gridTileDimensions]
  norm_num

theorem topLeft_pass_x_runs : pass_x_runs (⟨10, 590⟩ : SVec2f ℝ) ⟨20, 100⟩ := by
  unfold pass_x_runs
  rw [topLeft_times, diagonal_direction 20 100 (by norm_num) (by norm_num)]
  norm_num

theorem topLeft_position_x :
    initial_impact_position_raycast_x (⟨10, 590⟩ : SVec2f ℝ) ⟨20, 100⟩ = ⟨20, 640⟩ := by
  unfold initial_impact_position_raycast_x
  rw [topLeft_times]
  norm_num

theorem bottomRight_times :
    intersect_times_initial (⟨790, 10⟩ : SVec2f ℝ) ⟨40, 20⟩ = ⟨1 / 4, 1 / 2⟩ := by
  unfold intersect_times_initial raycast_grid_origin tile_edge_in_ray_direction
  rw [rightBorder_tile_origin, diagonal_direction 40 20 (by norm_num) (by norm_num)]
  simp only [gridOriginBottomLeft, gridTileDimensions]
  norm_num

theorem bottomRight_pass_x_runs : pass_x_runs (⟨790, 10⟩ : SVec2f ℝ) ⟨40, 20⟩ := by
  unfold pass_x_runs
  rw [bottomRight_times, diagonal_direction 40 20 (by norm_num) (by norm_num)]
  norm_num

theorem bottomRight_pass_y_runs : pass_y_runs (⟨790, 10⟩ : SVec2f ℝ) ⟨40, 20⟩ := by
  unfold pass_y_runs
  rw [bottomRight_times, diagonal_direction 40 20 (by norm_num) (by norm_num)]
  norm_num

theorem bottomRight_position_x :
    initial_impact_position_raycast_x (⟨790, 10⟩ : SVec2f ℝ) ⟨40, 20⟩ = ⟨800, 15⟩ := by
  unfold initial_impact_position_raycast_x
  rw [bottomRight_times]
  norm_num

theorem bottomRight_position_y :
    initial_impact_position_raycast_y (⟨790, 10⟩ : SVec2f ℝ) ⟨40, 20⟩ = ⟨810, 20⟩ := by
  unfold initial_impact_position_raycast_y
  rw [bottomRight_times]
  norm_num

theorem bottomRight_initial_x :
    initial_impact_raycast_x (⟨790, 10⟩ : SVec2f ℝ) ⟨40, 20⟩ = ⟨1 / 4, ⟨800, 15⟩, ⟨40, 0⟩⟩ := by
  unfold initial_impact_raycast_x
  rw [bottomRight_position_x, bottomRight_times]
  unfold tile_edge_in_ray_direction
  rw [rightBorder_tile_origin, diagonal_direction 40 20 (by norm_num) (by norm_num)]
  simp only [gridTileDimensions]
  rw [float_to_int_eq (n := 0) (by norm_num) (by norm_num) (by norm_num)]
  have hdiv : Int.tdiv 800 20 = 40 := by decide
  simp [hdiv]

/-- The pass over vertical edges of the ray from (790, 10) along (40, 20) records one
impact before the pass over horizontal edges finds its first crossing outside the bounds. -/
theorem bottomRight_pass_x (sqrtf : ℝ → ℝ) (n : Nat) :
    raycast_pass_x sqrtf (n + 1) (⟨790, 10⟩ : SVec2f ℝ) ⟨40, 20⟩
      = some (PassOutcome.recorded [⟨1 / 4, ⟨800, 15⟩, ⟨40, 0⟩⟩]) := by
  have hb : ¬ out_of_grid_bounds
      (initial_impact_position_raycast_x (⟨790, 10⟩ : SVec2f ℝ) ⟨40, 20⟩) := by
    rw [bottomRight_position_x, in_grid_bounds_iff]
    norm_num
  have hx := raycast_pass_x_run sqrtf (n + 1) (⟨790, 10⟩ : SVec2f ℝ) ⟨40, 20⟩ 1
    bottomRight_pass_x_runs hb (le_refl 1)
    (by
      left
      rw [bottomRight_position_x, out_of_grid_bounds_iff]
      simp only [stepped_edge_impact]
      rw [step_size_x_x_pos _ (by norm_num)]
      norm_num)
    (by intro j h1 h2; omega)
    (by omega)
  rw [bottomRight_initial_x] at hx
  rw [hx]
  simp [record_all]

end FirstCrossingOutside

/-! ## A ray parallel to an axis -/

section Degenerate

variable {K : Type} [LinearOrderedField K] [FloorRing K]

theorem pass_x_skipped_of_zero (o v : SVec2f K) (h : v.x = 0) : ¬ pass_x_runs o v := by
  intro hr
  exact pass_x_runs_ne o v hr h

theorem pass_y_skipped_of_zero (o v : SVec2f K) (h : v.y = 0) : ¬ pass_y_runs o v := by
  intro hr
  exact pass_y_runs_ne o v hr h

/-- With `v.x = 0` the pass over horizontal edges never leaves the column of the origin. -/
theorem impact_y_point_x_of_zero (sqrtf : K → K) (o v : SVec2f K) (h : v.x = 0)
    (e : SImpactInformation K) (he : is_impact_of_pass_y sqrtf o v e) :
    e.impact_point.x = o.x := by
  have hstep : (step_size_y v).x = 0 := by
    simp [step_size_y, h]
  rcases he with he | ⟨j, _, _, he⟩
  · rw [he]
    simp [initial_impact_raycast_y, initial_impact_position_raycast_y, h]
  · rw [he]
    simp [stepped_impact_y, stepped_edge_impact, hstep, initial_impact_position_raycast_y, h]

/-- With `v.y = 0` the pass over vertical edges never leaves the row of the origin. -/
theorem impact_x_point_y_of_zero (sqrtf : K → K) (o v : SVec2f K) (h : v.y = 0)
    (e : SImpactInformation K) (he : is_impact_of_pass_x sqrtf o v e) :
    e.impact_point.y = o.y := by
  have hstep : (step_size_x v).y = 0 := by
    simp [step_size_x, h]
  rcases he with he | ⟨j, _, _, he⟩
  · rw [he]
    simp [initial_impact_raycast_x, initial_impact_position_raycast_x, h]
  · rw [he]
    simp [stepped_impact_x, stepped_edge_impact, hstep, initial_impact_position_raycast_x, h]

end Degenerate

/-! ## A ray that crosses edges of both kinds -/

section Diagonal

theorem sqrt_of_mul_self (x c : ℝ) (hc : 0 ≤ c) (h : x = c * c) : Real.sqrt x = c := by
  rw [h]
  exact Real.sqrt_mul_self hc

theorem diagonal_times :
    intersect_times_initial (⟨10, 10⟩ : SVec2f ℝ) ⟨30, 40⟩ = ⟨1 / 3, 1 / 4⟩ := by
  unfold intersect_times_initial raycast_grid_origin tile_edge_in_ray_direction
  rw [scenarioA_tile_origin, diagonal_direction 30 40 (by norm_num) (by norm_num)]
  simp only [gridOriginBottomLeft, gridTileDimensions]
  norm_num

theorem diagonal_pass_x_runs : pass_x_runs (⟨10, 10⟩ : SVec2f ℝ) ⟨30, 40⟩ := by
  unfold pass_x_runs
  rw [diagonal_times, diagonal_direction 30 40 (by norm_num) (by norm_num)]
  norm_num

theorem diagonal_pass_y_runs : pass_y_runs (⟨10, 10⟩ : SVec2f ℝ) ⟨30, 40⟩ := by
  unfold pass_y_runs
  rw [diagonal_times, diagonal_direction 30 40 (by norm_num) (by norm_num)]
  norm_num

theorem diagonal_position_x :
    initial_impact_position_raycast_x (⟨10, 10⟩ : SVec2f ℝ) ⟨30, 40⟩ = ⟨20, 70 / 3⟩ := by
  unfold initial_impact_position_raycast_x
  rw [diagonal_times]
  norm_num

theorem diagonal_position_y :
    initial_impact_position_raycast_y (⟨10, 10⟩ : SVec2f ℝ) ⟨30, 40⟩ = ⟨35 / 2, 20⟩ := by
  unfold initial_impact_position_raycast_y
  rw [diagonal_times]
  norm_num

theorem diagonal_initial_x :
    initial_impact_raycast_x (⟨10, 10⟩ : SVec2f ℝ) ⟨30, 40⟩
      = ⟨1 / 3, ⟨20, 70 / 3⟩, ⟨1, 1⟩⟩ := by
  unfold initial_impact_raycast_x
  rw [diagonal_position_x, diagonal_times]
  unfold tile_edge_in_ray_direction
  rw [scenarioA_tile_origin, diagonal_direction 30 40 (by norm_num) (by norm_num)]
  simp only [gridTileDimensions]
  rw [float_to_int_eq (n := 1) (by norm_num) (by norm_num) (by norm_num)]
  norm_num

theorem diagonal_initial_y :
    initial_impact_raycast_y (⟨10, 10⟩ : SVec2f ℝ) ⟨30, 40⟩
      = ⟨1 / 4, ⟨35 / 2, 20⟩, ⟨0, 1⟩⟩ := by
  unfold initial_impact_raycast_y
  rw [diagonal_position_y, diagonal_times]
  unfold tile_edge_in_ray_direction
  rw [scenarioA_tile_origin, diagonal_direction 30 40 (by norm_num) (by norm_num)]
  simp only [gridTileDimensions]
  rw [float_to_int_eq (n := 0) (by norm_num) (by norm_num) (by norm_num)]
  norm_num

theorem diagonal_step_size_x : step_size_x (⟨30, 40⟩ : SVec2f ℝ) = ⟨20, 80 / 3⟩ := by
  unfold step_size_x
  rw [diagonal_direction 30 40 (by norm_num) (by norm_num)]
  simp only [gridTileDimensions]
  have h : |(40 : ℝ) * ((20 : Int) : ℝ) / 30| = 80 / 3 := by
    rw [abs_of_pos (by norm_num)]
    norm_num
  rw [h]
  norm_num

theorem diagonal_step_size_y : step_size_y (⟨30, 40⟩ : SVec2f ℝ) = ⟨15, 20⟩ := by
  unfold step_size_y
  rw [diagonal_direction 30 40 (by norm_num) (by norm_num)]
  simp only [gridTileDimensions]
  have h : |(30 : ℝ) * ((20 : Int) : ℝ) / 40| = 15 := by
    rw [abs_of_pos (by norm_num)]
    norm_num
  rw [h]
  norm_num

theorem diagonal_length : raycast_length Real.sqrt (⟨30, 40⟩ : SVec2f ℝ) = 50 := by
  unfold raycast_length
  exact sqrt_of_mul_self _ 50 (by norm_num) (by norm_num)

theorem diagonal_initial_length_x :
    origin_to_initial_impact_length Real.sqrt (⟨10, 10⟩ : SVec2f ℝ) ⟨20, 70 / 3⟩ = 50 / 3 := by
  unfold origin_to_initial_impact_length vector_length
  exact sqrt_of_mul_self _ (50 / 3) (by norm_num) (by norm_num)

theorem diagonal_initial_length_y :
    origin_to_initial_impact_length Real.sqrt (⟨10, 10⟩ : SVec2f ℝ) ⟨35 / 2, 20⟩ = 25 / 2 := by
  unfold origin_to_initial_impact_length vector_length
  exact sqrt_of_mul_self _ (25 / 2) (by norm_num) (by norm_num)

theorem diagonal_step_length_x : vector_length Real.sqrt (⟨20, 80 / 3⟩ : SVec2f ℝ) = 100 / 3 := by
  unfold vector_length
  exact sqrt_of_mul_self _ (100 / 3) (by norm_num) (by norm_num)

theorem diagonal_step_length_y : vector_length Real.sqrt (⟨15, 20⟩ : SVec2f ℝ) = 25 := by
  unfold vector_length
  exact sqrt_of_mul_self _ 25 (by norm_num) (by norm_num)

theorem diagonal_stops_x (j : Nat) (hj : j ≤ 2) :
    step_stops Real.sqrt 50 (⟨20, 70 / 3⟩ : SVec2f ℝ) ⟨20, 80 / 3⟩ (50 / 3) j ↔ 2 ≤ j := by
  unfold step_stops total_current_step_length
  rw [diagonal_step_length_x, out_of_grid_bounds_iff]
  simp only [stepped_edge_impact]
  have hj0 : (0 : ℝ) ≤ (j : ℝ) := Nat.cast_nonneg j
  have hj2 : (j : ℝ) ≤ 2 := by exact_mod_cast hj
  constructor
  · intro h
    by_contra hlt
    have hj1 : (j : ℝ) ≤ 1 := by
      have : j ≤ 1 := by omega
      exact_mod_cast this
    rcases h with (h | h | h | h) | h
    · linarith
    · linarith
    · linarith
    · linarith
    · exact h (by linarith)
  · intro h2
    right
    have : (2 : ℝ) ≤ (j : ℝ) := by exact_mod_cast h2
    intro h
    linarith

theorem diagonal_stops_y (j : Nat) (hj : j ≤ 2) :
    step_stops Real.sqrt 50 (⟨35 / 2, 20⟩ : SVec2f ℝ) ⟨15, 20⟩ (25 / 2) j ↔ 2 ≤ j := by
  unfold step_stops total_current_step_length
  rw [diagonal_step_length_y, out_of_grid_bounds_iff]
  simp only [stepped_edge_impact]
  have hj0 : (0 : ℝ) ≤ (j : ℝ) := Nat.cast_nonneg j
  have hj2 : (j : ℝ) ≤ 2 := by exact_mod_cast hj
  constructor
  · intro h
    by_contra hlt
    have hj1 : (j : ℝ) ≤ 1 := by
      have : j ≤ 1 := by omega
      exact_mod_cast this
    rcases h with (h | h | h | h) | h
    · linarith
    · linarith
    · linarith
    · linarith
    · exact h (by linarith)
  · intro h2
    right
    have : (2 : ℝ) ≤ (j : ℝ) := by exact_mod_cast h2
    intro h
    linarith

theorem diagonal_stepped_x :
    stepped_impact_x Real.sqrt (⟨30, 40⟩ : SVec2f ℝ) 50 ⟨20, 70 / 3⟩ ⟨20, 80 / 3⟩ (50 / 3) 1
      = ⟨1, ⟨40, 50⟩, ⟨2, 2⟩⟩ := by
  unfold stepped_impact_x total_current_step_length
  rw [diagonal_step_length_x]
  simp only [stepped_edge_impact, gridTileDimensions]
  rw [float_to_int_eq (n := 2) (x := ((20 : ℝ) + 20 * ((1 : Nat) : ℝ)) / ((20 : Int) : ℝ))
      (by norm_num) (by norm_num) (by norm_num),
    float_to_int_eq (n := 2) (x := ((70 : ℝ) / 3 + 80 / 3 * ((1 : Nat) : ℝ)) / ((20 : Int) : ℝ))
      (by norm_num) (by norm_num) (by norm_num)]
  norm_num

theorem diagonal_stepped_y :
    stepped_impact_y Real.sqrt (⟨30, 40⟩ : SVec2f ℝ) 50 ⟨35 / 2, 20⟩ ⟨15, 20⟩ (25 / 2) 1
      = ⟨3 / 4, ⟨65 / 2, 40⟩, ⟨1, 2⟩⟩ := by
  unfold stepped_impact_y total_current_step_length
  rw [diagonal_step_length_y]
  simp only [stepped_edge_impact, gridTileDimensions]
  rw [float_to_int_eq (n := 1) (x := ((35 : ℝ) / 2 + 15 * ((1 : Nat) : ℝ)) / ((20 : Int) : ℝ))
      (by norm_num) (by norm_num) (by norm_num),
    float_to_int_eq (n := 2) (x := ((20 : ℝ) + 20 * ((1 : Nat) : ℝ)) / ((20 : Int) : ℝ))
      (by norm_num) (by norm_num) (by norm_num)]
  norm_num

/-- The pass over vertical edges of the ray from (10, 10) along (30, 40). -/
theorem diagonal_pass_x (n : Nat) :
    raycast_pass_x Real.sqrt (n + 2) (⟨10, 10⟩ : SVec2f ℝ) ⟨30, 40⟩
      = some (PassOutcome.recorded [⟨1 / 3, ⟨20, 70 / 3⟩, ⟨1, 1⟩⟩, ⟨1, ⟨40, 50⟩, ⟨2, 2⟩⟩]) := by
  have hb : ¬ out_of_grid_bounds
      (initial_impact_position_raycast_x (⟨10, 10⟩ : SVec2f ℝ) ⟨30, 40⟩) := by
    rw [diagonal_position_x, in_grid_bounds_iff]
    norm_num
  rw [raycast_pass_x_run Real.sqrt (n + 2) _ _ 2 diagonal_pass_x_runs hb (by norm_num)
    (by
      rw [diagonal_position_x, diagonal_length, diagonal_step_size_x, diagonal_initial_length_x]
      exact (diagonal_stops_x 2 (le_refl 2)).mpr (le_refl 2))
    (by
      intro j _ hj2
      rw [diagonal_position_x, diagonal_length, diagonal_step_size_x, diagonal_initial_length_x,
        diagonal_stops_x j (by omega)]
      omega)
    (by omega)]
  rw [diagonal_position_x, diagonal_length, diagonal_step_size_x, diagonal_initial_length_x,
    diagonal_initial_x]
  have hl : List.range' 1 (2 - 1) = [1] := by decide
  rw [hl]
  simp only [List.map, diagonal_stepped_x]
  simp [record_all, MAX_POINTS_PER_AXIS]

/-- The pass over horizontal edges of the ray from (10, 10) along (30, 40). -/
theorem diagonal_pass_y (n : Nat) :
    raycast_pass_y Real.sqrt (n + 2) (⟨10, 10⟩ : SVec2f ℝ) ⟨30, 40⟩
      = some (PassOutcome.recorded
          [⟨1 / 4, ⟨35 / 2, 20⟩, ⟨0, 1⟩⟩, ⟨3 / 4, ⟨65 / 2, 40⟩, ⟨1, 2⟩⟩]) := by
  have hb : ¬ out_of_grid_bounds
      (initial_impact_position_raycast_y (⟨10, 10⟩ : SVec2f ℝ) ⟨30, 40⟩) := by
    rw [diagonal_position_y, in_grid_bounds_iff]
    norm_num
  rw [raycast_pass_y_run Real.sqrt (n + 2) _ _ 2 diagonal_pass_y_runs hb (by norm_num)
    (by
      rw [diagonal_position_y, diagonal_length, diagonal_step_size_y, diagonal_initial_length_y]
      exact (diagonal_stops_y 2 (le_refl 2)).mpr (le_refl 2))
    (by
      intro j _ hj2
      rw [diagonal_position_y, diagonal_length, diagonal_step_size_y, diagonal_initial_length_y,
        diagonal_stops_y j (by omega)]
      omega)
    (by omega)]
  rw [diagonal_position_y, diagonal_length, diagonal_step_size_y, diagonal_initial_length_y,
    diagonal_initial_y]
  have hl : List.range' 1 (2 - 1) = [1] := by decide
  rw [hl]
  simp only [List.map, diagonal_stepped_y]
  simp [record_all, MAX_POINTS_PER_AXIS]

/-- The merge step puts the four impacts of that ray in the order of their times. -/
theorem diagonal_merge :
    qsort sort_impact_information
        (([⟨1 / 3, ⟨20, 70 / 3⟩, ⟨1, 1⟩⟩, ⟨1, ⟨40, 50⟩, ⟨2, 2⟩⟩] : List (SImpactInformation ℝ))
          ++ [⟨1 / 4, ⟨35 / 2, 20⟩, ⟨0, 1⟩⟩, ⟨3 / 4, ⟨65 / 2, 40⟩, ⟨1, 2⟩⟩])
      = [⟨1 / 4, ⟨35 / 2, 20⟩, ⟨0, 1⟩⟩, ⟨1 / 3, ⟨20, 70 / 3⟩, ⟨1, 1⟩⟩,
         ⟨3 / 4, ⟨65 / 2, 40⟩, ⟨1, 2⟩⟩, ⟨1, ⟨40, 50⟩, ⟨2, 2⟩⟩] := by
  unfold qsort
  simp only [List.cons_append, List.nil_append, List.insertionSort, List.orderedInsert,
    sort_impact_information_le_iff]
  norm_num

end Diagonal

/-! ## The buffer of a pass, step by step -/

section Buffer

variable {α : Type}

/-- Below the capacity the guarded write appends. -/
theorem record_all_eq_append (l buffer : List α)
    (h : buffer.length + l.length ≤ MAX_POINTS_PER_AXIS) : record_all buffer l = buffer ++ l := by
  induction l generalizing buffer with
  | nil => simp [record_all]
  | cons a l ih =>
    have hlen : buffer.length < MAX_POINTS_PER_AXIS := by
      simp only [List.length_cons] at h
      omega
    have hstep : record_all buffer (a :: l) = record_all (buffer ++ [a]) l := by
      simp [record_all, hlen]
    have hcap : (buffer ++ [a]).length + l.length ≤ MAX_POINTS_PER_AXIS := by
      simp only [List.length_append, List.length_cons, List.length_nil] at h ⊢
      omega
    rw [hstep, ih (buffer ++ [a]) hcap]
    simp

/-- A loop that has a stopping index `M` within its fuel and its capacity ends at the first
stopping index `m` and has appended the impacts of all indices before `m`. -/
theorem bounded_loop_first_stop (stop : Nat → Prop) [DecidablePred stop] (mk : Nat → α)
    (fuel k M : Nat) (buffer : List α) (hM : stop M) (hkM : k ≤ M) (hfuel : M < k + fuel)
    (hcap : buffer.length + (M - k) ≤ MAX_POINTS_PER_AXIS) :
    ∃ m, k ≤ m ∧ m ≤ M ∧ stop m ∧ (∀ j, k ≤ j → j < m → ¬ stop j) ∧
      bounded_loop stop mk fuel k buffer = some (buffer ++ (List.range' k (m - k)).map mk) := by
  have hex : ∃ m, k ≤ m ∧ stop m := ⟨M, hkM, hM⟩
  have hspec := Nat.find_spec hex
  have hle : Nat.find hex ≤ M := Nat.find_min' hex ⟨hkM, hM⟩
  have hmin : ∀ j, k ≤ j → j < Nat.find hex → ¬ stop j := by
    intro j hkj hj hs
    exact Nat.find_min hex hj ⟨hkj, hs⟩
  refine ⟨Nat.find hex, hspec.1, hle, hspec.2, hmin, ?_⟩
  rw [bounded_loop_run stop mk (Nat.find hex) hspec.2 fuel k buffer hspec.1 hmin (by omega)]
  rw [record_all_eq_append]
  simp only [List.length_map, List.length_range']
  omega

end Buffer

section PassBuffer

variable {K : Type} [LinearOrderedField K] [FloorRing K]

/-- The buffer of the pass over vertical edges once its loop has run: the first impact
followed by the impacts of the steps before the first stopping step `m`, which is at most
step 41. -/
theorem raycast_pass_x_buffer (sqrtf : K → K) (fuel : Nat) (o v : SVec2f K) (hf : 41 ≤ fuel)
    (hr : pass_x_runs o v) (hb : ¬ out_of_grid_bounds (initial_impact_position_raycast_x o v)) :
    ∃ m, 1 ≤ m ∧ m ≤ 41 ∧
      step_stops sqrtf (raycast_length sqrtf v) (initial_impact_position_raycast_x o v)
        (step_size_x v)
        (origin_to_initial_impact_length sqrtf o (initial_impact_position_raycast_x o v)) m ∧
      (∀ j, 1 ≤ j → j < m →
        ¬ step_stops sqrtf (raycast_length sqrtf v) (initial_impact_position_raycast_x o v)
          (step_size_x v)
          (origin_to_initial_impact_length sqrtf o (initial_impact_position_raycast_x o v)) j) ∧
      raycast_pass_x sqrtf fuel o v = some (PassOutcome.recorded
        (initial_impact_raycast_x o v ::
          (List.range' 1 (m - 1)).map
            (stepped_impact_x sqrtf v (raycast_length sqrtf v)
              (initial_impact_position_raycast_x o v) (step_size_x v)
              (origin_to_initial_impact_length sqrtf o
                (initial_impact_position_raycast_x o v))))) := by
  obtain ⟨m, h1, h2, h3, h4, h5⟩ := bounded_loop_first_stop
    (step_stops sqrtf (raycast_length sqrtf v) (initial_impact_position_raycast_x o v)
      (step_size_x v)
      (origin_to_initial_impact_length sqrtf o (initial_impact_position_raycast_x o v)))
    (stepped_impact_x sqrtf v (raycast_length sqrtf v)
      (initial_impact_position_raycast_x o v) (step_size_x v)
      (origin_to_initial_impact_length sqrtf o (initial_impact_position_raycast_x o v)))
    fuel 1 41 [initial_impact_raycast_x o v]
    (step_stops_x_of_large sqrtf _ _ o v hr hb 41 (le_refl 41)) (by omega) (by omega)
    (by simp [MAX_POINTS_PER_AXIS])
  refine ⟨m, h1, h2, h3, h4, ?_⟩
  rw [raycast_pass_x_stepping sqrtf fuel o v hr hb, h5]
  rfl

/-- The buffer of the pass over horizontal edges once its loop has run; the first stopping
step is at most step 31. -/
theorem raycast_pass_y_buffer (sqrtf : K → K) (fuel : Nat) (o v : SVec2f K) (hf : 31 ≤ fuel)
    (hr : pass_y_runs o v) (hb : ¬ out_of_grid_bounds (initial_impact_position_raycast_y o v)) :
    ∃ m, 1 ≤ m ∧ m ≤ 31 ∧
      step_stops sqrtf (raycast_length sqrtf v) (initial_impact_position_raycast_y o v)
        (step_size_y v)
        (origin_to_initial_impact_length sqrtf o (initial_impact_position_raycast_y o v)) m ∧
      (∀ j, 1 ≤ j → j < m →
        ¬ step_stops sqrtf (raycast_length sqrtf v) (initial_impact_position_raycast_y o v)
          (step_size_y v)
          (origin_to_initial_impact_length sqrtf o (initial_impact_position_raycast_y o v)) j) ∧
      raycast_pass_y sqrtf fuel o v = some (PassOutcome.recorded
        (initial_impact_raycast_y o v ::
          (List.range' 1 (m - 1)).map
            (stepped_impact_y sqrtf v (raycast_length sqrtf v)
              (initial_impact_position_raycast_y o v) (step_size_y v)
              (origin_to_initial_impact_length sqrtf o
                (initial_impact_position_raycast_y o v))))) := by
  obtain ⟨m, h1, h2, h3, h4, h5⟩ := bounded_loop_first_stop
    (step_stops sqrtf (raycast_length sqrtf v) (initial_impact_position_raycast_y o v)
      (step_size_y v)
      (origin_to_initial_impact_length sqrtf o (initial_impact_position_raycast_y o v)))
    (stepped_impact_y sqrtf v (raycast_length sqrtf v)
      (initial_impact_position_raycast_y o v) (step_size_y v)
      (origin_to_initial_impact_length sqrtf o (initial_impact_position_raycast_y o v)))
    fuel 1 31 [initial_impact_raycast_y o v]
    (step_stops_y_of_large sqrtf _ _ o v hr hb 31 (le_refl 31)) (by omega) (by omega)
    (by simp [MAX_POINTS_PER_AXIS])
  refine ⟨m, h1, h2, h3, h4, ?_⟩
  rw [raycast_pass_y_stepping sqrtf fuel o v hr hb, h5]
  rfl

end PassBuffer

/-! ## Crossing times of a ray that ends inside the grid -/

section Crossing

variable {K : Type} [LinearOrderedField K] [FloorRing K]

/-- The segment from an origin inside the grid to an end point inside the grid bounds stays
inside the grid bounds. -/
theorem segment_in_bounds (o v : SVec2f K) (ho : ¬ ray_origin_out_of_grid_bounds o)
    (hterm : ¬ out_of_grid_bounds (⟨o.x + v.x, o.y + v.y⟩ : SVec2f K)) (t : K)
    (h0 : 0 ≤ t) (h1 : t ≤ 1) :
    ¬ out_of_grid_bounds (⟨o.x + v.x * t, o.y + v.y * t⟩ : SVec2f K) := by
  rw [ray_origin_in_grid_iff] at ho
  rw [in_grid_bounds_iff] at hterm ⊢
  obtain ⟨⟨a1, a2⟩, ⟨a3, a4⟩⟩ := ho
  obtain ⟨⟨b1, b2⟩, ⟨b3, b4⟩⟩ := hterm
  simp only at b1 b2 b3 b4 ⊢
  have hs : 0 ≤ 1 - t := by linarith
  have ex : o.x + v.x * t = (1 - t) * o.x + t * (o.x + v.x) := by ring
  have ey : o.y + v.y * t = (1 - t) * o.y + t * (o.y + v.y) := by ring
  rw [ex, ey]
  refine ⟨⟨?_, ?_⟩, ⟨?_, ?_⟩⟩
  · have := mul_nonneg hs a1
    have := mul_nonneg h0 b1
    linarith
  · have := mul_le_mul_of_nonneg_left (le_of_lt a2) hs
    have := mul_le_mul_of_nonneg_left b2 h0
    linarith
  · have := mul_nonneg hs a3
    have := mul_nonneg h0 b3
    linarith
  · have := mul_le_mul_of_nonneg_left (le_of_lt a4) hs
    have := mul_le_mul_of_nonneg_left b4 h0
    linarith

theorem crossing_time_x_zero (o v : SVec2f K) :
    crossing_time_x o v 0 = (intersect_times_initial o v).x := by
  simp [crossing_time_x]

theorem crossing_time_y_zero (o v : SVec2f K) :
    crossing_time_y o v 0 = (intersect_times_initial o v).y := by
  simp [crossing_time_y]

theorem crossing_time_x_mono (o v : SVec2f K) {i j : Nat} (h : i ≤ j) :
    crossing_time_x o v i ≤ crossing_time_x o v j := by
  unfold crossing_time_x
  have hc : (0 : K) ≤ 20 / |v.x| := by positivity
  have hij : (i : K) ≤ (j : K) := by exact_mod_cast h
  have := mul_le_mul_of_nonneg_left hij hc
  linarith

theorem crossing_time_y_mono (o v : SVec2f K) {i j : Nat} (h : i ≤ j) :
    crossing_time_y o v i ≤ crossing_time_y o v j := by
  unfold crossing_time_y
  have hc : (0 : K) ≤ 20 / |v.y| := by positivity
  have hij : (i : K) ≤ (j : K) := by exact_mod_cast h
  have := mul_le_mul_of_nonneg_left hij hc
  linarith

theorem crossing_time_x_nonneg (o v : SVec2f K) (ho : ¬ ray_origin_out_of_grid_bounds o)
    (hv : v.x ≠ 0) (j : Nat) : 0 ≤ crossing_time_x o v j :=
  le_trans (by rw [crossing_time_x_zero]; exact intersect_times_initial_x_nonneg o v ho hv)
    (crossing_time_x_mono o v (Nat.zero_le j))

theorem crossing_time_y_nonneg (o v : SVec2f K) (ho : ¬ ray_origin_out_of_grid_bounds o)
    (hv : v.y ≠ 0) (j : Nat) : 0 ≤ crossing_time_y o v j :=
  le_trans (by rw [crossing_time_y_zero]; exact intersect_times_initial_y_nonneg o v ho hv)
    (crossing_time_y_mono o v (Nat.zero_le j))

/-- For a ray going right, impact number `j` of the pass over vertical edges lies on the
grid line `j + 1` columns to the right of the column of the origin. -/
theorem crossing_point_x_pos (o v : SVec2f K) (hv : 0 < v.x) (j : Nat) :
    o.x + v.x * crossing_time_x o v j
      = (((raycast_tile_origin o).x + 1 + (j : Int) : Int) : K) * 20 := by
  unfold crossing_time_x
  rw [intersect_times_initial_x, tile_edge_x_pos o v hv, abs_of_pos hv]
  push_cast
  field_simp
  ring

/-- For a ray going left, impact number `j` of the pass over vertical edges lies on the
grid line `j` columns to the left of the left edge of the tile of the origin. -/
theorem crossing_point_x_neg (o v : SVec2f K) (hv : v.x < 0) (j : Nat) :
    o.x + v.x * crossing_time_x o v j
      = (((raycast_tile_origin o).x - (j : Int) : Int) : K) * 20 := by
  unfold crossing_time_x
  rw [intersect_times_initial_x, tile_edge_x_neg o v hv, abs_of_neg hv]
  have hne : v.x ≠ 0 := ne_of_lt hv
  have hne2 : -v.x ≠ 0 := neg_ne_zero.mpr hne
  push_cast
  field_simp
  ring

/-- For a ray going up, impact number `j` of the pass over horizontal edges lies on the
grid line `j + 1` rows above the row of the origin. -/
theorem crossing_point_y_pos (o v : SVec2f K) (hv : 0 < v.y) (j : Nat) :
    o.y + v.y * crossing_time_y o v j
      = (((raycast_tile_origin o).y + 1 + (j : Int) : Int) : K) * 20 := by
  unfold crossing_time_y
  rw [intersect_times_initial_y, tile_edge_y_pos o v hv, abs_of_pos hv]
  push_cast
  field_simp
  ring

/-- For a ray going down, impact number `j` of the pass over horizontal edges lies on the
grid line `j` rows below the lower edge of the tile of the origin. -/
theorem crossing_point_y_neg (o v : SVec2f K) (hv : v.y < 0) (j : Nat) :
    o.y + v.y * crossing_time_y o v j
      = (((raycast_tile_origin o).y - (j : Int) : Int) : K) * 20 := by
  unfold crossing_time_y
  rw [intersect_times_initial_y, tile_edge_y_neg o v hv, abs_of_neg hv]
  have hne : v.y ≠ 0 := ne_of_lt hv
  have hne2 : -v.y ≠ 0 := neg_ne_zero.mpr hne
  push_cast
  field_simp
  ring

end Crossing

/-! ## The buffers of a ray that ends inside the grid -/

section Complete

/-- Time and point of step `j` of the pass over vertical edges. -/
theorem stepped_x_time_point (o v : SVec2f ℝ) (ho : ¬ ray_origin_out_of_grid_bounds o)
    (hv : v.x ≠ 0) (j : Nat) :
    (total_current_step_length Real.sqrt (step_size_x v)
        (origin_to_initial_impact_length Real.sqrt o (initial_impact_position_raycast_x o v)) j
      / raycast_length Real.sqrt v = crossing_time_x o v j) ∧
    (stepped_edge_impact (initial_impact_position_raycast_x o v) (step_size_x v) j
      = ⟨o.x + v.x * crossing_time_x o v j, o.y + v.y * crossing_time_x o v j⟩) := by
  have ht := intersect_times_initial_x_nonneg o v ho hv
  have hc : (0 : ℝ) ≤ 20 / |v.x| := by positivity
  have h := stepped_on_ray o v _ _ ht hc (raycast_length_pos_of_x v hv) j
  rw [step_size_x_eq v hv]
  unfold initial_impact_position_raycast_x crossing_time_x
  exact h

/-- Time and point of step `j` of the pass over horizontal edges. -/
theorem stepped_y_time_point (o v : SVec2f ℝ) (ho : ¬ ray_origin_out_of_grid_bounds o)
    (hv : v.y ≠ 0) (j : Nat) :
    (total_current_step_length Real.sqrt (step_size_y v)
        (origin_to_initial_impact_length Real.sqrt o (initial_impact_position_raycast_y o v)) j
      / raycast_length Real.sqrt v = crossing_time_y o v j) ∧
    (stepped_edge_impact (initial_impact_position_raycast_y o v) (step_size_y v) j
      = ⟨o.x + v.x * crossing_time_y o v j, o.y + v.y * crossing_time_y o v j⟩) := by
  have ht := intersect_times_initial_y_nonneg o v ho hv
  have hc : (0 : ℝ) ≤ 20 / |v.y| := by positivity
  have h := stepped_on_ray o v _ _ ht hc (raycast_length_pos_of_y v hv) j
  rw [step_size_y_eq v hv]
  unfold initial_impact_position_raycast_y crossing_time_y
  exact h

/-- The length test of a step compares its crossing time with 1. -/
theorem reaches_iff_of_time (len total t : ℝ) (hlen : 0 < len) (h : total / len = t) :
    len ≥ total ↔ t ≤ 1 := by
  have htot : total = t * len := by
    rw [← h]; field_simp
  rw [htot]
  constructor
  · intro hge
    by_contra hc
    have : len < t * len := by nlinarith
    linarith
  · intro hle
    nlinarith

/-- For a ray that ends inside the grid bounds, the loop of the pass over vertical edges
stops exactly at the steps whose crossing time is beyond 1. -/
theorem step_stops_x_iff (o v : SVec2f ℝ) (ho : ¬ ray_origin_out_of_grid_bounds o)
    (hterm : ¬ out_of_grid_bounds (⟨o.x + v.x, o.y + v.y⟩ : SVec2f ℝ)) (hv : v.x ≠ 0) (j : Nat) :
    step_stops Real.sqrt (raycast_length Real.sqrt v) (initial_impact_position_raycast_x o v)
        (step_size_x v)
        (origin_to_initial_impact_length Real.sqrt o (initial_impact_position_raycast_x o v)) j
      ↔ 1 < crossing_time_x o v j := by
  obtain ⟨h1, h2⟩ := stepped_x_time_point o v ho hv j
  have hreach := reaches_iff_of_time _ _ _ (raycast_length_pos_of_x v hv) h1
  unfold step_stops
  rw [h2, hreach]
  constructor
  · rintro (h | h)
    · by_contra hc
      exact segment_in_bounds o v ho hterm _ (crossing_time_x_nonneg o v ho hv j)
        (not_lt.mp hc) h
    · exact not_le.mp h
  · intro h
    exact Or.inr (not_le.mpr h)

/-- For a ray that ends inside the grid bounds, the loop of the pass over horizontal edges
stops exactly at the steps whose crossing time is beyond 1. -/
theorem step_stops_y_iff (o v : SVec2f ℝ) (ho : ¬ ray_origin_out_of_grid_bounds o)
    (hterm : ¬ out_of_grid_bounds (⟨o.x + v.x, o.y + v.y⟩ : SVec2f ℝ)) (hv : v.y ≠ 0) (j : Nat) :
    step_stops Real.sqrt (raycast_length Real.sqrt v) (initial_impact_position_raycast_y o v)
        (step_size_y v)
        (origin_to_initial_impact_length Real.sqrt o (initial_impact_position_raycast_y o v)) j
      ↔ 1 < crossing_time_y o v j := by
  obtain ⟨h1, h2⟩ := stepped_y_time_point o v ho hv j
  have hreach := reaches_iff_of_time _ _ _ (raycast_length_pos_of_y v hv) h1
  unfold step_stops
  rw [h2, hreach]
  constructor
  · rintro (h | h)
    · by_contra hc
      exact segment_in_bounds o v ho hterm _ (crossing_time_y_nonneg o v ho hv j)
        (not_lt.mp hc) h
    · exact not_le.mp h
  · intro h
    exact Or.inr (not_le.mpr h)

/-- The first crossing of a ray that ends inside the grid bounds is inside the grid bounds. -/
theorem initial_x_in_bounds (o v : SVec2f ℝ) (ho : ¬ ray_origin_out_of_grid_bounds o)
    (hterm : ¬ out_of_grid_bounds (⟨o.x + v.x, o.y + v.y⟩ : SVec2f ℝ)) (hr : pass_x_runs o v) :
    ¬ out_of_grid_bounds (initial_impact_position_raycast_x o v) :=
  segment_in_bounds o v ho hterm _
    (intersect_times_initial_x_nonneg o v ho (pass_x_runs_ne o v hr)) (le_of_lt hr.2)

theorem initial_y_in_bounds (o v : SVec2f ℝ) (ho : ¬ ray_origin_out_of_grid_bounds o)
    (hterm : ¬ out_of_grid_bounds (⟨o.x + v.x, o.y + v.y⟩ : SVec2f ℝ)) (hr : pass_y_runs o v) :
    ¬ out_of_grid_bounds (initial_impact_position_raycast_y o v) :=
  segment_in_bounds o v ho hterm _
    (intersect_times_initial_y_nonneg o v ho (pass_y_runs_ne o v hr)) (le_of_lt hr.2)

/-- The buffer of the pass over vertical edges for a ray that ends inside the grid bounds:
its impacts are those of the numbers `j` below some `m`, namely the `j` whose crossing time
is at most 1 provided the first crossing time is below 1, each at its crossing time and at
the point of the ray at that time. -/
theorem pass_x_complete (fuel : Nat) (o v : SVec2f ℝ) (hf : 41 ≤ fuel)
    (ho : ¬ ray_origin_out_of_grid_bounds o)
    (hterm : ¬ out_of_grid_bounds (⟨o.x + v.x, o.y + v.y⟩ : SVec2f ℝ)) (hv : v.x ≠ 0) :
    ∃ (m : Nat) (xs : List (SImpactInformation ℝ)),
      raycast_pass_x Real.sqrt fuel o v = some (PassOutcome.recorded xs) ∧
      (∀ j : Nat, j < m ↔ ((intersect_times_initial o v).x < 1 ∧ crossing_time_x o v j ≤ 1)) ∧
      xs.map (fun e => (e.impact_time, e.impact_point))
        = (List.range m).map (fun j => (crossing_time_x o v j,
            (⟨o.x + v.x * crossing_time_x o v j, o.y + v.y * crossing_time_x o v j⟩
              : SVec2f ℝ))) := by
  by_cases hr : pass_x_runs o v
  · have hb := initial_x_in_bounds o v ho hterm hr
    obtain ⟨m, h1, _, h3, h4, h5⟩ := raycast_pass_x_buffer Real.sqrt fuel o v hf hr hb
    refine ⟨m, _, h5, ?_, ?_⟩
    · intro j
      constructor
      · intro hj
        refine ⟨hr.2, ?_⟩
        rcases Nat.eq_zero_or_pos j with h0 | hpos
        · rw [h0, crossing_time_x_zero]; exact le_of_lt hr.2
        · have := h4 j hpos hj
          rw [step_stops_x_iff o v ho hterm hv] at this
          exact not_lt.mp this
      · rintro ⟨_, hle⟩
        by_contra hc
        have hm := (step_stops_x_iff o v ho hterm hv m).mp h3
        have := crossing_time_x_mono o v (not_lt.mp hc)
        linarith
    · obtain ⟨m', rfl⟩ : ∃ m', m = m' + 1 := ⟨m - 1, by omega⟩
      rw [List.range_eq_range', List.range'_succ]
      simp only [Nat.add_sub_cancel, List.map_cons, List.map_map, zero_add]
      congr 1
      · rw [crossing_time_x_zero]
        rfl
      · apply List.map_congr_left
        intro j _
        obtain ⟨e1, e2⟩ := stepped_x_time_point o v ho hv j
        simp only [Function.comp, stepped_impact_x]
        rw [e1, e2]
  · have ht : ¬ (intersect_times_initial o v).x < 1 := by
      intro ht
      exact hr ⟨(float_direction_ne_zero_iff v.x).mpr hv, ht⟩
    refine ⟨0, [], raycast_pass_x_skipped Real.sqrt fuel o v hr, ?_, rfl⟩
    intro j
    constructor
    · intro hj; omega
    · rintro ⟨h, _⟩; exact absurd h ht

/-- The buffer of the pass over horizontal edges for a ray that ends inside the grid
bounds. -/
theorem pass_y_complete (fuel : Nat) (o v : SVec2f ℝ) (hf : 31 ≤ fuel)
    (ho : ¬ ray_origin_out_of_grid_bounds o)
    (hterm : ¬ out_of_grid_bounds (⟨o.x + v.x, o.y + v.y⟩ : SVec2f ℝ)) (hv : v.y ≠ 0) :
    ∃ (m : Nat) (ys : List (SImpactInformation ℝ)),
      raycast_pass_y Real.sqrt fuel o v = some (PassOutcome.recorded ys) ∧
      (∀ j : Nat, j < m ↔ ((intersect_times_initial o v).y < 1 ∧ crossing_time_y o v j ≤ 1)) ∧
      ys.map (fun e => (e.impact_time, e.impact_point))
        = (List.range m).map (fun j => (crossing_time_y o v j,
            (⟨o.x + v.x * crossing_time_y o v j, o.y + v.y * crossing_time_y o v j⟩
              : SVec2f ℝ))) := by
  by_cases hr : pass_y_runs o v
  · have hb := initial_y_in_bounds o v ho hterm hr
    obtain ⟨m, h1, _, h3, h4, h5⟩ := raycast_pass_y_buffer Real.sqrt fuel o v hf hr hb
    refine ⟨m, _, h5, ?_, ?_⟩
    · intro j
      constructor
      · intro hj
        refine ⟨hr.2, ?_⟩
        rcases Nat.eq_zero_or_pos j with h0 | hpos
        · rw [h0, crossing_time_y_zero]; exact le_of_lt hr.2
        · have := h4 j hpos hj
          rw [step_stops_y_iff o v ho hterm hv] at this
          exact not_lt.mp this
      · rintro ⟨_, hle⟩
        by_contra hc
        have hm := (step_stops_y_iff o v ho hterm hv m).mp h3
        have := crossing_time_y_mono o v (not_lt.mp hc)
        linarith
    · obtain ⟨m', rfl⟩ : ∃ m', m = m' + 1 := ⟨m - 1, by omega⟩
      rw [List.range_eq_range', List.range'_succ]
      simp only [Nat.add_sub_cancel, List.map_cons, List.map_map, zero_add]
      congr 1
      · rw [crossing_time_y_zero]
        rfl
      · apply List.map_congr_left
        intro j _
        obtain ⟨e1, e2⟩ := stepped_y_time_point o v ho hv j
        simp only [Function.comp, stepped_impact_y]
        rw [e1, e2]
  · have ht : ¬ (intersect_times_initial o v).y < 1 := by
      intro ht
      exact hr ⟨(float_direction_ne_zero_iff v.y).mpr hv, ht⟩
    refine ⟨0, [], raycast_pass_y_skipped Real.sqrt fuel o v hr, ?_, rfl⟩
    intro j
    constructor
    · intro hj; omega
    · rintro ⟨h, _⟩; exact absurd h ht

/-- The crossing points of the pass over vertical edges are on vertical grid lines. -/
theorem crossing_point_x_on_line (o v : SVec2f ℝ) (hv : v.x ≠ 0) (j : Nat) :
    ∃ q : Int, o.x + v.x * crossing_time_x o v j = (q : ℝ) * 20 := by
  rcases lt_or_gt_of_ne hv with h | h
  · exact ⟨_, crossing_point_x_neg o v h j⟩
  · exact ⟨_, crossing_point_x_pos o v h j⟩

/-- The crossing points of the pass over horizontal edges are on horizontal grid lines. -/
theorem crossing_point_y_on_line (o v : SVec2f ℝ) (hv : v.y ≠ 0) (j : Nat) :
    ∃ q : Int, o.y + v.y * crossing_time_y o v j = (q : ℝ) * 20 := by
  rcases lt_or_gt_of_ne hv with h | h
  · exact ⟨_, crossing_point_y_neg o v h j⟩
  · exact ⟨_, crossing_point_y_pos o v h j⟩

/-- For a ray that ends inside the grid bounds and not on a vertical grid line, the pass
over vertical edges records the crossings with time below 1, in the order of their
numbers. -/
theorem pass_x_lines (fuel : Nat) (o v : SVec2f ℝ) (hf : 41 ≤ fuel)
    (ho : ¬ ray_origin_out_of_grid_bounds o)
    (hterm : ¬ out_of_grid_bounds (⟨o.x + v.x, o.y + v.y⟩ : SVec2f ℝ)) (hv : v.x ≠ 0)
    (hnl : ∀ q : Int, o.x + v.x ≠ (q : ℝ) * 20) :
    ∃ (m : Nat) (xs : List (SImpactInformation ℝ)),
      raycast_pass_x Real.sqrt fuel o v = some (PassOutcome.recorded xs) ∧
      (∀ j : Nat, j < m ↔ crossing_time_x o v j < 1) ∧
      xs.map (fun e => e.impact_point.x)
        = (List.range m).map (fun j => o.x + v.x * crossing_time_x o v j) := by
  obtain ⟨m, xs, hx, hiff, hmap⟩ := pass_x_complete fuel o v hf ho hterm hv
  refine ⟨m, xs, hx, ?_, ?_⟩
  · intro j
    rw [hiff j]
    constructor
    · rintro ⟨_, hle⟩
      refine lt_of_le_of_ne hle ?_
      intro h1
      obtain ⟨q, hq⟩ := crossing_point_x_on_line o v hv j
      rw [h1, mul_one] at hq
      exact hnl q hq
    · intro hlt
      refine ⟨?_, le_of_lt hlt⟩
      have := crossing_time_x_mono o v (Nat.zero_le j)
      rw [crossing_time_x_zero] at this
      linarith
  · have h := congrArg (List.map (fun p : ℝ × SVec2f ℝ => p.2.x)) hmap
    simp only [List.map_map] at h
    exact h

/-- For a ray that ends inside the grid bounds and not on a horizontal grid line, the pass
over horizontal edges records the crossings with time below 1, in the order of their
numbers. -/
theorem pass_y_lines (fuel : Nat) (o v : SVec2f ℝ) (hf : 31 ≤ fuel)
    (ho : ¬ ray_origin_out_of_grid_bounds o)
    (hterm : ¬ out_of_grid_bounds (⟨o.x + v.x, o.y + v.y⟩ : SVec2f ℝ)) (hv : v.y ≠ 0)
    (hnl : ∀ q : Int, o.y + v.y ≠ (q : ℝ) * 20) :
    ∃ (m : Nat) (ys : List (SImpactInformation ℝ)),
      raycast_pass_y Real.sqrt fuel o v = some (PassOutcome.recorded ys) ∧
      (∀ j : Nat, j < m ↔ crossing_time_y o v j < 1) ∧
      ys.map (fun e => e.impact_point.y)
        = (List.range m).map (fun j => o.y + v.y * crossing_time_y o v j) := by
  obtain ⟨m, ys, hy, hiff, hmap⟩ := pass_y_complete fuel o v hf ho hterm hv
  refine ⟨m, ys, hy, ?_, ?_⟩
  · intro j
    rw [hiff j]
    constructor
    · rintro ⟨_, hle⟩
      refine lt_of_le_of_ne hle ?_
      intro h1
      obtain ⟨q, hq⟩ := crossing_point_y_on_line o v hv j
      rw [h1, mul_one] at hq
      exact hnl q hq
    · intro hlt
      refine ⟨?_, le_of_lt hlt⟩
      have := crossing_time_y_mono o v (Nat.zero_le j)
      rw [crossing_time_y_zero] at this
      linarith
  · have h := congrArg (List.map (fun p : ℝ × SVec2f ℝ => p.2.y)) hmap
    simp only [List.map_map] at h
    exact h

/-- Values of a strictly increasing function along `0, 1, ..., m - 1` are in increasing
order. -/
theorem sorted_lt_map_range (f : Nat → ℝ) (hf : ∀ i j, i < j → f i < f j) (m : Nat) :
    List.Sorted (fun a b => a < b) ((List.range m).map f) := by
  unfold List.Sorted
  rw [List.pairwise_map]
  exact List.Pairwise.imp (fun {i j} hij => hf i j hij) (List.pairwise_lt_range m)

/-- Values of a strictly decreasing function along `0, 1, ..., m - 1` are in decreasing
order. -/
theorem sorted_gt_map_range (f : Nat → ℝ) (hf : ∀ i j, i < j → f j < f i) (m : Nat) :
    List.Sorted (fun a b => a > b) ((List.range m).map f) := by
  unfold List.Sorted
  rw [List.pairwise_map]
  exact List.Pairwise.imp (fun {i j} hij => hf i j hij) (List.pairwise_lt_range m)

/-- Completeness of the pass over vertical edges for a ray going right: one impact on each
vertical grid line strictly between the origin and the end point, no other impact, in
increasing order of the coordinate. -/
theorem pass_x_complete_right (fuel : Nat) (o v : SVec2f ℝ) (hf : 41 ≤ fuel)
    (ho : ¬ ray_origin_out_of_grid_bounds o)
    (hterm : ¬ out_of_grid_bounds (⟨o.x + v.x, o.y + v.y⟩ : SVec2f ℝ)) (hv : 0 < v.x)
    (hnl : ∀ q : Int, o.x + v.x ≠ (q : ℝ) * 20) :
    ∃ xs, raycast_pass_x Real.sqrt fuel o v = some (PassOutcome.recorded xs) ∧
      (∀ q : Int, o.x < (q : ℝ) * 20 → (q : ℝ) * 20 < o.x + v.x →
        ∃ e ∈ xs, e.impact_point.x = (q : ℝ) * 20) ∧
      (∀ e ∈ xs, ∃ q : Int, e.impact_point.x = (q : ℝ) * 20 ∧
        o.x < (q : ℝ) * 20 ∧ (q : ℝ) * 20 < o.x + v.x) ∧
      List.Sorted (fun a b => a < b) (xs.map (fun e => e.impact_point.x)) := by
  obtain ⟨m, xs, hx, hiff, hmap⟩ := pass_x_lines fuel o v hf ho hterm (ne_of_gt hv) hnl
  have hpt := crossing_point_x_pos o v hv
  obtain ⟨⟨t1, t2⟩, _, _⟩ := raycast_tile_origin_x o ho
  refine ⟨xs, hx, ?_, ?_, ?_⟩
  · intro q h1 h2
    have hq : (raycast_tile_origin o).x + 1 ≤ q := by
      have : ((raycast_tile_origin o).x : ℝ) < (q : ℝ) := by linarith
      have h3 : (raycast_tile_origin o).x < q := by exact_mod_cast this
      omega
    have hj := hpt (q - ((raycast_tile_origin o).x + 1)).toNat
    rw [Int.toNat_of_nonneg (by omega)] at hj
    have hq2 : (((raycast_tile_origin o).x + 1 + (q - ((raycast_tile_origin o).x + 1)) : Int) : ℝ)
        * 20 = (q : ℝ) * 20 := by
      push_cast; ring
    rw [hq2] at hj
    have hlt : crossing_time_x o v (q - ((raycast_tile_origin o).x + 1)).toNat < 1 := by
      by_contra hc
      have := mul_le_mul_of_nonneg_left (not_lt.mp hc) (le_of_lt hv)
      linarith
    have hmem : (q : ℝ) * 20 ∈ xs.map (fun e => e.impact_point.x) := by
      rw [hmap, List.mem_map]
      exact ⟨_, List.mem_range.mpr ((hiff _).mpr hlt), hj⟩
    obtain ⟨e, he, hex⟩ := List.mem_map.mp hmem
    exact ⟨e, he, hex⟩
  · intro e he
    have hmem : e.impact_point.x ∈ xs.map (fun e => e.impact_point.x) :=
      List.mem_map.mpr ⟨e, he, rfl⟩
    rw [hmap, List.mem_map] at hmem
    obtain ⟨j, hj, hje⟩ := hmem
    have hlt := (hiff j).mp (List.mem_range.mp hj)
    have hp := hpt j
    have hj0 : (0 : ℝ) ≤ (j : ℝ) := Nat.cast_nonneg j
    refine ⟨(raycast_tile_origin o).x + 1 + (j : Int), ?_, ?_, ?_⟩
    · rw [← hje, hp]
    · push_cast; linarith
    · rw [← hp]
      have := mul_lt_mul_of_pos_left hlt hv
      linarith
  · rw [hmap]
    apply sorted_lt_map_range
    intro i j hij
    rw [hpt i, hpt j]
    have : (i : ℝ) < (j : ℝ) := by exact_mod_cast hij
    push_cast
    linarith

/-- Completeness of the pass over vertical edges for a ray going left: one impact on each
vertical grid line from the origin (included) to the end point (excluded), no other impact,
in decreasing order of the coordinate. -/
theorem pass_x_complete_left (fuel : Nat) (o v : SVec2f ℝ) (hf : 41 ≤ fuel)
    (ho : ¬ ray_origin_out_of_grid_bounds o)
    (hterm : ¬ out_of_grid_bounds (⟨o.x + v.x, o.y + v.y⟩ : SVec2f ℝ)) (hv : v.x < 0)
    (hnl : ∀ q : Int, o.x + v.x ≠ (q : ℝ) * 20) :
    ∃ xs, raycast_pass_x Real.sqrt fuel o v = some (PassOutcome.recorded xs) ∧
      (∀ q : Int, (q : ℝ) * 20 ≤ o.x → o.x + v.x < (q : ℝ) * 20 →
        ∃ e ∈ xs, e.impact_point.x = (q : ℝ) * 20) ∧
      (∀ e ∈ xs, ∃ q : Int, e.impact_point.x = (q : ℝ) * 20 ∧
        (q : ℝ) * 20 ≤ o.x ∧ o.x + v.x < (q : ℝ) * 20) ∧
      List.Sorted (fun a b => a > b) (xs.map (fun e => e.impact_point.x)) := by
  obtain ⟨m, xs, hx, hiff, hmap⟩ := pass_x_lines fuel o v hf ho hterm (ne_of_lt hv) hnl
  have hpt := crossing_point_x_neg o v hv
  obtain ⟨⟨t1, t2⟩, _, _⟩ := raycast_tile_origin_x o ho
  refine ⟨xs, hx, ?_, ?_, ?_⟩
  · intro q h1 h2
    have hq : q ≤ (raycast_tile_origin o).x := by
      have : (q : ℝ) < ((raycast_tile_origin o).x : ℝ) + 1 := by linarith
      have h3 : q < (raycast_tile_origin o).x + 1 := by exact_mod_cast this
      omega
    have hj := hpt ((raycast_tile_origin o).x - q).toNat
    rw [Int.toNat_of_nonneg (by omega)] at hj
    have hq2 : (((raycast_tile_origin o).x - ((raycast_tile_origin o).x - q) : Int) : ℝ) * 20
        = (q : ℝ) * 20 := by
      push_cast; ring
    rw [hq2] at hj
    have hlt : crossing_time_x o v ((raycast_tile_origin o).x - q).toNat < 1 := by
      by_contra hc
      have := mul_le_mul_of_nonpos_left (not_lt.mp hc) (le_of_lt hv)
      linarith
    have hmem : (q : ℝ) * 20 ∈ xs.map (fun e => e.impact_point.x) := by
      rw [hmap, List.mem_map]
      exact ⟨_, List.mem_range.mpr ((hiff _).mpr hlt), hj⟩
    obtain ⟨e, he, hex⟩ := List.mem_map.mp hmem
    exact ⟨e, he, hex⟩
  · intro e he
    have hmem : e.impact_point.x ∈ xs.map (fun e => e.impact_point.x) :=
      List.mem_map.mpr ⟨e, he, rfl⟩
    rw [hmap, List.mem_map] at hmem
    obtain ⟨j, hj, hje⟩ := hmem
    have hlt := (hiff j).mp (List.mem_range.mp hj)
    have hp := hpt j
    have hj0 : (0 : ℝ) ≤ (j : ℝ) := Nat.cast_nonneg j
    refine ⟨(raycast_tile_origin o).x - (j : Int), ?_, ?_, ?_⟩
    · rw [← hje, hp]
    · push_cast; linarith
    · rw [← hp]
      have := mul_lt_mul_of_neg_left hlt hv
      linarith
  · rw [hmap]
    apply sorted_gt_map_range
    intro i j hij
    rw [hpt i, hpt j]
    have : (i : ℝ) < (j : ℝ) := by exact_mod_cast hij
    push_cast
    linarith

/-- Completeness of the pass over horizontal edges for a ray going up: one impact on each
horizontal grid line strictly between the origin and the end point, no other impact, in
increasing order of the coordinate. -/
theorem pass_y_complete_up (fuel : Nat) (o v : SVec2f ℝ) (hf : 31 ≤ fuel)
    (ho : ¬ ray_origin_out_of_grid_bounds o)
    (hterm : ¬ out_of_grid_bounds (⟨o.x + v.x, o.y + v.y⟩ : SVec2f ℝ)) (hv : 0 < v.y)
    (hnl : ∀ q : Int, o.y + v.y ≠ (q : ℝ) * 20) :
    ∃ xs, raycast_pass_y Real.sqrt fuel o v = some (PassOutcome.recorded xs) ∧
      (∀ q : Int, o.y < (q : ℝ) * 20 → (q : ℝ) * 20 < o.y + v.y →
        ∃ e ∈ xs, e.impact_point.y = (q : ℝ) * 20) ∧
      (∀ e ∈ xs, ∃ q : Int, e.impact_point.y = (q : ℝ) * 20 ∧
        o.y < (q : ℝ) * 20 ∧ (q : ℝ) * 20 < o.y + v.y) ∧
      List.Sorted (fun a b => a < b) (xs.map (fun e => e.impact_point.y)) := by
  obtain ⟨m, xs, hx, hiff, hmap⟩ := pass_y_lines fuel o v hf ho hterm (ne_of_gt hv) hnl
  have hpt := crossing_point_y_pos o v hv
  obtain ⟨⟨t1, t2⟩, _, _⟩ := raycast_tile_origin_y o ho
  refine ⟨xs, hx, ?_, ?_, ?_⟩
  · intro q h1 h2
    have hq : (raycast_tile_origin o).y + 1 ≤ q := by
      have : ((raycast_tile_origin o).y : ℝ) < (q : ℝ) := by linarith
      have h3 : (raycast_tile_origin o).y < q := by exact_mod_cast this
      omega
    have hj := hpt (q - ((raycast_tile_origin o).y + 1)).toNat
    rw [Int.toNat_of_nonneg (by omega)] at hj
    have hq2 : (((raycast_tile_origin o).y + 1 + (q - ((raycast_tile_origin o).y + 1)) : Int) : ℝ)
        * 20 = (q : ℝ) * 20 := by
      push_cast; ring
    rw [hq2] at hj
    have hlt : crossing_time_y o v (q - ((raycast_tile_origin o).y + 1)).toNat < 1 := by
      by_contra hc
      have := mul_le_mul_of_nonneg_left (not_lt.mp hc) (le_of_lt hv)
      linarith
    have hmem : (q : ℝ) * 20 ∈ xs.map (fun e => e.impact_point.y) := by
      rw [hmap, List.mem_map]
      exact ⟨_, List.mem_range.mpr ((hiff _).mpr hlt), hj⟩
    obtain ⟨e, he, hex⟩ := List.mem_map.mp hmem
    exact ⟨e, he, hex⟩
  · intro e he
    have hmem : e.impact_point.y ∈ xs.map (fun e => e.impact_point.y) :=
      List.mem_map.mpr ⟨e, he, rfl⟩
    rw [hmap, List.mem_map] at hmem
    obtain ⟨j, hj, hje⟩ := hmem
    have hlt := (hiff j).mp (List.mem_range.mp hj)
    have hp := hpt j
    have hj0 : (0 : ℝ) ≤ (j : ℝ) := Nat.cast_nonneg j
    refine ⟨(raycast_tile_origin o).y + 1 + (j : Int), ?_, ?_, ?_⟩
    · rw [← hje, hp]
    · push_cast; linarith
    · rw [← hp]
      have := mul_lt_mul_of_pos_left hlt hv
      linarith
  · rw [hmap]
    apply sorted_lt_map_range
    intro i j hij
    rw [hpt i, hpt j]
    have : (i : ℝ) < (j : ℝ) := by exact_mod_cast hij
    push_cast
    linarith

/-- Completeness of the pass over horizontal edges for a ray going down: one impact on each
horizontal grid line from the origin (included) to the end point (excluded), no other impact,
in decreasing order of the coordinate. -/
theorem pass_y_complete_down (fuel : Nat) (o v : SVec2f ℝ) (hf : 31 ≤ fuel)
    (ho : ¬ ray_origin_out_of_grid_bounds o)
    (hterm : ¬ out_of_grid_bounds (⟨o.x + v.x, o.y + v.y⟩ : SVec2f ℝ)) (hv : v.y < 0)
    (hnl : ∀ q : Int, o.y + v.y ≠ (q : ℝ) * 20) :
    ∃ xs, raycast_pass_y Real.sqrt fuel o v = some (PassOutcome.recorded xs) ∧
      (∀ q : Int, (q : ℝ) * 20 ≤ o.y → o.y + v.y < (q : ℝ) * 20 →
        ∃ e ∈ xs, e.impact_point.y = (q : ℝ) * 20) ∧
      (∀ e ∈ xs, ∃ q : Int, e.impact_point.y = (q : ℝ) * 20 ∧
        (q : ℝ) * 20 ≤ o.y ∧ o.y + v.y < (q : ℝ) * 20) ∧
      List.Sorted (fun a b => a > b) (xs.map (fun e => e.impact_point.y)) := by
  obtain ⟨m, xs, hx, hiff, hmap⟩ := pass_y_lines fuel o v hf ho hterm (ne_of_lt hv) hnl
  have hpt := crossing_point_y_neg o v hv
  obtain ⟨⟨t1, t2⟩, _, _⟩ := raycast_tile_origin_y o ho
  refine ⟨xs, hx, ?_, ?_, ?_⟩
  · intro q h1 h2
    have hq : q ≤ (raycast_tile_origin o).y := by
      have : (q : ℝ) < ((raycast_tile_origin o).y : ℝ) + 1 := by linarith
      have h3 : q < (raycast_tile_origin o).y + 1 := by exact_mod_cast this
      omega
    have hj := hpt ((raycast_tile_origin o).y - q).toNat
    rw [Int.toNat_of_nonneg (by omega)] at hj
    have hq2 : (((raycast_tile_origin o).y - ((raycast_tile_origin o).y - q) : Int) : ℝ) * 20
        = (q : ℝ) * 20 := by
      push_cast; ring
    rw [hq2] at hj
    have hlt : crossing_time_y o v ((raycast_tile_origin o).y - q).toNat < 1 := by
      by_contra hc
      have := mul_le_mul_of_nonpos_left (not_lt.mp hc) (le_of_lt hv)
      linarith
    have hmem : (q : ℝ) * 20 ∈ xs.map (fun e => e.impact_point.y) := by
      rw [hmap, List.mem_map]
      exact ⟨_, List.mem_range.mpr ((hiff _).mpr hlt), hj⟩
    obtain ⟨e, he, hex⟩ := List.mem_map.mp hmem
    exact ⟨e, he, hex⟩
  · intro e he
    have hmem : e.impact_point.y ∈ xs.map (fun e => e.impact_point.y) :=
      List.mem_map.mpr ⟨e, he, rfl⟩
    rw [hmap, List.mem_map] at hmem
    obtain ⟨j, hj, hje⟩ := hmem
    have hlt := (hiff j).mp (List.mem_range.mp hj)
    have hp := hpt j
    have hj0 : (0 : ℝ) ≤ (j : ℝ) := Nat.cast_nonneg j
    refine ⟨(raycast_tile_origin o).y - (j : Int), ?_, ?_, ?_⟩
    · rw [← hje, hp]
    · push_cast; linarith
    · rw [← hp]
      have := mul_lt_mul_of_neg_left hlt hv
      linarith
  · rw [hmap]
    apply sorted_gt_map_range
    intro i j hij
    rw [hpt i, hpt j]
    have : (i : ℝ) < (j : ℝ) := by exact_mod_cast hij
    push_cast
    linarith

end Complete

/-! ## Horizontal rays from (10, 10) -/

section Horizontal

end Horizontal

/-! ## Claims -/

section Claims

/-- C1: when the merge step is reached (the origin is inside the grid and neither pass
returned early), the function returns one list that is a permutation of the buffer of the
pass over vertical edges followed by the buffer of the pass over horizontal edges, and whose
impact times never decrease from one entry to the next. -/
theorem merge_step_sorted_permutation {K : Type} [LinearOrderedField K] [FloorRing K]
    (sqrtf : K → K) (fuel : Nat) (o v : SVec2f K) (xs ys : List (SImpactInformation K))
    (ho : ¬ ray_origin_out_of_grid_bounds o)
    (hx : raycast_pass_x sqrtf fuel o v = some (PassOutcome.recorded xs))
    (hy : raycast_pass_y sqrtf fuel o v = some (PassOutcome.recorded ys)) :
    ∃ r, generateRaycastPointsAlongEdges sqrtf fuel o v = some r ∧
      r = qsort sort_impact_information (xs ++ ys) ∧
      r.Perm (xs ++ ys) ∧
      List.Sorted (fun a b => a.impact_time ≤ b.impact_time) r :=
  ⟨merge_impacts xs ys, generate_of_passes sqrtf fuel o v xs ys ho hx hy, rfl,
    merge_impacts_perm xs ys, merge_impacts_sorted xs ys⟩

/-- Witness of C1: the ray from (10, 10) along (30, 40).  The pass over vertical edges
leaves impacts at times 1/3 and 1, the pass over horizontal edges at times 1/4 and 3/4; the
returned list is their merge, which `diagonal_merge` evaluates to the order 1/4, 1/3, 3/4, 1. -/
theorem merge_step_sorted_permutation_witness :
    ∃ r, generateRaycastPointsAlongEdges Real.sqrt 2 (⟨10, 10⟩ : SVec2f ℝ) ⟨30, 40⟩ = some r ∧
      r = qsort sort_impact_information
        ([⟨1 / 3, ⟨20, 70 / 3⟩, ⟨1, 1⟩⟩, ⟨1, ⟨40, 50⟩, ⟨2, 2⟩⟩]
          ++ [⟨1 / 4, ⟨35 / 2, 20⟩, ⟨0, 1⟩⟩, ⟨3 / 4, ⟨65 / 2, 40⟩, ⟨1, 2⟩⟩]) ∧
      r.Perm
        ([⟨1 / 3, ⟨20, 70 / 3⟩, ⟨1, 1⟩⟩, ⟨1, ⟨40, 50⟩, ⟨2, 2⟩⟩]
          ++ [⟨1 / 4, ⟨35 / 2, 20⟩, ⟨0, 1⟩⟩, ⟨3 / 4, ⟨65 / 2, 40⟩, ⟨1, 2⟩⟩]) ∧
      List.Sorted (fun a b => a.impact_time ≤ b.impact_time) r :=
  merge_step_sorted_permutation Real.sqrt 2 ⟨10, 10⟩ ⟨30, 40⟩ _ _ scenarioA_origin_in_grid
    (diagonal_pass_x 0) (diagonal_pass_y 0)

/-- C2: with exact real arithmetic, every impact recorded by one of the two passes of a ray
whose origin is inside the grid, and every impact of the returned list, has its time in the
closed interval from 0 to 1. -/
theorem impact_time_in_unit_interval (fuel : Nat) (o v : SVec2f ℝ) (e : SImpactInformation ℝ)
    (he : (¬ ray_origin_out_of_grid_bounds o ∧
            ((∃ xs, raycast_pass_x Real.sqrt fuel o v = some (PassOutcome.recorded xs) ∧ e ∈ xs) ∨
             (∃ ys, raycast_pass_y Real.sqrt fuel o v = some (PassOutcome.recorded ys) ∧ e ∈ ys)))
          ∨ (∃ r, generateRaycastPointsAlongEdges Real.sqrt fuel o v = some r ∧ e ∈ r)) :
    0 ≤ e.impact_time ∧ e.impact_time ≤ 1 := by
  rcases he with ⟨ho, ⟨xs, hx, he⟩ | ⟨ys, hy, he⟩⟩ | ⟨r, hr, he⟩
  · obtain ⟨hr, _, hi⟩ := raycast_pass_x_mem Real.sqrt fuel o v xs hx e he
    exact impact_x_time_in_unit_interval Real.sqrt Real.sqrt_nonneg o v ho hr e hi
  · obtain ⟨hr, _, hi⟩ := raycast_pass_y_mem Real.sqrt fuel o v ys hy e he
    exact impact_y_time_in_unit_interval Real.sqrt Real.sqrt_nonneg o v ho hr e hi
  · obtain ⟨ho, ⟨hr, _, hi⟩ | ⟨hr, _, hi⟩⟩ := generate_mem Real.sqrt fuel o v r hr e he
    · exact impact_x_time_in_unit_interval Real.sqrt Real.sqrt_nonneg o v ho hr e hi
    · exact impact_y_time_in_unit_interval Real.sqrt Real.sqrt_nonneg o v ho hr e hi

/-- Witness of C2: the last impact of scenario A, recorded at time 9/10. -/
theorem impact_time_in_unit_interval_witness :
    (0 : ℝ) ≤ (⟨9 / 10, ⟨100, 10⟩, ⟨5, 0⟩⟩ : SImpactInformation ℝ).impact_time ∧
      (⟨9 / 10, ⟨100, 10⟩, ⟨5, 0⟩⟩ : SImpactInformation ℝ).impact_time ≤ 1 :=
  impact_time_in_unit_interval 5 ⟨10, 10⟩ ⟨100, 0⟩ ⟨9 / 10, ⟨100, 10⟩, ⟨5, 0⟩⟩
    (Or.inr ⟨_, scenarioA_run 0, by simp⟩)

/-- C3: with enough fuel for the stepping loops the function returns a list, and every
impact point of that list lies inside the grid bounding box, its border included. -/
theorem impact_point_in_bounding_box {K : Type} [LinearOrderedField K] [FloorRing K]
    (sqrtf : K → K) (fuel : Nat) (o v : SVec2f K) (hf : 41 ≤ fuel) :
    ∃ r, generateRaycastPointsAlongEdges sqrtf fuel o v = some r ∧
      ∀ e ∈ r,
        (grid_bounding_box (K := K)).min.x ≤ e.impact_point.x ∧
        e.impact_point.x ≤ (grid_bounding_box (K := K)).max.x ∧
        (grid_bounding_box (K := K)).min.y ≤ e.impact_point.y ∧
        e.impact_point.y ≤ (grid_bounding_box (K := K)).max.y := by
  obtain ⟨r, hr⟩ := generate_terminates sqrtf fuel o v hf
  refine ⟨r, hr, fun e he => ?_⟩
  have hin : ¬ out_of_grid_bounds e.impact_point := by
    obtain ⟨_, ⟨_, hb, hi⟩ | ⟨_, hb, hi⟩⟩ := generate_mem sqrtf fuel o v r hr e he
    · exact impact_x_point_in_bounds sqrtf o v hb e hi
    · exact impact_y_point_in_bounds sqrtf o v hb e hi
  unfold out_of_grid_bounds at hin
  simp only [not_or, not_lt, gt_iff_lt] at hin
  exact ⟨hin.1, hin.2.1, hin.2.2.1, hin.2.2.2⟩

/-- Witness of C3: scenario A with 41 units of fuel; the returned list has five impacts. -/
theorem impact_point_in_bounding_box_witness :
    ∃ r, generateRaycastPointsAlongEdges Real.sqrt 41 (⟨10, 10⟩ : SVec2f ℝ) ⟨100, 0⟩ = some r ∧
      ∀ e ∈ r,
        (grid_bounding_box (K := ℝ)).min.x ≤ e.impact_point.x ∧
        e.impact_point.x ≤ (grid_bounding_box (K := ℝ)).max.x ∧
        (grid_bounding_box (K := ℝ)).min.y ≤ e.impact_point.y ∧
        e.impact_point.y ≤ (grid_bounding_box (K := ℝ)).max.y :=
  impact_point_in_bounding_box Real.sqrt 41 ⟨10, 10⟩ ⟨100, 0⟩ (by decide)

/-- C4, as amended: with enough fuel the function returns a list in which every impact has
a column between -1 and `tilesOnGridAxis.x` and a row between -1 and `tilesOnGridAxis.y`,
both ends included. -/
theorem impact_tile_range {K : Type} [LinearOrderedField K] [FloorRing K]
    (sqrtf : K → K) (fuel : Nat) (o v : SVec2f K) (hf : 41 ≤ fuel) :
    ∃ r, generateRaycastPointsAlongEdges sqrtf fuel o v = some r ∧
      ∀ e ∈ r,
        -1 ≤ e.impact_tile.x ∧ e.impact_tile.x ≤ tilesOnGridAxis.x ∧
        -1 ≤ e.impact_tile.y ∧ e.impact_tile.y ≤ tilesOnGridAxis.y := by
  obtain ⟨r, hr⟩ := generate_terminates sqrtf fuel o v hf
  refine ⟨r, hr, fun e he => ?_⟩
  rw [tilesOnGridAxis_eq]
  obtain ⟨_, ⟨hp, hb, hi⟩ | ⟨hp, hb, hi⟩⟩ := generate_mem sqrtf fuel o v r hr e he
  · exact (impact_x_tile_range sqrtf o v hp hb e hi).1
  · exact (impact_y_tile_range sqrtf o v hp hb e hi).1

/-- Witness of the amended C4: the ray from (790, 10) along (100, 0) with 41 units of fuel,
whose single impact has column 40, the upper end of the range. -/
theorem impact_tile_range_witness :
    ∃ r, generateRaycastPointsAlongEdges Real.sqrt 41 (⟨790, 10⟩ : SVec2f ℝ) ⟨100, 0⟩ = some r ∧
      ∀ e ∈ r,
        -1 ≤ e.impact_tile.x ∧ e.impact_tile.x ≤ tilesOnGridAxis.x ∧
        -1 ≤ e.impact_tile.y ∧ e.impact_tile.y ≤ tilesOnGridAxis.y :=
  impact_tile_range Real.sqrt 41 ⟨790, 10⟩ ⟨100, 0⟩ (by decide)

/-- Counterexample to C4 as stated: the ray from (790, 10) along (100, 0) returns an impact
on the right border of the grid whose column is 40, which is not below `tilesOnGridAxis.x`. -/
theorem impact_tile_in_grid_counterexample :
    ∃ r, generateRaycastPointsAlongEdges Real.sqrt 41 (⟨790, 10⟩ : SVec2f ℝ) ⟨100, 0⟩ = some r ∧
      ∃ e ∈ r, ¬ (0 ≤ e.impact_tile.x ∧ e.impact_tile.x < tilesOnGridAxis.x ∧
        0 ≤ e.impact_tile.y ∧ e.impact_tile.y < tilesOnGridAxis.y) := by
  refine ⟨_, rightBorder_run Real.sqrt 40, ⟨1 / 10, ⟨800, 10⟩, ⟨40, 0⟩⟩, by simp, ?_⟩
  rw [tilesOnGridAxis_eq]
  simp

/-- C6: with exact real arithmetic, every impact recorded by one of the two passes of a ray
whose origin is inside the grid, and every impact of the returned list, has its point at
`raycast_origin + raycast_vector * impact_time` on both coordinates. -/
theorem impact_point_on_ray (fuel : Nat) (o v : SVec2f ℝ) (e : SImpactInformation ℝ)
    (he : (¬ ray_origin_out_of_grid_bounds o ∧
            ((∃ xs, raycast_pass_x Real.sqrt fuel o v = some (PassOutcome.recorded xs) ∧ e ∈ xs) ∨
             (∃ ys, raycast_pass_y Real.sqrt fuel o v = some (PassOutcome.recorded ys) ∧ e ∈ ys)))
          ∨ (∃ r, generateRaycastPointsAlongEdges Real.sqrt fuel o v = some r ∧ e ∈ r)) :
    e.impact_point.x = o.x + v.x * e.impact_time ∧
      e.impact_point.y = o.y + v.y * e.impact_time := by
  rcases he with ⟨ho, ⟨xs, hx, he⟩ | ⟨ys, hy, he⟩⟩ | ⟨r, hr, he⟩
  · obtain ⟨hr, _, hi⟩ := raycast_pass_x_mem Real.sqrt fuel o v xs hx e he
    exact impact_x_on_ray o v ho hr e hi
  · obtain ⟨hr, _, hi⟩ := raycast_pass_y_mem Real.sqrt fuel o v ys hy e he
    exact impact_y_on_ray o v ho hr e hi
  · obtain ⟨ho, ⟨hr, _, hi⟩ | ⟨hr, _, hi⟩⟩ := generate_mem Real.sqrt fuel o v r hr e he
    · exact impact_x_on_ray o v ho hr e hi
    · exact impact_y_on_ray o v ho hr e hi

/-- Witness of C6: the impact of step 2 in the pass over vertical edges of scenario A,
recorded at the point (60, 10) with time 1/2. -/
theorem impact_point_on_ray_witness :
    (⟨1 / 2, ⟨60, 10⟩, ⟨3, 0⟩⟩ : SImpactInformation ℝ).impact_point.x
        = (10 : ℝ) + 100 * (⟨1 / 2, ⟨60, 10⟩, ⟨3, 0⟩⟩ : SImpactInformation ℝ).impact_time ∧
      (⟨1 / 2, ⟨60, 10⟩, ⟨3, 0⟩⟩ : SImpactInformation ℝ).impact_point.y
        = (10 : ℝ) + 0 * (⟨1 / 2, ⟨60, 10⟩, ⟨3, 0⟩⟩ : SImpactInformation ℝ).impact_time :=
  impact_point_on_ray 5 ⟨10, 10⟩ ⟨100, 0⟩ ⟨1 / 2, ⟨60, 10⟩, ⟨3, 0⟩⟩
    (Or.inl ⟨scenarioA_origin_in_grid, Or.inl ⟨_, scenarioA_pass_x 0, by simp⟩⟩)

/-- C7: when the origin of the ray, taken relative to the grid origin, has a negative
coordinate or a coordinate beyond the grid width or height, the function returns the empty
list, whatever the vector and the fuel are. -/
theorem origin_outside_grid_gives_empty {K : Type} [LinearOrderedField K] [FloorRing K]
    (sqrtf : K → K) (fuel : Nat) (o v : SVec2f K)
    (h : (raycast_grid_relative_origin o).x < 0 ∨ (raycast_grid_relative_origin o).y < 0 ∨
      (raycast_grid_relative_origin o).x > (gridDimensions.x : K) ∨
      (raycast_grid_relative_origin o).y > (gridDimensions.y : K)) :
    generateRaycastPointsAlongEdges sqrtf fuel o v = some [] := by
  have ho : ray_origin_out_of_grid_bounds o := by
    unfold ray_origin_out_of_grid_bounds
    rcases h with h | h | h | h
    · exact Or.inl h
    · exact Or.inr (Or.inr (Or.inl h))
    · exact Or.inr (Or.inl (le_of_lt h))
    · exact Or.inr (Or.inr (Or.inr (le_of_lt h)))
  unfold generateRaycastPointsAlongEdges
  rw [if_pos ho]

/-- Witness of C7: the origins (-5, -5) and (-1, 10) of the specification. -/
theorem origin_outside_grid_gives_empty_witness :
    generateRaycastPointsAlongEdges Real.sqrt 41 (⟨-5, -5⟩ : SVec2f ℝ) ⟨100, 30⟩ = some [] ∧
      generateRaycastPointsAlongEdges Real.sqrt 41 (⟨-1, 10⟩ : SVec2f ℝ) ⟨100, 0⟩ = some [] :=
  ⟨origin_outside_grid_gives_empty Real.sqrt 41 ⟨-5, -5⟩ ⟨100, 30⟩
      (Or.inl (by simp [raycast_grid_relative_origin, gridOriginBottomLeft])),
   origin_outside_grid_gives_empty Real.sqrt 41 ⟨-1, 10⟩ ⟨100, 0⟩
      (Or.inl (by simp [raycast_grid_relative_origin, gridOriginBottomLeft]))⟩

/-- C9: scenario A.  The ray from (10, 10) along (100, 0) makes the pass over vertical
edges record five impacts, at `x = 20, 40, 60, 80, 100` with times 1/10, 3/10, 1/2, 7/10,
9/10 and tiles (1, 0) to (5, 0); the pass over horizontal edges records nothing; the
function returns these five impacts in this order. -/
theorem scenarioA_five_impacts (n : Nat) :
    raycast_pass_x Real.sqrt (n + 5) (⟨10, 10⟩ : SVec2f ℝ) ⟨100, 0⟩
      = some (PassOutcome.recorded
          [⟨1 / 10, ⟨20, 10⟩, ⟨1, 0⟩⟩, ⟨3 / 10, ⟨40, 10⟩, ⟨2, 0⟩⟩, ⟨1 / 2, ⟨60, 10⟩, ⟨3, 0⟩⟩,
           ⟨7 / 10, ⟨80, 10⟩, ⟨4, 0⟩⟩, ⟨9 / 10, ⟨100, 10⟩, ⟨5, 0⟩⟩]) ∧
    raycast_pass_y Real.sqrt (n + 5) (⟨10, 10⟩ : SVec2f ℝ) ⟨100, 0⟩
      = some (PassOutcome.recorded []) ∧
    generateRaycastPointsAlongEdges Real.sqrt (n + 5) (⟨10, 10⟩ : SVec2f ℝ) ⟨100, 0⟩
      = some [⟨1 / 10, ⟨20, 10⟩, ⟨1, 0⟩⟩, ⟨3 / 10, ⟨40, 10⟩, ⟨2, 0⟩⟩, ⟨1 / 2, ⟨60, 10⟩, ⟨3, 0⟩⟩,
           ⟨7 / 10, ⟨80, 10⟩, ⟨4, 0⟩⟩, ⟨9 / 10, ⟨100, 10⟩, ⟨5, 0⟩⟩] :=
  ⟨scenarioA_pass_x n, raycast_pass_y_skipped Real.sqrt (n + 5) _ _ scenarioA_pass_y_skipped,
    scenarioA_run n⟩

/-- C5 at its failing input: the ray from (10, 30) along (20, -20) crosses the grid corner
(20, 20) at time 1/2 and enters the tile of column 1 and row 0, but the returned list holds
an impact with time 1/2 < 1 whose tile, column 1 and row 1, is a tile the ray is not in
right after that time. -/
theorem corner_impact_tile_not_entered :
    ∃ r, generateRaycastPointsAlongEdges Real.sqrt 41 (⟨10, 30⟩ : SVec2f ℝ) ⟨20, -20⟩ = some r ∧
      ∃ e ∈ r, e.impact_time < 1 ∧
        ¬ enters_tile (⟨10, 30⟩ : SVec2f ℝ) ⟨20, -20⟩ e.impact_time e.impact_tile ∧
        enters_tile (⟨10, 30⟩ : SVec2f ℝ) ⟨20, -20⟩ e.impact_time ⟨1, 0⟩ := by
  refine ⟨_, corner_run 40, ⟨1 / 2, ⟨20, 20⟩, ⟨1, 1⟩⟩, by simp, ?_, ?_, ?_⟩
  · norm_num
  · exact corner_not_entered 1
  · exact corner_entered

/-- C8: when the first crossing of the pass over vertical edges (direction not 0 and time
below 1) lies outside the grid bounds, or the first crossing of the pass over horizontal
edges does, the function returns the empty list, whatever the other pass has recorded. -/
theorem first_crossing_outside_gives_empty {K : Type} [LinearOrderedField K] [FloorRing K]
    (sqrtf : K → K) (fuel : Nat) (o v : SVec2f K) (hf : 41 ≤ fuel)
    (h : ((raycast_direction v).x ≠ 0 ∧ (intersect_times_initial o v).x < 1 ∧
            out_of_grid_bounds
              ⟨o.x + v.x * (intersect_times_initial o v).x,
               o.y + v.y * (intersect_times_initial o v).x⟩) ∨
         ((raycast_direction v).y ≠ 0 ∧ (intersect_times_initial o v).y < 1 ∧
            out_of_grid_bounds
              ⟨o.x + v.x * (intersect_times_initial o v).y,
               o.y + v.y * (intersect_times_initial o v).y⟩)) :
    generateRaycastPointsAlongEdges sqrtf fuel o v = some [] := by
  unfold generateRaycastPointsAlongEdges
  by_cases ho : ray_origin_out_of_grid_bounds o
  · rw [if_pos ho]
  · rw [if_neg ho]
    rcases h with ⟨hd, ht, hb⟩ | ⟨hd, ht, hb⟩
    · rw [raycast_pass_x_aborted sqrtf fuel o v ⟨hd, ht⟩ hb]
    · obtain ⟨ox, hx⟩ := raycast_pass_x_terminates sqrtf fuel o v hf
      rw [hx, raycast_pass_y_aborted sqrtf fuel o v ⟨hd, ht⟩ hb]
      cases ox <;> rfl

/-- Witness of C8: the ray from (10, 590) along (20, 100), whose first vertical crossing
(20, 640) is above the grid, and the ray from (790, 10) along (40, 20), whose pass over
vertical edges records an impact that is dropped because the first horizontal crossing
(810, 20) is to the right of the grid. -/
theorem first_crossing_outside_gives_empty_witness :
    generateRaycastPointsAlongEdges Real.sqrt 41 (⟨10, 590⟩ : SVec2f ℝ) ⟨20, 100⟩ = some [] ∧
    raycast_pass_x Real.sqrt 41 (⟨790, 10⟩ : SVec2f ℝ) ⟨40, 20⟩
      = some (PassOutcome.recorded [⟨1 / 4, ⟨800, 15⟩, ⟨40, 0⟩⟩]) ∧
    generateRaycastPointsAlongEdges Real.sqrt 41 (⟨790, 10⟩ : SVec2f ℝ) ⟨40, 20⟩ = some [] :=
  ⟨first_crossing_outside_gives_empty Real.sqrt 41 ⟨10, 590⟩ ⟨20, 100⟩ (by decide)
      (Or.inl ⟨topLeft_pass_x_runs.1, topLeft_pass_x_runs.2, by
        have h := topLeft_position_x
        unfold initial_impact_position_raycast_x at h
        rw [h, out_of_grid_bounds_iff]
        norm_num⟩),
   bottomRight_pass_x Real.sqrt 40,
   first_crossing_outside_gives_empty Real.sqrt 41 ⟨790, 10⟩ ⟨40, 20⟩ (by decide)
      (Or.inr ⟨bottomRight_pass_y_runs.1, bottomRight_pass_y_runs.2, by
        have h := bottomRight_position_y
        unfold initial_impact_position_raycast_y at h
        rw [h, out_of_grid_bounds_iff]
        norm_num⟩)⟩

/-- C10: for a ray with `raycast_vector.x = 0` the direction test of the pass over vertical
edges fails, the pass records nothing, and every impact of the returned list was recorded
by the pass over horizontal edges and has the `x` coordinate of the origin; the same holds
with the axes exchanged for a ray with `raycast_vector.y = 0`. -/
theorem zero_component_pass_records_nothing {K : Type} [LinearOrderedField K] [FloorRing K]
    (sqrtf : K → K) (fuel : Nat) (o v : SVec2f K) :
    (v.x = 0 →
      (raycast_direction v).x = 0 ∧ (initial_ray_hits o v).x = false ∧
      raycast_pass_x sqrtf fuel o v = some (PassOutcome.recorded []) ∧
      ∀ r, generateRaycastPointsAlongEdges sqrtf fuel o v = some r → ∀ e ∈ r,
        (∃ ys, raycast_pass_y sqrtf fuel o v = some (PassOutcome.recorded ys) ∧ e ∈ ys) ∧
        e.impact_point.x = o.x) ∧
    (v.y = 0 →
      (raycast_direction v).y = 0 ∧ (initial_ray_hits o v).y = false ∧
      raycast_pass_y sqrtf fuel o v = some (PassOutcome.recorded []) ∧
      ∀ r, generateRaycastPointsAlongEdges sqrtf fuel o v = some r → ∀ e ∈ r,
        (∃ xs, raycast_pass_x sqrtf fuel o v = some (PassOutcome.recorded xs) ∧ e ∈ xs) ∧
        e.impact_point.y = o.y) := by
  constructor
  · intro h
    have hskip := raycast_pass_x_skipped sqrtf fuel o v (pass_x_skipped_of_zero o v h)
    have hdir : (raycast_direction v).x = 0 := by
      simp [raycast_direction, helper_vector_direction, h, float_direction_zero]
    refine ⟨hdir, by simp [initial_ray_hits, hdir], hskip, fun r hr e he => ?_⟩
    rcases generate_cases sqrtf fuel o v r hr with h0 | ⟨_, xs, ys, hx, hy, hm⟩
    · rw [h0] at he; cases he
    · rw [hskip] at hx
      cases hx
      rw [hm, mem_merge_impacts] at he
      rcases he with he | he
      · cases he
      · exact ⟨⟨ys, hy, he⟩,
          impact_y_point_x_of_zero sqrtf o v h e (raycast_pass_y_mem sqrtf fuel o v ys hy e he).2.2⟩
  · intro h
    have hskip := raycast_pass_y_skipped sqrtf fuel o v (pass_y_skipped_of_zero o v h)
    have hdir : (raycast_direction v).y = 0 := by
      simp [raycast_direction, helper_vector_direction, h, float_direction_zero]
    refine ⟨hdir, by simp [initial_ray_hits, hdir], hskip, fun r hr e he => ?_⟩
    rcases generate_cases sqrtf fuel o v r hr with h0 | ⟨_, xs, ys, hx, hy, hm⟩
    · rw [h0] at he; cases he
    · rw [hskip] at hy
      cases hy
      rw [hm, mem_merge_impacts] at he
      rcases he with he | he
      · exact ⟨⟨xs, hx, he⟩,
          impact_x_point_y_of_zero sqrtf o v h e (raycast_pass_x_mem sqrtf fuel o v xs hx e he).2.2⟩
      · cases he

/-- Witness of C10: scenario A, whose vector (100, 0) has no vertical component; its five
impacts come from the pass over vertical edges and lie on the line `y = 10`. -/
theorem zero_component_pass_records_nothing_witness :
    (raycast_direction (⟨100, 0⟩ : SVec2f ℝ)).y = 0 ∧
      (initial_ray_hits (⟨10, 10⟩ : SVec2f ℝ) ⟨100, 0⟩).y = false ∧
      raycast_pass_y Real.sqrt 5 (⟨10, 10⟩ : SVec2f ℝ) ⟨100, 0⟩ = some (PassOutcome.recorded []) ∧
      ∀ r, generateRaycastPointsAlongEdges Real.sqrt 5 (⟨10, 10⟩ : SVec2f ℝ) ⟨100, 0⟩ = some r →
        ∀ e ∈ r,
          (∃ xs, raycast_pass_x Real.sqrt 5 (⟨10, 10⟩ : SVec2f ℝ) ⟨100, 0⟩
              = some (PassOutcome.recorded xs) ∧ e ∈ xs) ∧
          e.impact_point.y = (10 : ℝ) :=
  (zero_component_pass_records_nothing Real.sqrt 5 (⟨10, 10⟩ : SVec2f ℝ) ⟨100, 0⟩).2 rfl

/-- C11: for every origin, a ray with vector (0, 0) makes both passes record nothing and
the function return the empty list, whatever the fuel is. -/
theorem zero_vector_gives_empty {K : Type} [LinearOrderedField K] [FloorRing K]
    (sqrtf : K → K) (fuel : Nat) (o : SVec2f K) :
    raycast_pass_x sqrtf fuel o ⟨0, 0⟩ = some (PassOutcome.recorded []) ∧
    raycast_pass_y sqrtf fuel o ⟨0, 0⟩ = some (PassOutcome.recorded []) ∧
    generateRaycastPointsAlongEdges sqrtf fuel o ⟨0, 0⟩ = some [] := by
  have hx := raycast_pass_x_skipped sqrtf fuel o ⟨0, 0⟩ (pass_x_skipped_of_zero o ⟨0, 0⟩ rfl)
  have hy := raycast_pass_y_skipped sqrtf fuel o ⟨0, 0⟩ (pass_y_skipped_of_zero o ⟨0, 0⟩ rfl)
  refine ⟨hx, hy, ?_⟩
  by_cases ho : ray_origin_out_of_grid_bounds o
  · unfold generateRaycastPointsAlongEdges
    rw [if_pos ho]
  · rw [generate_of_passes sqrtf fuel o ⟨0, 0⟩ [] [] ho hx hy]
    rfl

/-- C14, as amended: the origin check rejects the origin exactly when it fails
`min.x ≤ p.x < max.x` and `min.y ≤ p.y < max.y` for the grid bounding box, the upper sides
excluded; every origin that fails the inclusive test `min ≤ p ≤ max` is rejected, every
origin on the upper edge `p.x = max.x` or `p.y = max.y` is rejected as well, and a rejected
origin gives the empty list. -/
theorem origin_check_excludes_upper_edge {K : Type} [LinearOrderedField K] [FloorRing K]
    (o : SVec2f K) :
    (ray_origin_out_of_grid_bounds o ↔
      ¬ ((grid_bounding_box (K := K)).min.x ≤ o.x ∧ o.x < (grid_bounding_box (K := K)).max.x ∧
         (grid_bounding_box (K := K)).min.y ≤ o.y ∧ o.y < (grid_bounding_box (K := K)).max.y)) ∧
    (¬ ((grid_bounding_box (K := K)).min.x ≤ o.x ∧ o.x ≤ (grid_bounding_box (K := K)).max.x ∧
        (grid_bounding_box (K := K)).min.y ≤ o.y ∧ o.y ≤ (grid_bounding_box (K := K)).max.y) →
      ray_origin_out_of_grid_bounds o) ∧
    (o.x = (grid_bounding_box (K := K)).max.x ∨ o.y = (grid_bounding_box (K := K)).max.y →
      ray_origin_out_of_grid_bounds o) ∧
    (ray_origin_out_of_grid_bounds o → ∀ (sqrtf : K → K) (fuel : Nat) (v : SVec2f K),
      generateRaycastPointsAlongEdges sqrtf fuel o v = some []) := by
  have hbox : (grid_bounding_box (K := K)) = ⟨⟨0, 0⟩, ⟨800, 600⟩⟩ := by
    simp [grid_bounding_box, gridDimensions_eq, gridOriginBottomLeft]
  rw [hbox, ray_origin_out_of_grid_bounds_iff]
  simp only
  refine ⟨?_, ?_, ?_, ?_⟩
  · constructor
    · rintro (h | h | h | h) ⟨h1, h2, h3, h4⟩ <;> linarith
    · intro h
      by_contra hc
      simp only [not_or, not_lt, ge_iff_le, not_le] at hc
      exact h ⟨hc.1, hc.2.1, hc.2.2.1, hc.2.2.2⟩
  · intro h
    by_contra hc
    simp only [not_or, not_lt, ge_iff_le, not_le] at hc
    exact h ⟨hc.1, le_of_lt hc.2.1, hc.2.2.1, le_of_lt hc.2.2.2⟩
  · rintro (h | h)
    · exact Or.inr (Or.inl (le_of_eq h.symm))
    · exact Or.inr (Or.inr (Or.inr (le_of_eq h.symm)))
  · intro h sqrtf fuel v
    unfold generateRaycastPointsAlongEdges
    rw [if_pos ((ray_origin_out_of_grid_bounds_iff o).mpr h)]

/-- Witness of the amended C14: the origin (10, 600) on the upper edge of the grid. -/
theorem origin_check_excludes_upper_edge_witness :
    ray_origin_out_of_grid_bounds (⟨10, 600⟩ : SVec2f ℝ) :=
  (origin_check_excludes_upper_edge (⟨10, 600⟩ : SVec2f ℝ)).2.2.1
    (Or.inr (by simp [grid_bounding_box, gridDimensions_eq, gridOriginBottomLeft]))

/-- Counterexample to C14 as stated: the origin (800, 10) passes the inclusive test
`min ≤ p ≤ max` of the grid bounding box, yet the origin check rejects it and the ray from
there along (-100, 0) gives the empty list. -/
theorem origin_on_max_edge_counterexample :
    ((grid_bounding_box (K := ℝ)).min.x ≤ (⟨800, 10⟩ : SVec2f ℝ).x ∧
      (⟨800, 10⟩ : SVec2f ℝ).x ≤ (grid_bounding_box (K := ℝ)).max.x ∧
      (grid_bounding_box (K := ℝ)).min.y ≤ (⟨800, 10⟩ : SVec2f ℝ).y ∧
      (⟨800, 10⟩ : SVec2f ℝ).y ≤ (grid_bounding_box (K := ℝ)).max.y) ∧
    ray_origin_out_of_grid_bounds (⟨800, 10⟩ : SVec2f ℝ) ∧
    generateRaycastPointsAlongEdges Real.sqrt 41 (⟨800, 10⟩ : SVec2f ℝ) ⟨-100, 0⟩ = some [] := by
  have ho : ray_origin_out_of_grid_bounds (⟨800, 10⟩ : SVec2f ℝ) := by
    rw [ray_origin_out_of_grid_bounds_iff]
    norm_num
  refine ⟨?_, ho, ?_⟩
  · simp only [grid_bounding_box, gridDimensions_eq, gridOriginBottomLeft]
    norm_num
  · unfold generateRaycastPointsAlongEdges
    rw [if_pos ho]

/-- C15: with 41 units of fuel both passes return.  A buffer left by the pass over vertical
edges holds at most `tilesOnGridAxis.x + 1` impacts, fewer than `MAX_POINTS_PER_AXIS`, and
when the stepping loop of that pass is entered it leaves through one of its two `break`s at
a step `m` with `m ≤ tilesOnGridAxis.x + 1`, having recorded the first impact and the
impacts of all steps before `m`; the same holds for the pass over horizontal edges with
`tilesOnGridAxis.y + 1`. -/
theorem stepping_loops_end {K : Type} [LinearOrderedField K] [FloorRing K]
    (sqrtf : K → K) (fuel : Nat) (o v : SVec2f K) (hf : 41 ≤ fuel) :
    (∃ out, raycast_pass_x sqrtf fuel o v = some out ∧
      (∀ xs, out = PassOutcome.recorded xs →
        (xs.length : Int) ≤ tilesOnGridAxis.x + 1 ∧ xs.length < MAX_POINTS_PER_AXIS) ∧
      ((raycast_direction v).x ≠ 0 → (intersect_times_initial o v).x < 1 →
        ¬ out_of_grid_bounds (initial_impact_position_raycast_x o v) →
        ∃ m : Nat, 1 ≤ m ∧ (m : Int) ≤ tilesOnGridAxis.x + 1 ∧
          step_stops sqrtf (raycast_length sqrtf v) (initial_impact_position_raycast_x o v)
            (step_size_x v)
            (origin_to_initial_impact_length sqrtf o (initial_impact_position_raycast_x o v)) m ∧
          out = PassOutcome.recorded
            (initial_impact_raycast_x o v ::
              (List.range' 1 (m - 1)).map
                (stepped_impact_x sqrtf v (raycast_length sqrtf v)
                  (initial_impact_position_raycast_x o v) (step_size_x v)
                  (origin_to_initial_impact_length sqrtf o
                    (initial_impact_position_raycast_x o v)))))) ∧
    (∃ out, raycast_pass_y sqrtf fuel o v = some out ∧
      (∀ ys, out = PassOutcome.recorded ys →
        (ys.length : Int) ≤ tilesOnGridAxis.y + 1 ∧ ys.length < MAX_POINTS_PER_AXIS) ∧
      ((raycast_direction v).y ≠ 0 → (intersect_times_initial o v).y < 1 →
        ¬ out_of_grid_bounds (initial_impact_position_raycast_y o v) →
        ∃ m : Nat, 1 ≤ m ∧ (m : Int) ≤ tilesOnGridAxis.y + 1 ∧
          step_stops sqrtf (raycast_length sqrtf v) (initial_impact_position_raycast_y o v)
            (step_size_y v)
            (origin_to_initial_impact_length sqrtf o (initial_impact_position_raycast_y o v)) m ∧
          out = PassOutcome.recorded
            (initial_impact_raycast_y o v ::
              (List.range' 1 (m - 1)).map
                (stepped_impact_y sqrtf v (raycast_length sqrtf v)
                  (initial_impact_position_raycast_y o v) (step_size_y v)
                  (origin_to_initial_impact_length sqrtf o
                    (initial_impact_position_raycast_y o v)))))) := by
  rw [tilesOnGridAxis_eq]
  constructor
  · by_cases hr : pass_x_runs o v
    · by_cases hb : out_of_grid_bounds (initial_impact_position_raycast_x o v)
      · refine ⟨_, raycast_pass_x_aborted sqrtf fuel o v hr hb, ?_, ?_⟩
        · intro xs hxs; cases hxs
        · intro _ _ hnb; exact absurd hb hnb
      · obtain ⟨m, h1, h2, h3, _, h5⟩ := raycast_pass_x_buffer sqrtf fuel o v hf hr hb
        refine ⟨_, h5, ?_, ?_⟩
        · intro xs hxs
          cases hxs
          simp only [List.length_cons, List.length_map, List.length_range', MAX_POINTS_PER_AXIS]
          constructor
          · push_cast; omega
          · omega
        · intro _ _ _
          exact ⟨m, h1, by push_cast; omega, h3, rfl⟩
    · refine ⟨_, raycast_pass_x_skipped sqrtf fuel o v hr, ?_, ?_⟩
      · intro xs hxs
        cases hxs
        simp [MAX_POINTS_PER_AXIS]
      · intro hd ht _; exact absurd ⟨hd, ht⟩ hr
  · by_cases hr : pass_y_runs o v
    · by_cases hb : out_of_grid_bounds (initial_impact_position_raycast_y o v)
      · refine ⟨_, raycast_pass_y_aborted sqrtf fuel o v hr hb, ?_, ?_⟩
        · intro ys hys; cases hys
        · intro _ _ hnb; exact absurd hb hnb
      · obtain ⟨m, h1, h2, h3, _, h5⟩ :=
          raycast_pass_y_buffer sqrtf fuel o v (by omega) hr hb
        refine ⟨_, h5, ?_, ?_⟩
        · intro ys hys
          cases hys
          simp only [List.length_cons, List.length_map, List.length_range', MAX_POINTS_PER_AXIS]
          constructor
          · push_cast; omega
          · omega
        · intro _ _ _
          exact ⟨m, h1, by push_cast; omega, h3, rfl⟩
    · refine ⟨_, raycast_pass_y_skipped sqrtf fuel o v hr, ?_, ?_⟩
      · intro ys hys
        cases hys
        simp [MAX_POINTS_PER_AXIS]
      · intro hd ht _; exact absurd ⟨hd, ht⟩ hr

/-- Witness of C15: scenario A with 41 units of fuel; the pass over vertical edges returns
a buffer, which holds at most 41 impacts. -/
theorem stepping_loops_end_witness :
    ∃ out, raycast_pass_x Real.sqrt 41 (⟨10, 10⟩ : SVec2f ℝ) ⟨100, 0⟩ = some out ∧
      ∀ xs, out = PassOutcome.recorded xs →
        (xs.length : Int) ≤ tilesOnGridAxis.x + 1 ∧ xs.length < MAX_POINTS_PER_AXIS := by
  obtain ⟨out, h1, h2, _⟩ :=
    (stepping_loops_end Real.sqrt 41 (⟨10, 10⟩ : SVec2f ℝ) ⟨100, 0⟩ (by decide)).1
  exact ⟨out, h1, h2⟩

/-- C13: with exact real arithmetic, for a ray whose origin is inside the grid and whose end
point is inside the grid bounds.  If `vector.x > 0` and the end point is on no vertical grid
line, the pass over vertical edges records an impact on each vertical grid line
`x = q * tile width` with `origin.x < q * tile width < origin.x + vector.x`, every recorded
impact is on such a line, and the recorded `x` coordinates increase strictly from one
impact to the next, so each line has exactly one impact.  If `vector.x < 0`, the same holds
for the lines with `origin.x ≥ q * tile width > origin.x + vector.x`, in strictly
decreasing order.  The pass over horizontal edges behaves in the same way with the
horizontal grid lines. -/
theorem axis_pass_complete (fuel : Nat) (o v : SVec2f ℝ) (hf : 41 ≤ fuel)
    (ho : ¬ ray_origin_out_of_grid_bounds o)
    (hterm : ¬ out_of_grid_bounds (⟨o.x + v.x, o.y + v.y⟩ : SVec2f ℝ)) :
    (0 < v.x → (∀ q : Int, o.x + v.x ≠ (q : ℝ) * (gridTileDimensions.x : ℝ)) →
      ∃ xs, raycast_pass_x Real.sqrt fuel o v = some (PassOutcome.recorded xs) ∧
        (∀ q : Int, o.x < (q : ℝ) * (gridTileDimensions.x : ℝ) →
          (q : ℝ) * (gridTileDimensions.x : ℝ) < o.x + v.x →
          ∃ e ∈ xs, e.impact_point.x = (q : ℝ) * (gridTileDimensions.x : ℝ)) ∧
        (∀ e ∈ xs, ∃ q : Int, e.impact_point.x = (q : ℝ) * (gridTileDimensions.x : ℝ) ∧
          o.x < (q : ℝ) * (gridTileDimensions.x : ℝ) ∧
          (q : ℝ) * (gridTileDimensions.x : ℝ) < o.x + v.x) ∧
        List.Sorted (fun a b => a < b) (xs.map (fun e => e.impact_point.x))) ∧
    (v.x < 0 → (∀ q : Int, o.x + v.x ≠ (q : ℝ) * (gridTileDimensions.x : ℝ)) →
      ∃ xs, raycast_pass_x Real.sqrt fuel o v = some (PassOutcome.recorded xs) ∧
        (∀ q : Int, (q : ℝ) * (gridTileDimensions.x : ℝ) ≤ o.x →
          o.x + v.x < (q : ℝ) * (gridTileDimensions.x : ℝ) →
          ∃ e ∈ xs, e.impact_point.x = (q : ℝ) * (gridTileDimensions.x : ℝ)) ∧
        (∀ e ∈ xs, ∃ q : Int, e.impact_point.x = (q : ℝ) * (gridTileDimensions.x : ℝ) ∧
          (q : ℝ) * (gridTileDimensions.x : ℝ) ≤ o.x ∧
          o.x + v.x < (q : ℝ) * (gridTileDimensions.x : ℝ)) ∧
        List.Sorted (fun a b => a > b) (xs.map (fun e => e.impact_point.x))) ∧
    (0 < v.y → (∀ q : Int, o.y + v.y ≠ (q : ℝ) * (gridTileDimensions.y : ℝ)) →
      ∃ ys, raycast_pass_y Real.sqrt fuel o v = some (PassOutcome.recorded ys) ∧
        (∀ q : Int, o.y < (q : ℝ) * (gridTileDimensions.y : ℝ) →
          (q : ℝ) * (gridTileDimensions.y : ℝ) < o.y + v.y →
          ∃ e ∈ ys, e.impact_point.y = (q : ℝ) * (gridTileDimensions.y : ℝ)) ∧
        (∀ e ∈ ys, ∃ q : Int, e.impact_point.y = (q : ℝ) * (gridTileDimensions.y : ℝ) ∧
          o.y < (q : ℝ) * (gridTileDimensions.y : ℝ) ∧
          (q : ℝ) * (gridTileDimensions.y : ℝ) < o.y + v.y) ∧
        List.Sorted (fun a b => a < b) (ys.map (fun e => e.impact_point.y))) ∧
    (v.y < 0 → (∀ q : Int, o.y + v.y ≠ (q : ℝ) * (gridTileDimensions.y : ℝ)) →
      ∃ ys, raycast_pass_y Real.sqrt fuel o v = some (PassOutcome.recorded ys) ∧
        (∀ q : Int, (q : ℝ) * (gridTileDimensions.y : ℝ) ≤ o.y →
          o.y + v.y < (q : ℝ) * (gridTileDimensions.y : ℝ) →
          ∃ e ∈ ys, e.impact_point.y = (q : ℝ) * (gridTileDimensions.y : ℝ)) ∧
        (∀ e ∈ ys, ∃ q : Int, e.impact_point.y = (q : ℝ) * (gridTileDimensions.y : ℝ) ∧
          (q : ℝ) * (gridTileDimensions.y : ℝ) ≤ o.y ∧
          o.y + v.y < (q : ℝ) * (gridTileDimensions.y : ℝ)) ∧
        List.Sorted (fun a b => a > b) (ys.map (fun e => e.impact_point.y))) := by
  have h20x : ((gridTileDimensions.x : Int) : ℝ) = 20 := by simp [gridTileDimensions]
  have h20y : ((gridTileDimensions.y : Int) : ℝ) = 20 := by simp [gridTileDimensions]
  rw [h20x, h20y]
  exact ⟨fun hv hnl => pass_x_complete_right fuel o v hf ho hterm hv hnl,
    fun hv hnl => pass_x_complete_left fuel o v hf ho hterm hv hnl,
    fun hv hnl => pass_y_complete_up fuel o v (by omega) ho hterm hv hnl,
    fun hv hnl => pass_y_complete_down fuel o v (by omega) ho hterm hv hnl⟩

/-- Witness of C13: scenario A, the ray from (10, 10) along (100, 0), which ends at
`x = 110` between two vertical grid lines. -/
theorem axis_pass_complete_witness :
    ∃ xs, raycast_pass_x Real.sqrt 41 (⟨10, 10⟩ : SVec2f ℝ) ⟨100, 0⟩
        = some (PassOutcome.recorded xs) ∧
      (∀ q : Int, (10 : ℝ) < (q : ℝ) * (gridTileDimensions.x : ℝ) →
        (q : ℝ) * (gridTileDimensions.x : ℝ) < (10 : ℝ) + 100 →
        ∃ e ∈ xs, e.impact_point.x = (q : ℝ) * (gridTileDimensions.x : ℝ)) ∧
      (∀ e ∈ xs, ∃ q : Int, e.impact_point.x = (q : ℝ) * (gridTileDimensions.x : ℝ) ∧
        (10 : ℝ) < (q : ℝ) * (gridTileDimensions.x : ℝ) ∧
        (q : ℝ) * (gridTileDimensions.x : ℝ) < (10 : ℝ) + 100) ∧
      List.Sorted (fun a b => a < b) (xs.map (fun e => e.impact_point.x)) :=
  (axis_pass_complete 41 (⟨10, 10⟩ : SVec2f ℝ) ⟨100, 0⟩ (by decide) scenarioA_origin_in_grid
    (by rw [in_grid_bounds_iff]; norm_num)).1
    (by norm_num)
    (by
      intro q h
      have h20 : ((gridTileDimensions.x : Int) : ℝ) = 20 := by simp [gridTileDimensions]
      rw [h20] at h
      have hsum : (10 : ℝ) + 100 = (q : ℝ) * 20 := h
      have h2 : ((110 : Int) : ℝ) = ((q * 20 : Int) : ℝ) := by
        push_cast
        linarith
      have h3 : (110 : Int) = q * 20 := by exact_mod_cast h2
      omega)

end Claims

end GridRaycast
